import Mathlib

/-!
# qtractor MIDI core: monitor ring, engine scheduling, capture and bus helpers

A shallow embedding of `qtractorMidiMonitor.cpp` and of `qtractorMidiEngine.cpp`: the output
cycle and its enqueue, the input capture, track mute, the MMC messages, the direct helpers
of a bus with its patch map, and the wake from the audio callback.

Machine integers are natural numbers or integers reduced explicitly:
`unsigned long` is 64 bits wide, `unsigned int` 32 bits, `unsigned char` 8 bits,
`long` is a 64-bit two's complement integer (LP64). A `float` is an IEEE 754 binary32
number, held as the rational it stands for; every `float` operation rounds its exact result
to the nearest `float`, ties to even.
-/

namespace Qtractor

/-! ## Machine arithmetic -/

/-- Number of values of an `unsigned long` (64 bits). -/
def ULONG_SIZE : Nat := 2 ^ 64

/-- Number of values of an `unsigned int` (32 bits). -/
def UINT_SIZE : Nat := 2 ^ 32

/-- Number of values of an `unsigned char` (8 bits). -/
def UCHAR_SIZE : Nat := 2 ^ 8

/-- Conversion of an integer to `unsigned long`: reduction modulo `2^64`. -/
def toULong (x : Int) : Nat := (x % 2 ^ 64).toNat

/-- Conversion of an integer to `long`: two's complement wrap into `[-2^63, 2^63)`. -/
def toLong (x : Int) : Int := (x + 2 ^ 63) % 2 ^ 64 - 2 ^ 63

/-- Conversion of an `unsigned int` to `int`: two's complement wrap into `[-2^31, 2^31)`. -/
def toInt32 (x : Int) : Int := (x + 2 ^ 31) % 2 ^ 32 - 2 ^ 31

/-- The integer nearest to `t`, the even one of the two when `t` lies half-way: the rounding
of IEEE 754 arithmetic in its default mode. -/
def roundHalfEven (t : ℚ) : Int :=
  if t - ⌊t⌋ < 1 / 2 then ⌊t⌋
  else if 1 / 2 < t - ⌊t⌋ then ⌊t⌋ + 1
  else if ⌊t⌋ % 2 = 0 then ⌊t⌋ else ⌊t⌋ + 1

/-- The binary exponent at which a `float` (IEEE 754 binary32) holds a number near `x`:
`⌊log2 |x|⌋`, and `-126` at least (below `2^-126` the values are subnormal). -/
def floatExponent (x : ℚ) : Int := max (Int.log 2 |x|) (-126)

/-- The `float` nearest to the rational `x`, ties to even: what a `float` operation with
the exact result `x` returns. The values of a `float` with exponent `e` are the multiples of
`2^(e - 23)`. Overflow to infinity (from `2^128` on) is not modelled. -/
def roundFloat (x : ℚ) : ℚ :=
  (roundHalfEven (x / 2 ^ (floatExponent x - 23)) : ℚ) * 2 ^ (floatExponent x - 23)

/-! ## MIDI event kinds (`qtractorMidiEvent::EventType`) -/

/-- The event types of `qtractorMidiEvent`. -/
inductive EventType where
  | NOTEOFF | NOTEON | KEYPRESS | CONTROLLER | PGMCHANGE | CHANPRESS | PITCHBEND | SYSEX | META
deriving DecidableEq, Repr

/-! ## qtractorMidiMonitor -/

/-- Module constant `c_iQueueSize`. -/
def c_iQueueSize : Nat := 16

/-- Module constant `c_iQueueMask = c_iQueueSize - 1`. -/
def c_iQueueMask : Nat := c_iQueueSize - 1

/-- One monitor slot (`QueueItem`): an 8-bit peak value and a 32-bit event count. -/
structure QueueItem where
  value : Nat
  count : Nat
deriving DecidableEq, Repr

instance : Inhabited QueueItem := ⟨⟨0, 0⟩⟩

/-- The process-wide monitor clock: the singletons `s_iFrameSlot` and `s_iTimeSlot`. -/
structure MonitorClock where
  iFrameSlot : Nat
  iTimeSlot : Nat
deriving DecidableEq, Repr

/-- The members of a `qtractorMidiMonitor`: the direct item `m_item`, the ring
`m_pQueue`, `m_iQueueIndex`, `m_iFrameStart` and `m_iTimeStart`. -/
structure MidiMonitor where
  item : QueueItem
  queue : List QueueItem
  iQueueIndex : Nat
  iFrameStart : Nat
  iTimeStart : Nat
deriving DecidableEq, Repr

instance : Inhabited MidiMonitor := ⟨⟨default, List.replicate c_iQueueSize default, 0, 0, 0⟩⟩

/-- What `reset` and `value` read from the session singleton: the play-head, the
audio cursor frame-time and the time-scale conversion `tickFromFrame`. -/
structure MonitorSession where
  playHead : Nat
  frameTime : Nat
  tickFromFrame : Nat → Nat

/-- The update both branches of `enqueue` apply to an item: keep the larger value
for a NOTEON, and increment the count. -/
def QueueItem.put (item : QueueItem) (type : EventType) (val : Nat) : QueueItem :=
  { value := if item.value < val ∧ type = EventType.NOTEON then val else item.value
    count := (item.count + 1) % UINT_SIZE }

/-- The ring index `iIndex` computed by `enqueue` for a scheduled value, or `none`
when the value goes to the direct item. `iOffset` is an `unsigned int`. -/
def enqueueIndex (clk : MonitorClock) (m : MidiMonitor) (tick : Nat) : Option Nat :=
  if m.iTimeStart < tick ∧ 0 < clk.iTimeSlot then
    let iOffset := ((tick - m.iTimeStart) / clk.iTimeSlot) % UINT_SIZE
    let iOffset := if iOffset > c_iQueueMask then c_iQueueMask else iOffset
    some (((m.iQueueIndex + iOffset) % UINT_SIZE) &&& c_iQueueMask)
  else
    none

/-- The method `qtractorMidiMonitor::enqueue(type, val, tick)`. -/
def MidiMonitor.enqueue (clk : MonitorClock) (m : MidiMonitor)
    (type : EventType) (val : Nat) (tick : Nat) : MidiMonitor :=
  match enqueueIndex clk m tick with
  | some iIndex =>
    { m with queue := m.queue.set iIndex ((m.queue.getD iIndex default).put type val) }
  | none =>
    { m with item := m.item.put type val }

/-- The running state of the sweep loop of `value()`: the monitor, the local
`val`, and the ring indices read so far (oldest first). -/
structure Sweep where
  mon : MidiMonitor
  val : Nat
  swept : List Nat
deriving DecidableEq, Repr

/-- One iteration of the `while` loop of `value()`. -/
def sweepStep (clk : MonitorClock) (s : Sweep) : Sweep :=
  let item := s.mon.queue.getD s.mon.iQueueIndex default
  { mon :=
      { item := { s.mon.item with count := (s.mon.item.count + item.count) % UINT_SIZE }
        queue := s.mon.queue.set s.mon.iQueueIndex ⟨0, 0⟩
        iQueueIndex := ((s.mon.iQueueIndex + 1) % UINT_SIZE) &&& c_iQueueMask
        iFrameStart := (s.mon.iFrameStart + clk.iFrameSlot) % ULONG_SIZE
        iTimeStart := (s.mon.iTimeStart + clk.iTimeSlot) % ULONG_SIZE }
    val := if s.val < item.value then item.value else s.val
    swept := s.swept ++ [s.mon.iQueueIndex] }

/-- The loop `while (m_iFrameStart < iFrameEnd)` of `value()`, run with a bound on
the number of iterations; `none` when the bound is exhausted. -/
def sweep (clk : MonitorClock) (iFrameEnd : Nat) : Nat → Sweep → Option Sweep
  | fuel, s =>
    if s.mon.iFrameStart < iFrameEnd then
      match fuel with
      | 0 => none
      | fuel + 1 => sweep clk iFrameEnd fuel (sweepStep clk s)
    else
      some s

/-- The method `qtractorMidiMonitor::value()` up to the final scaling: the monitor
afterwards, the 8-bit peak `val` and the ring indices swept. `session` is the
audio frame-time when the session singleton exists. -/
def MidiMonitor.value (clk : MonitorClock) (session : Option Nat) (fuel : Nat)
    (m : MidiMonitor) : Option Sweep :=
  let val := m.item.value
  let m0 : MidiMonitor := { m with item := { m.item with value := 0 } }
  match session with
  | some iFrameEnd =>
    if 0 < clk.iFrameSlot then sweep clk iFrameEnd fuel ⟨m0, val, []⟩
    else some ⟨m0, val, []⟩
  | none => some ⟨m0, val, []⟩

/-- The quotient `(gain() * val) / 127.0f` of `value()` in exact rational arithmetic: the
number that the `float` returned, `valueFloat`, approximates. -/
def valueResult (gain : ℚ) (val : Nat) : ℚ := (gain * (val : ℚ)) / 127

/-- The `float` returned by `value()`: `(gain() * val) / 127.0f`, the product and the
quotient each rounded to `float` (`val` and `127` are exact). -/
def valueFloat (gain : ℚ) (val : Nat) : ℚ :=
  roundFloat (roundFloat (gain * (val : ℚ)) / 127)

/-- The method `qtractorMidiMonitor::count()`: returns `int(m_item.count)` and
clears the direct count. -/
def MidiMonitor.count (m : MidiMonitor) : MidiMonitor × Int :=
  ({ m with item := { m.item with count := 0 } }, toInt32 m.item.count)

/-- The method `qtractorMidiMonitor::reset()`. -/
def MidiMonitor.reset (session : Option MonitorSession) (m : MidiMonitor) : MidiMonitor :=
  let iFrameStart := match session with
    | some s => s.frameTime
    | none => 0
  let iTimeStart := match session with
    | some s =>
      toULong ((s.tickFromFrame ((s.playHead + s.frameTime) % ULONG_SIZE) : Int)
        - (s.tickFromFrame s.playHead : Int))
    | none => 0
  { item := ⟨0, 0⟩
    queue := (List.range c_iQueueSize).foldl (fun q i => q.set i ⟨0, 0⟩) m.queue
    iQueueIndex := 0
    iFrameStart := iFrameStart
    iTimeStart := iTimeStart }

/-- The method `qtractorMidiMonitor::syncReset()`, given the engine read-ahead. -/
def syncReset (session : Option MonitorSession) (readAhead : Nat) (clk : MonitorClock) :
    MonitorClock :=
  match session with
  | none => clk
  | some s =>
    let iFrameSlot := ((readAhead * 2) % UINT_SIZE) / c_iQueueSize
    { iFrameSlot := iFrameSlot
      iTimeSlot := toULong ((s.tickFromFrame ((s.playHead + iFrameSlot) % ULONG_SIZE) : Int)
        - (s.tickFromFrame s.playHead : Int)) }

/-! ## qtractorMidiEngine: output scheduling -/

/-- Controller number `CHANNEL_VOLUME`. -/
def CHANNEL_VOLUME : Nat := 0x07

/-- Controller number `CHANNEL_PANNING`. -/
def CHANNEL_PANNING : Nat := 0x0a

/-- The sequencer event types `enqueue` assigns; `SYSTEM` (zero) is what
`snd_seq_ev_clear` leaves when no case of the switch applies. -/
inductive SndSeqType where
  | SYSTEM | NOTE | KEYPRESS | CONTROLLER | PGMCHANGE | CHANPRESS | PITCHBEND | SYSEX
deriving DecidableEq, Repr

/-- The fields of a `snd_seq_event_t` that the engine sets. `tick` is `time.tick`, an
`unsigned int`, as `snd_seq_ev_schedule_tick` assigns it; `subs` records
`snd_seq_ev_set_subs`. -/
structure SndSeqEvent where
  type : SndSeqType
  tag : Nat
  queue : Int
  tick : Nat
  scheduled : Bool
  sourcePort : Int
  subs : Bool
  channel : Nat
  param : Nat
  value : Nat
  duration : Nat
  sysex : List Nat
deriving DecidableEq, Repr

/-- The event handed over by `snd_seq_ev_clear`. -/
def SndSeqEvent.clear : SndSeqEvent :=
  ⟨SndSeqType.SYSTEM, 0, 0, 0, false, 0, false, 0, 0, 0, 0, []⟩

/-- A `qtractorMidiEvent` as `enqueue` reads it: `note()` and `controller()` are
the first data byte, `velocity()` and `value()` the second. -/
structure MidiEvent where
  type : EventType
  note : Nat
  value : Nat
  duration : Nat
  sysex : List Nat
deriving DecidableEq, Repr

/-- The first data byte read as `controller()`. -/
def MidiEvent.controller (ev : MidiEvent) : Nat := ev.note

/-- A `qtractorMidiBus` as the output path reads it: its sequencer port and the
monitor `midiMonitor_out()` (an index into the engine's monitors), when it has one. -/
structure MidiBus where
  alsaPort : Int
  monitorOut : Option Nat
deriving DecidableEq, Repr

/-- A `qtractorTrack` as the output path reads it. -/
structure Track where
  outputBus : Option MidiBus
  midiTag : Nat
  midiChannel : Nat
  monitor : Option Nat
deriving DecidableEq, Repr

/-- The engine members the output path touches: `m_iTimeStart`, `m_iTimeDelta`,
`m_iAlsaQueue`, the events staged by `snd_seq_event_output` (oldest first), the
events already drained to the wire, and the monitors owned by tracks and buses. -/
structure MidiEngine where
  iTimeStart : Int
  iTimeDelta : Int
  iAlsaQueue : Int
  output : List SndSeqEvent
  drained : List SndSeqEvent
  monitors : Nat → MidiMonitor

/-- The scaled note velocity `(unsigned char) (fGain * float(value)) & 0x7f`: the product is
a `float` product, rounded to `float` before it is truncated. For a product outside
`[0, 256)` the conversion is undefined; the model then keeps the low byte of the integer
part, and `0` for a negative product. -/
def scaleVelocity (fGain : ℚ) (value : Nat) : Nat :=
  ((Int.toNat ⌊roundFloat (fGain * (value : ℚ))⌋) % UCHAR_SIZE) &&& 0x7f

/-- Whether `enqueue` drops the event: a controller for channel volume or panning. -/
def MidiEvent.isMixerController (ev : MidiEvent) : Bool :=
  decide (ev.type = EventType.CONTROLLER) &&
    (decide (ev.controller = CHANNEL_VOLUME) || decide (ev.controller = CHANNEL_PANNING))

/-- The `value` local of `enqueue` after the switch. -/
def enqueueValue (pEvent : MidiEvent) (fGain : ℚ) : Nat :=
  if pEvent.type = EventType.NOTEON then scaleVelocity fGain pEvent.value else pEvent.value

/-- The sequencer event `enqueue` builds. `snd_seq_ev_schedule_tick` stores the
`unsigned long` local `tick` in the `unsigned int` field `time.tick`, which narrows it. -/
def enqueueEvent (iAlsaQueue : Int) (pTrack : Track) (pMidiBus : MidiBus)
    (pEvent : MidiEvent) (tick : Nat) (value : Nat) : SndSeqEvent :=
  let ev : SndSeqEvent :=
    { SndSeqEvent.clear with
      tag := (pTrack.midiTag &&& 0xff) % UCHAR_SIZE
      sourcePort := pMidiBus.alsaPort
      subs := true
      scheduled := true
      queue := iAlsaQueue
      tick := tick % UINT_SIZE }
  match pEvent.type with
  | EventType.NOTEON =>
    { ev with type := SndSeqType.NOTE, channel := pTrack.midiChannel, param := pEvent.note,
              value := value, duration := pEvent.duration }
  | EventType.KEYPRESS =>
    { ev with type := SndSeqType.KEYPRESS, channel := pTrack.midiChannel,
              param := pEvent.note, value := value }
  | EventType.CONTROLLER =>
    { ev with type := SndSeqType.CONTROLLER, channel := pTrack.midiChannel,
              param := pEvent.controller, value := value }
  | EventType.PGMCHANGE =>
    { ev with type := SndSeqType.PGMCHANGE, channel := pTrack.midiChannel, value := value }
  | EventType.CHANPRESS =>
    { ev with type := SndSeqType.CHANPRESS, channel := pTrack.midiChannel, value := value }
  | EventType.PITCHBEND =>
    { ev with type := SndSeqType.PITCHBEND, channel := pTrack.midiChannel, value := value }
  | EventType.SYSEX =>
    { ev with type := SndSeqType.SYSEX, sysex := pEvent.sysex }
  | _ => ev

/-- Enqueue on one of the engine's monitors, when the owner has one. -/
def MidiEngine.monitorEnqueue (clk : MonitorClock) (e : MidiEngine) (mon : Option Nat)
    (type : EventType) (val tick : Nat) : MidiEngine :=
  match mon with
  | some i =>
    { e with monitors := Function.update e.monitors i ((e.monitors i).enqueue clk type val tick) }
  | none => e

/-- The method `qtractorMidiEngine::enqueue(pTrack, pEvent, iTime, fGain)`. -/
def MidiEngine.enqueue (clk : MonitorClock) (e : MidiEngine) (pTrack : Track)
    (pEvent : MidiEvent) (iTime : Nat) (fGain : ℚ) : MidiEngine :=
  match pTrack.outputBus with
  | none => e
  | some pMidiBus =>
    if pEvent.isMixerController then e
    else
      let tick := toULong ((iTime : Int) - e.iTimeStart)
      let value := enqueueValue pEvent fGain
      let ev := enqueueEvent e.iAlsaQueue pTrack pMidiBus pEvent tick value
      let e1 := { e with output := e.output ++ [ev] }
      let e2 := e1.monitorEnqueue clk pTrack.monitor pEvent.type value tick
      e2.monitorEnqueue clk pMidiBus.monitorOut pEvent.type value tick

/-- The method `qtractorMidiEngine::flush()`. `queueStatus` is the queue tick time
when `snd_seq_get_queue_status` succeeds, `iAudioFrameTime` the audio cursor
frame-time. -/
def MidiEngine.flush (tickFromFrame : Nat → Nat) (queueStatus : Option Nat)
    (iAudioFrameTime : Nat) (e : MidiEngine) : MidiEngine :=
  let e0 := { e with drained := e.drained ++ e.output, output := [] }
  match queueStatus with
  | none => e0
  | some iMidiTime =>
    let iAudioTime := tickFromFrame iAudioFrameTime
    let iTimeDelta :=
      toLong ((toULong ((iAudioTime : Int) - (iMidiTime : Int)) : Int) - e0.iTimeDelta)
    if iTimeDelta ≠ 0 ∧ 0 < iAudioTime ∧ 0 < iMidiTime then
      { e0 with iTimeStart := toLong (e0.iTimeStart + iTimeDelta)
                iTimeDelta := toLong (e0.iTimeDelta + iTimeDelta) }
    else e0

/-- One call `enqueue(track, event, time, gain)` issued by the session. -/
structure EnqueueCall where
  track : Track
  event : MidiEvent
  time : Nat
  gain : ℚ

/-- A `qtractorSessionCursor`: the frame position and the monotonic frame-time. -/
structure SessionCursor where
  frame : Nat
  frameTime : Nat
deriving DecidableEq, Repr

/-- Modelled from the spec: `qtractorSessionCursor::seek` (`c.seek(end)`), which
moves the frame position and leaves the frame-time alone. -/
def SessionCursor.seek (c : SessionCursor) (iFrame : Nat) : SessionCursor :=
  { c with frame := iFrame }

/-- Modelled from the spec: `qtractorSessionCursor::process` (`c.advance(W)`),
which advances the frame-time by the given number of frames. -/
def SessionCursor.process (c : SessionCursor) (nframes : Nat) : SessionCursor :=
  { c with frameTime := (c.frameTime + nframes) % ULONG_SIZE }

/-- The session as the output thread reads it during one cycle. -/
structure Session where
  isLooping : Bool
  loopStart : Nat
  loopEnd : Nat
  tickFromFrame : Nat → Nat
  events : Nat → Nat → List EnqueueCall

/-- Modelled from the spec: `qtractorSession::process(cursor, start, end)`, which
for the clips intersecting the window emits events through `enqueue`;
`events start end` lists those calls in session-iteration order. -/
def sessionEnqueue (clk : MonitorClock) (sess : Session) (e : MidiEngine)
    (iFrameStart iFrameEnd : Nat) : MidiEngine :=
  (sess.events iFrameStart iFrameEnd).foldl
    (fun e c => e.enqueue clk c.track c.event c.time c.gain) e

/-- The method `qtractorMidiEngine::restartLoop()`. -/
def MidiEngine.restartLoop (sess : Session) (e : MidiEngine) : MidiEngine :=
  if sess.isLooping then
    { e with iTimeStart := toLong (e.iTimeStart
        - toLong (sess.tickFromFrame (toULong ((sess.loopEnd : Int) - (sess.loopStart : Int))))) }
  else e

/-- The calls an output cycle makes on its collaborators, recorded in order. -/
inductive Action where
  | sessionProcess (iFrameStart iFrameEnd : Nat)
  | cursorSeek (iFrame : Nat)
  | restartLoop
  | cursorProcess (nframes : Nat)
  | flush
deriving DecidableEq, Repr

/-- The state an output cycle works on: the engine, its MIDI session cursor
(when there is one) and the record of calls made. -/
structure OutputState where
  engine : MidiEngine
  midiCursor : Option SessionCursor
  trace : List Action

/-- What one cycle reads from outside: the audio session cursor at the sync check,
and at flush time the queue status and the audio frame-time. -/
structure CycleInput where
  audioCursor : Option SessionCursor
  queueStatus : Option Nat
  flushFrameTime : Nat

/-- The predicate `qtractorMidiOutputThread::midiCursorSync(bStart)`: the MIDI
cursor (sought to the audio frame when `bStart`), or `none` for `NULL`. -/
def midiCursorSync (iReadAhead : Nat) (pAudioCursor pMidiCursor : Option SessionCursor)
    (bStart : Bool) : Option SessionCursor :=
  match pAudioCursor with
  | none => none
  | some a =>
    match pMidiCursor with
    | none => none
    | some m =>
      if bStart then some (m.seek a.frame)
      else if m.frameTime > (a.frameTime + iReadAhead) % ULONG_SIZE then none
      else some m

/-- The locals of `process()` around its loop: the state and the frame window. -/
structure Cycle where
  st : OutputState
  iFrameStart : Nat
  iFrameEnd : Nat

/-- A call `m_pSession->process(pMidiCursor, iFrameStart, iFrameEnd)`. -/
def OutputState.sessionProcess (clk : MonitorClock) (sess : Session) (st : OutputState)
    (iFrameStart iFrameEnd : Nat) : OutputState :=
  { st with engine := sessionEnqueue clk sess st.engine iFrameStart iFrameEnd
            trace := st.trace ++ [Action.sessionProcess iFrameStart iFrameEnd] }

/-- The body of the loop `while (iFrameEnd >= loopEnd)` of `process()`. -/
def wrapStep (clk : MonitorClock) (sess : Session) (c : Cycle) : Cycle :=
  let st1 := c.st.sessionProcess clk sess c.iFrameStart sess.loopEnd
  let iFrameStart := sess.loopStart
  let iFrameEnd := toULong ((iFrameStart : Int) + ((c.iFrameEnd : Int) - (sess.loopEnd : Int)))
  { st :=
      { engine := st1.engine.restartLoop sess
        midiCursor := st1.midiCursor.map (fun cur => cur.seek iFrameStart)
        trace := st1.trace ++ [Action.cursorSeek iFrameStart, Action.restartLoop] }
    iFrameStart := iFrameStart
    iFrameEnd := iFrameEnd }

/-- The loop `while (iFrameEnd >= loopEnd)` of `process()`, run with a bound on the
number of iterations; `none` when the bound is exhausted. -/
def wrapLoop (clk : MonitorClock) (sess : Session) : Nat → Cycle → Option Cycle
  | fuel, c =>
    if c.iFrameEnd ≥ sess.loopEnd then
      match fuel with
      | 0 => none
      | fuel + 1 => wrapLoop clk sess fuel (wrapStep clk sess c)
    else
      some c

/-- The tail of `process()` after the loop and before `flush()`: the regular range,
the fold at the loop boundary and the cursor update. -/
def finishWindow (clk : MonitorClock) (sess : Session) (iReadAhead : Nat) (c1 : Cycle) :
    OutputState :=
  let st1 := c1.st.sessionProcess clk sess c1.iFrameStart c1.iFrameEnd
  let iFrameEnd :=
    if sess.isLooping ∧ c1.iFrameStart < sess.loopEnd ∧ c1.iFrameEnd ≥ sess.loopEnd then
      toULong ((sess.loopStart : Int) + ((c1.iFrameEnd : Int) - (sess.loopEnd : Int)))
    else c1.iFrameEnd
  { st1 with
    midiCursor := st1.midiCursor.map (fun cur => (cur.seek iFrameEnd).process iReadAhead)
    trace := st1.trace ++ [Action.cursorSeek iFrameEnd, Action.cursorProcess iReadAhead] }

/-- The part of `process()` before the final `flush()`, for a cycle that was not
skipped: the split at the loop end, then the tail. -/
def processWindow (clk : MonitorClock) (sess : Session) (iReadAhead : Nat) (fuel : Nat)
    (st : OutputState) (pMidiCursor : SessionCursor) : Option OutputState :=
  let iFrameStart := pMidiCursor.frame
  let iFrameEnd := (iFrameStart + iReadAhead) % ULONG_SIZE
  let c0 : Cycle := ⟨{ st with midiCursor := some pMidiCursor }, iFrameStart, iFrameEnd⟩
  let looped :=
    if sess.isLooping ∧ iFrameStart < sess.loopEnd then wrapLoop clk sess fuel c0 else some c0
  match looped with
  | none => none
  | some c1 => some (finishWindow clk sess iReadAhead c1)

/-- The method `qtractorMidiOutputThread::process()`: one output cycle. -/
def process (clk : MonitorClock) (sess : Session) (inp : CycleInput) (iReadAhead : Nat)
    (fuel : Nat) (st : OutputState) : Option OutputState :=
  match midiCursorSync iReadAhead inp.audioCursor st.midiCursor false with
  | none => some st
  | some pMidiCursor =>
    match processWindow clk sess iReadAhead fuel st pMidiCursor with
    | none => none
    | some st1 =>
      some
        { st1 with
          engine := st1.engine.flush sess.tickFromFrame inp.queueStatus inp.flushFrameTime
          trace := st1.trace ++ [Action.flush] }

/-- The frame ranges handed to `session.process`, in call order. -/
def processedRanges : List Action → List (Nat × Nat)
  | [] => []
  | Action.sessionProcess a b :: rest => (a, b) :: processedRanges rest
  | _ :: rest => processedRanges rest

/-- The number of `restartLoop` calls recorded. -/
def restartCount : List Action → Nat
  | [] => 0
  | Action.restartLoop :: rest => restartCount rest + 1
  | _ :: rest => restartCount rest

/-- The monitor states reachable from a freshly constructed monitor (a ring of
`c_iQueueSize` items, then `reset()`) by calls of `enqueue`, `value`, `count`
and `reset`, under any monitor clock and audio frame-time at each call, when
every NOTEON value enqueued is at most `bound`. -/
inductive MonitorReachableWithin (bound : Nat) : MidiMonitor → Prop where
  | init (session : Option MonitorSession) (m0 : MidiMonitor)
      (h : m0.queue.length = c_iQueueSize) : MonitorReachableWithin bound (m0.reset session)
  | enqueue (clk : MonitorClock) (m : MidiMonitor) (type : EventType) (val tick : Nat)
      (hval : val < UCHAR_SIZE) (hnote : type = EventType.NOTEON → val ≤ bound) :
      MonitorReachableWithin bound m → MonitorReachableWithin bound (m.enqueue clk type val tick)
  | value (clk : MonitorClock) (session : Option Nat) (fuel : Nat) (m : MidiMonitor) (r : Sweep) :
      MonitorReachableWithin bound m → m.value clk session fuel = some r →
      MonitorReachableWithin bound r.mon
  | count (m : MidiMonitor) : MonitorReachableWithin bound m → MonitorReachableWithin bound m.count.1
  | reset (session : Option MonitorSession) (m : MidiMonitor) :
      MonitorReachableWithin bound m → MonitorReachableWithin bound (m.reset session)

/-- The monitor states reachable with any `unsigned char` values enqueued. -/
def MonitorReachable (m : MidiMonitor) : Prop := MonitorReachableWithin (UCHAR_SIZE - 1) m

/-- Every value held by the monitor, direct or in the ring, is at most `bound`. -/
def MidiMonitor.ValuesWithin (bound : Nat) (m : MidiMonitor) : Prop :=
  m.item.value ≤ bound ∧ ∀ x, x ∈ m.queue → x.value ≤ bound

/-- The number of sweep steps `value()` needs to reach the audio frame-time
`iFrameEnd`: the quotient of `iFrameEnd - m_iFrameStart` by the frame slot, rounded up. -/
def sweepCount (clk : MonitorClock) (m : MidiMonitor) (iFrameEnd : Nat) : Nat :=
  (iFrameEnd - m.iFrameStart + clk.iFrameSlot - 1) / clk.iFrameSlot

/-- The monitor as `value()` leaves it before the sweep: the direct value cleared. -/
def MidiMonitor.clearValue (m : MidiMonitor) : MidiMonitor :=
  { m with item := { m.item with value := 0 } }

/-- A monitor right after `reset()` without a session: everything zero. -/
def freshMonitor : MidiMonitor :=
  ⟨⟨0, 0⟩, List.replicate c_iQueueSize ⟨0, 0⟩, 0, 0, 0⟩

/-- An engine at rest: time start `100`, queue `1`, nothing staged, fresh monitors. -/
def demoEngine : MidiEngine :=
  ⟨100, 0, 1, [], [], fun _ => freshMonitor⟩

/-- The tick length of the loop as `restartLoop()` computes it:
`(long) tickFromFrame(loopEnd - loopStart)`. -/
def loopTicks (sess : Session) : Int :=
  toLong (sess.tickFromFrame (toULong ((sess.loopEnd : Int) - (sess.loopStart : Int))))

/-- A looping session: loop `[1000, 21000)`, 250 frames a tick, no events. -/
def demoSession : Session :=
  ⟨true, 1000, 21000, fun f => f / 250, fun _ _ => []⟩

/-- An output state with the MIDI cursor at frame `5000`, frame-time `5000`. -/
def demoOutputState : OutputState :=
  ⟨demoEngine, some ⟨5000, 5000⟩, []⟩

/-- A cycle input with the audio cursor at frame-time `4000` and no queue status. -/
def demoInput : CycleInput :=
  ⟨some ⟨4000, 4000⟩, none, 4000⟩

/-- A cycle input with the audio cursor far behind: frame-time `0`. -/
def demoInputBehind : CycleInput :=
  ⟨some ⟨0, 0⟩, none, 0⟩

/-- The loop length in frames. -/
def loopLength (sess : Session) : Nat := sess.loopEnd - sess.loopStart

/-- The number of full passes through the loop in a window of `W` frames from frame `s`
that reaches the loop end. -/
def fullLoops (sess : Session) (s W : Nat) : Nat := (s + W - sess.loopEnd) / loopLength sess

/-- The frame at which such a window ends inside the loop. -/
def wrappedEnd (sess : Session) (s W : Nat) : Nat :=
  sess.loopStart + (s + W - sess.loopEnd) % loopLength sess

/-- The total length of a list of frame ranges. -/
def rangesLength (l : List (Nat × Nat)) : Nat := (l.map (fun r => r.2 - r.1)).sum

/-- The locals of `process()` on entry: the window of `W` frames from the cursor. -/
def entryCycle (st : OutputState) (cur : SessionCursor) (W : Nat) : Cycle :=
  ⟨{ st with midiCursor := some cur }, cur.frame, (cur.frame + W) % ULONG_SIZE⟩

/-- The ring invariant: the index is in range and the ring has `c_iQueueSize` slots. -/
def MidiMonitor.InRange (m : MidiMonitor) : Prop :=
  m.iQueueIndex < c_iQueueSize ∧ m.queue.length = c_iQueueSize

/-- The sum of the counts held in a ring. -/
def sumCounts (q : List QueueItem) : Nat := (q.map QueueItem.count).sum

/-- The events counted by a monitor: the direct count plus the counts of all slots. -/
def MidiMonitor.total (m : MidiMonitor) : Nat := m.item.count + sumCounts m.queue

/-- Number of values of an `unsigned short` (16 bits). -/
def USHORT_SIZE : Nat := 2 ^ 16

/-- The sequencer event types `capture` tells apart; `OTHER` stands for every type that
falls to the `default` of its switch. -/
inductive SndSeqInputType where
  | NOTE | NOTEON | NOTEOFF | KEYPRESS | CONTROLLER | PGMCHANGE | CHANPRESS | PITCHBEND
  | SYSEX | OTHER
deriving DecidableEq, Repr

/-- An inbound `snd_seq_event_t` as `capture` reads it: the type, `time.tick`,
`dest.port`, and the members `data.note`, `data.control` and `data.ext` (the bytes at
`ext.ptr`, `ext.len` of them). -/
structure SndSeqInput where
  type : SndSeqInputType
  tick : Nat
  destPort : Int
  noteChannel : Nat
  noteNote : Nat
  noteVelocity : Nat
  noteDuration : Nat
  controlChannel : Nat
  controlParam : Nat
  controlValue : Int
  ext : List Nat
deriving DecidableEq, Repr

/-- The locals of `capture` after its switch: `type`, `iChannel`, `data1`, `data2`,
`duration`, and the bytes `pSysex[0 .. iSysex)` when `pSysex` is set. -/
structure CaptureLocals where
  type : EventType
  iChannel : Nat
  data1 : Nat
  data2 : Nat
  duration : Nat
  sysex : Option (List Nat)
deriving DecidableEq, Repr

/-- The event `capture` allocates for a record clip:
`qtractorMidiEvent(time.tick, type, data1, data2, duration)`, with the sysex bytes set when
`pSysex` is. -/
structure RecordedEvent where
  tick : Nat
  type : EventType
  data1 : Nat
  data2 : Nat
  duration : Nat
  sysex : Option (List Nat)
deriving DecidableEq, Repr

/-- A `qtractorMidiBus` as `capture` reads it: its port and the monitor `midiMonitor_in()`,
which it owns, when it has one. -/
structure InputBus where
  alsaPort : Int
  monitorIn : Option MidiMonitor
deriving DecidableEq, Repr

/-- A `qtractorTrack` as `capture` reads it: whether it is a MIDI track, `isRecord()`,
`midiChannel()`, the port of `inputBus()` when it has one, the sequence of the record clip
`clipRecord()` when it has one, and the track monitor, which it owns, when it has one. -/
structure RecordTrack where
  isMidi : Bool
  isRecord : Bool
  midiChannel : Nat
  inputBus : Option Int
  clipRecord : Option (List RecordedEvent)
  monitor : Option MidiMonitor
deriving DecidableEq, Repr

/-- What `capture` reads from the engine and its surroundings: the monitor clock, the
default `tick` argument of the monitor's `enqueue` (declared in the header), the port of
`m_pIControlBus` when it is set, and whether `m_pNotifyWidget` is set. -/
structure CaptureEnv where
  clk : MonitorClock
  directTick : Nat
  controlPort : Option Int
  notifyWidget : Bool
deriving DecidableEq, Repr

/-- What `capture` changes: the session's tracks, the engine's buses, and the MMC events
posted to the notify widget (their sysex bytes, oldest first). -/
structure CaptureState where
  tracks : List RecordTrack
  buses : List InputBus
  posted : List (List Nat)
deriving DecidableEq, Repr

/-- The test `pSysex[1] == 0x7f && pSysex[3] == 0x06` of `capture`; a read past the end of
the bytes is taken not to match. -/
def mmcTrap (pSysex : List Nat) : Bool :=
  decide (pSysex[1]? = some 0x7f) && decide (pSysex[3]? = some 0x06)

/-- The MMC signature of the spec: the bytes `F0 7F ?? 06 …`. -/
def mmcSignature : List Nat → Bool
  | 0xF0 :: 0x7F :: _ :: 0x06 :: _ => true
  | _ => false

/-- The outcome of the switch of `capture`: the event is not handled (`default`), it is
trapped as an MMC command, or it goes on to the tracks and buses with the locals set. -/
inductive CaptureDecision where
  | unhandled
  | mmc (pSysex : List Nat)
  | route (l : CaptureLocals)
deriving DecidableEq, Repr

/-- The locals set by the note cases of the switch. -/
def noteLocals (type : EventType) (pEv : SndSeqInput) : CaptureLocals :=
  ⟨type, pEv.noteChannel, pEv.noteNote, pEv.noteVelocity, pEv.noteDuration, none⟩

/-- The locals set by the control cases of the switch; `data1` and `data2` are
`unsigned char`. -/
def controlLocals (type : EventType) (data1 : Nat) (pEv : SndSeqInput) : CaptureLocals :=
  ⟨type, pEv.controlChannel, data1 % UCHAR_SIZE, (pEv.controlValue % 256).toNat, 0, none⟩

/-- The switch of `capture` on `pEv->type`. -/
def captureDecode (env : CaptureEnv) (pEv : SndSeqInput) : CaptureDecision :=
  match pEv.type with
  | SndSeqInputType.NOTE | SndSeqInputType.NOTEON =>
    CaptureDecision.route
      (noteLocals (if pEv.noteVelocity = 0 then EventType.NOTEOFF else EventType.NOTEON) pEv)
  | SndSeqInputType.NOTEOFF => CaptureDecision.route (noteLocals EventType.NOTEOFF pEv)
  | SndSeqInputType.KEYPRESS =>
    CaptureDecision.route (controlLocals EventType.KEYPRESS pEv.controlParam pEv)
  | SndSeqInputType.CONTROLLER =>
    CaptureDecision.route (controlLocals EventType.CONTROLLER pEv.controlParam pEv)
  | SndSeqInputType.PGMCHANGE =>
    CaptureDecision.route (controlLocals EventType.PGMCHANGE 0 pEv)
  | SndSeqInputType.CHANPRESS =>
    CaptureDecision.route (controlLocals EventType.CHANPRESS 0 pEv)
  | SndSeqInputType.PITCHBEND =>
    CaptureDecision.route (controlLocals EventType.PITCHBEND 0 pEv)
  | SndSeqInputType.SYSEX =>
    if mmcTrap pEv.ext ∧ env.controlPort = some pEv.destPort then
      CaptureDecision.mmc pEv.ext
    else
      CaptureDecision.route
        ⟨EventType.SYSEX, 0, 0, 0, 0, some (pEv.ext.take (pEv.ext.length % USHORT_SIZE))⟩
  | SndSeqInputType.OTHER => CaptureDecision.unhandled

/-- The event `capture` adds to a record clip. -/
def recordedEvent (pEv : SndSeqInput) (l : CaptureLocals) : RecordedEvent :=
  ⟨pEv.tick, l.type, l.data1, l.data2, l.duration, l.sysex⟩

/-- Whether the track loop of `capture` takes the track: a MIDI track, in record mode, on
the channel `iChannel`, with an input bus on the destination port. -/
def RecordTrack.captures (t : RecordTrack) (pEv : SndSeqInput) (l : CaptureLocals) : Bool :=
  t.isMidi && t.isRecord && decide (t.midiChannel = l.iChannel) &&
    decide (t.inputBus = some pEv.destPort)

/-- Modelled from the spec: `qtractorMidiSequence::addEvent`, which is not in the sources
given; the spec has the event appended to the clip sequence. -/
def addEvent (sequence : List RecordedEvent) (pEvent : RecordedEvent) : List RecordedEvent :=
  sequence ++ [pEvent]

/-- The body of the track loop of `capture` for one track. -/
def captureTrack (env : CaptureEnv) (pEv : SndSeqInput) (l : CaptureLocals)
    (t : RecordTrack) : RecordTrack :=
  if t.captures pEv l then
    { t with
      clipRecord := t.clipRecord.map (fun sequence => addEvent sequence (recordedEvent pEv l))
      monitor := t.monitor.map (fun m => m.enqueue env.clk l.type l.data2 env.directTick) }
  else t

/-- The body of the bus loop of `capture` for one bus. -/
def captureBus (env : CaptureEnv) (pEv : SndSeqInput) (l : CaptureLocals)
    (b : InputBus) : InputBus :=
  if b.alsaPort = pEv.destPort then
    { b with
      monitorIn := b.monitorIn.map (fun m => m.enqueue env.clk l.type l.data2 env.directTick) }
  else b

/-- The method `qtractorMidiEngine::capture(pEv)`. -/
def capture (env : CaptureEnv) (st : CaptureState) (pEv : SndSeqInput) : CaptureState :=
  match captureDecode env pEv with
  | CaptureDecision.unhandled => st
  | CaptureDecision.mmc pSysex =>
    if env.notifyWidget then { st with posted := st.posted ++ [pSysex] } else st
  | CaptureDecision.route l =>
    { st with
      tracks := st.tracks.map (captureTrack env pEv l)
      buses := st.buses.map (captureBus env pEv l) }

/-- A capture environment with the input control bus on port `5` and no notify widget. -/
def demoCaptureEnv : CaptureEnv := ⟨⟨3000, 24⟩, 0, some 5, false⟩

/-- A capture environment with the input control bus on port `5` and a notify widget. -/
def demoCaptureEnvNotify : CaptureEnv := ⟨⟨3000, 24⟩, 0, some 5, true⟩

/-- Two tracks on port `5`: one recording on channel `0` into an empty clip, one recording
on channel `1` without a clip; and the bus on port `5` with an input monitor. -/
def demoCaptureState : CaptureState :=
  ⟨[⟨true, true, 0, some 5, some [], some freshMonitor⟩,
    ⟨true, true, 1, some 5, none, some freshMonitor⟩],
   [⟨5, some freshMonitor⟩], []⟩

/-- An inbound sysex event on port `port` with the given bytes. -/
def sysexInput (port : Int) (bytes : List Nat) : SndSeqInput :=
  ⟨SndSeqInputType.SYSEX, 0, port, 0, 0, 0, 0, 0, 0, 0, bytes⟩

/-- An inbound note event of the given type on port `5`, channel `0`. -/
def noteInput (type : SndSeqInputType) (velocity : Nat) : SndSeqInput :=
  ⟨type, 96, 5, 0, 60, velocity, 0, 0, 0, 0, []⟩

/-! ## qtractorMidiBus: direct dispatch, and track mute -/

/-- Controller number `ALL_NOTES_OFF`. -/
def ALL_NOTES_OFF : Nat := 0x7b

/-- The queue `SND_SEQ_QUEUE_DIRECT` that `snd_seq_ev_set_direct` assigns. -/
def SND_SEQ_QUEUE_DIRECT : Int := 253

/-- What the direct helpers of a bus read from the engine: whether `alsaSeq()` is set (the
engine is open), and what `flush()` reads. -/
structure DirectEnv where
  alsaSeq : Bool
  tickFromFrame : Nat → Nat
  queueStatus : Option Nat
  audioFrameTime : Nat

/-- The event the direct helpers start from: cleared, sourced from the bus port to its
subscribers, direct. -/
def MidiBus.directEvent (bus : MidiBus) : SndSeqEvent :=
  { SndSeqEvent.clear with
    sourcePort := bus.alsaPort
    subs := true
    scheduled := false
    queue := SND_SEQ_QUEUE_DIRECT }

/-- The controller event of `setController`. -/
def MidiBus.controllerEvent (bus : MidiBus) (iChannel iController iValue : Nat) : SndSeqEvent :=
  { bus.directEvent with
    type := SndSeqType.CONTROLLER
    channel := iChannel
    param := iController
    value := iValue }

/-- The method `qtractorMidiBus::setController(iChannel, iController, iValue)`, for the
non-negative controller numbers and values of its call sites. -/
def MidiBus.setController (env : DirectEnv) (bus : MidiBus) (e : MidiEngine)
    (iChannel iController iValue : Nat) : MidiEngine :=
  if env.alsaSeq then
    ({ e with output := e.output ++ [bus.controllerEvent iChannel iController iValue] }
      : MidiEngine).flush env.tickFromFrame env.queueStatus env.audioFrameTime
  else e

/-- The method `qtractorMidiBus::sendSysex(pSysex, iSysex)`: the first `iSysex` bytes at
`pSysex` go out as one direct sysex event. -/
def MidiBus.sendSysex (env : DirectEnv) (bus : MidiBus) (e : MidiEngine)
    (pSysex : List Nat) (iSysex : Nat) : MidiEngine :=
  if env.alsaSeq then
    ({ e with output := e.output ++
        [{ bus.directEvent with type := SndSeqType.SYSEX, sysex := pSysex.take iSysex }] }
      : MidiEngine).flush env.tickFromFrame env.queueStatus env.audioFrameTime
  else e

/-- The conditions `trackMute` sets on its remove request. -/
inductive RemoveCondition where
  | OUTPUT | TIME_AFTER | TIME_TICK | DEST_CHANNEL | IGNORE_OFF | TAG_MATCH
deriving DecidableEq, Repr

/-- The `snd_seq_remove_events_t` that `trackMute` fills: `ts.tick` (an `unsigned int`),
and the tag, channel, queue and condition handed to the setters. -/
structure SndSeqRemove where
  tick : Int
  tag : Nat
  channel : Nat
  queue : Int
  condition : List RemoveCondition
deriving DecidableEq, Repr

/-- A `qtractorClip` as `trackSync` reads it. -/
structure Clip where
  clipStart : Nat
  clipLength : Nat
deriving DecidableEq, Repr

/-- A call `pClip->process(iFrameStart, iFrameEnd)`. -/
structure ClipCall where
  clip : Clip
  iFrameStart : Nat
  iFrameEnd : Nat
deriving DecidableEq, Repr

/-- What `trackMute` reads from outside the engine: the session play-head, the monitor
clock, the session as the monitor's `reset()` reads it, the inputs of the direct helpers and
of `flush()`, the effect of the backend's `snd_seq_remove_events` on the events still
staged, and the `enqueue` calls a clip issues when asked to process a range. -/
structure MuteEnv where
  playHead : Nat
  clk : MonitorClock
  monitorSession : Option MonitorSession
  direct : DirectEnv
  removeEvents : SndSeqRemove → List SndSeqEvent → List SndSeqEvent
  clipEvents : Clip → Nat → Nat → List EnqueueCall

/-- What `trackMute` works on: the engine, its MIDI session cursor, and the records of the
remove requests issued and of the clips asked to process. -/
structure MuteState where
  engine : MidiEngine
  midiCursor : Option SessionCursor
  removes : List SndSeqRemove
  clipCalls : List ClipCall

/-- The value `trackMute` assigns to `ts.tick`:
`iTime > m_iTimeStart ? iTime - m_iTimeStart : 0`, with `iTime = (long) tickFromFrame(iFrame)`;
the `long` is narrowed to the `unsigned int` field. -/
def muteTick (env : MuteEnv) (e : MidiEngine) : Int :=
  (if toLong (env.direct.tickFromFrame env.playHead) > e.iTimeStart then
    toLong (toLong (env.direct.tickFromFrame env.playHead) - e.iTimeStart)
  else 0) % 2 ^ 32

/-- The remove request `trackMute` builds. -/
def muteRequest (env : MuteEnv) (e : MidiEngine) (pTrack : Track) : SndSeqRemove :=
  { tick := muteTick env e
    tag := pTrack.midiTag
    channel := pTrack.midiChannel
    queue := e.iAlsaQueue
    condition := [RemoveCondition.OUTPUT, RemoveCondition.TIME_AFTER,
      RemoveCondition.TIME_TICK, RemoveCondition.DEST_CHANNEL, RemoveCondition.IGNORE_OFF,
      RemoveCondition.TAG_MATCH] }

/-- Modelled from the spec: `qtractorClip::process(iFrameStart, iFrameEnd)`, which re-emits
the clip's events of the range through `enqueue`. -/
def clipProcess (env : MuteEnv) (st : MuteState) (pClip : Clip) (iFrameStart iFrameEnd : Nat) :
    MuteState :=
  { st with
    engine := (env.clipEvents pClip iFrameStart iFrameEnd).foldl
      (fun e c => e.enqueue env.clk c.track c.event c.time c.gain) st.engine
    clipCalls := st.clipCalls ++ [⟨pClip, iFrameStart, iFrameEnd⟩] }

/-- The clip loop of `trackSync`: from the first clip on, while the clip starts before
`iFrameEnd`. -/
def syncClips (env : MuteEnv) (iFrameStart iFrameEnd : Nat) : List Clip → MuteState → MuteState
  | [], st => st
  | pClip :: rest, st =>
    if pClip.clipStart < iFrameEnd then
      syncClips env iFrameStart iFrameEnd rest
        (if iFrameStart < (pClip.clipStart + pClip.clipLength) % ULONG_SIZE then
          clipProcess env st pClip iFrameStart iFrameEnd
        else st)
    else st

/-- The method `qtractorMidiOutputThread::trackSync(pTrack, iFrameStart)`, on the clips of
the track. -/
def trackSync (env : MuteEnv) (st : MuteState) (clips : List Clip) (iFrameStart : Nat) :
    MuteState :=
  match st.midiCursor with
  | none => st
  | some pMidiCursor =>
    let st1 := syncClips env iFrameStart pMidiCursor.frame clips st
    { st1 with
      engine := st1.engine.flush env.direct.tickFromFrame env.direct.queueStatus
        env.direct.audioFrameTime }

/-- The method `qtractorMidiEngine::trackMute(pTrack, bMute)`, on a track with the given
clips. -/
def trackMute (env : MuteEnv) (st : MuteState) (pTrack : Track) (clips : List Clip)
    (bMute : Bool) : MuteState :=
  if bMute then
    let pre := muteRequest env st.engine pTrack
    let e1 : MidiEngine := { st.engine with output := env.removeEvents pre st.engine.output }
    let e2 := match pTrack.outputBus with
      | some pMidiBus => pMidiBus.setController env.direct e1 pTrack.midiChannel ALL_NOTES_OFF 0
      | none => e1
    let e3 : MidiEngine := match pTrack.monitor with
      | some i =>
        let mon := (e2.monitors i).reset env.monitorSession
        { e2 with monitors := Function.update e2.monitors i mon }
      | none => e2
    { st with engine := e3, removes := st.removes ++ [pre] }
  else
    trackSync env st clips env.playHead

/-- A track on channel `2` with tag `0x105`, an output bus on port `20` and monitor `0`. -/
def demoTrackMonitored : Track :=
  ⟨some ⟨20, some 1⟩, 0x105, 2, some 0⟩

/-- A mute environment as `demoMuteEnv`, with the play-head at frame `100`. -/
def demoUnmuteEnv : MuteEnv :=
  ⟨100, ⟨3000, 24⟩, none, ⟨true, fun f => f / 250, none, 0⟩, fun _ l => l, fun _ _ _ => []⟩

/-- A state for `trackMute`: the engine at rest (`time_start = 100`), the MIDI cursor at
frame `200`, nothing recorded. -/
def demoMuteState : MuteState :=
  ⟨demoEngine, some ⟨200, 200⟩, [], []⟩

/-! ## qtractorMidiEngine: MMC dispatch -/

/-- The array `data` that `sendMmcLocate(iLocate)` fills. -/
def mmcLocateData (iLocate : Nat) : List Nat :=
  let d1 := (iLocate / (3600 * 30)) % UCHAR_SIZE
  let l1 := toULong ((iLocate : Int) - (3600 * 30) * (d1 : Int))
  let d2 := (l1 / (60 * 30)) % UCHAR_SIZE
  let l2 := toULong ((l1 : Int) - (60 * 30) * (d2 : Int))
  let d3 := (l2 / 30) % UCHAR_SIZE
  let l3 := toULong ((l2 : Int) - 30 * (d3 : Int))
  let d4 := l3 % UCHAR_SIZE
  [0x01, d1, d2, d3, d4, 0]

/-- The locate position a locate payload `{01, h, m, s, f, 00}` stands for, by the
SMPTE-30 convention of the spec. -/
def mmcLocateDecode : List Nat → Nat
  | [_, h, m, s, f, _] => h * (3600 * 30) + m * (60 * 30) + s * 30 + f
  | _ => 0

/-- The buffer of `sendMmcCommand`: the size it allocates, the bytes it writes in order, and
the final count `iSysex` (an `unsigned short`). -/
structure MmcBuffer where
  allocated : Nat
  written : List Nat
  iSysex : Nat
deriving DecidableEq, Repr

/-- Whether `sendMmcCommand` writes the payload: `pMmcData && iMmcData > 0`. -/
def hasMmcData (pMmcData : Option (List Nat)) (iMmcData : Nat) : Bool :=
  pMmcData.isSome && decide (0 < iMmcData)

/-- The sysex message `sendMmcCommand(cmd, pMmcData, iMmcData)` builds; `memcpy` takes the
first `iMmcData` bytes at `pMmcData`. -/
def mmcBuffer (cmd : Nat) (pMmcData : Option (List Nat)) (iMmcData : Nat) : MmcBuffer :=
  let header := [0xf0, 0x7f, 0x7f, 0x06, cmd % UCHAR_SIZE]
  let payload :=
    if hasMmcData pMmcData iMmcData then
      (iMmcData % UCHAR_SIZE) :: (pMmcData.getD []).take iMmcData
    else []
  let written := header ++ payload ++ [0xf7]
  { allocated := if hasMmcData pMmcData iMmcData then (6 + (1 + iMmcData)) % USHORT_SIZE else 6
    written := written
    iSysex := written.length % USHORT_SIZE }

/-- The method `qtractorMidiEngine::sendMmcCommand(cmd, pMmcData, iMmcData)`, with
`m_pOControlBus` when it is set. -/
def sendMmcCommand (env : DirectEnv) (pOControlBus : Option MidiBus) (e : MidiEngine)
    (cmd : Nat) (pMmcData : Option (List Nat)) (iMmcData : Nat) : MidiEngine :=
  match pOControlBus with
  | none => e
  | some bus =>
    bus.sendSysex env e (mmcBuffer cmd pMmcData iMmcData).written
      (mmcBuffer cmd pMmcData iMmcData).iSysex

/-- The method `qtractorMidiEngine::sendMmcLocate(iLocate)`; `LOCATE` is the command code
`qtractorMmcEvent::LOCATE`. -/
def sendMmcLocate (env : DirectEnv) (pOControlBus : Option MidiBus) (e : MidiEngine)
    (LOCATE : Nat) (iLocate : Nat) : MidiEngine :=
  sendMmcCommand env pOControlBus e LOCATE (some (mmcLocateData iLocate)) 6

/-- An open engine for the direct helpers: no queue status. -/
def demoDirectEnv : DirectEnv := ⟨true, fun f => f / 250, none, 0⟩

/-! ## qtractorMidiBus: patch map, bank and program selection, shut-off, volume -/

/-- Controller number `BANK_SELECT_MSB`. -/
def BANK_SELECT_MSB : Nat := 0x00

/-- Controller number `BANK_SELECT_LSB`. -/
def BANK_SELECT_LSB : Nat := 0x20

/-- A `qtractorMidiBus::Patch`: the payload of the channel patch map. -/
structure Patch where
  instrumentName : String
  bankSelMethod : Int
  bank : Int
  prog : Int
deriving DecidableEq, Repr

/-- The map `m_patches` (a `QMap<unsigned short, Patch>`) as its entries in iteration order,
which for a `QMap` is the ascending order of the keys. -/
abbrev PatchMap := List (Nat × Patch)

/-- The entry of a key in the patch map, when there is one. -/
def patchesFind (m : PatchMap) (key : Nat) : Option Patch :=
  match m with
  | [] => none
  | (k, q) :: rest => if key = k then some q else patchesFind rest key

/-- The assignment of a whole entry through `m_patches[key]`: the entry of `key` is replaced,
or inserted at its place in key order. -/
def patchesSet (key : Nat) (p : Patch) : PatchMap → PatchMap
  | [] => [(key, p)]
  | (k, q) :: rest =>
    if key < k then (key, p) :: (k, q) :: rest
    else if key = k then (key, p) :: rest
    else (k, q) :: patchesSet key p rest

/-- The call `m_patches.remove(key)`. -/
def patchesRemove (key : Nat) (m : PatchMap) : PatchMap :=
  m.filter (fun kp => decide (kp.1 ≠ key))

/-- The keys of a patch map are strictly ascending, as a `QMap` keeps them. -/
def PatchMap.Ordered (m : PatchMap) : Prop :=
  m.Pairwise (fun a b => a.1 < b.1)

/-- What the helpers of a bus work on: the engine and the patch map of the bus. -/
structure BusState where
  engine : MidiEngine
  patches : PatchMap

/-- Whether `setPatch` selects the bank MSB: `iBank >= 0 && (method == 0 || method == 1)`. -/
def selectsBankMsb (iBankSelMethod iBank : Int) : Bool :=
  decide (0 ≤ iBank) && (decide (iBankSelMethod = 0) || decide (iBankSelMethod = 1))

/-- Whether `setPatch` selects the bank LSB: `iBank >= 0 && (method == 0 || method == 2)`. -/
def selectsBankLsb (iBankSelMethod iBank : Int) : Bool :=
  decide (0 ≤ iBank) && (decide (iBankSelMethod = 0) || decide (iBankSelMethod = 2))

/-- The events `setPatch` hands to `snd_seq_event_output`, in order. The one event `ev` is
filled again for each of them, so a later event keeps the `param` assigned before; the
fields hold the values assigned, as in `controllerEvent`. -/
def MidiBus.patchEvents (bus : MidiBus) (iChannel : Nat) (iBankSelMethod iBank : Int)
    (iProg : Nat) : List SndSeqEvent :=
  let ev0 := bus.directEvent
  let ev1 : SndSeqEvent :=
    if selectsBankMsb iBankSelMethod iBank then
      { ev0 with type := SndSeqType.CONTROLLER, channel := iChannel, param := BANK_SELECT_MSB,
                 value := (iBank.toNat &&& 0x3f80) >>> 7 }
    else ev0
  let ev2 : SndSeqEvent :=
    if selectsBankLsb iBankSelMethod iBank then
      { ev1 with type := SndSeqType.CONTROLLER, channel := iChannel, param := BANK_SELECT_LSB,
                 value := iBank.toNat &&& 0x007f }
    else ev1
  let ev3 : SndSeqEvent :=
    { ev2 with type := SndSeqType.PGMCHANGE, channel := iChannel, value := iProg }
  (if selectsBankMsb iBankSelMethod iBank then [ev1] else [])
    ++ (if selectsBankLsb iBankSelMethod iBank then [ev2] else []) ++ [ev3]

/-- The method `qtractorMidiBus::setPatch(iChannel, sInstrumentName, iBankSelMethod, iBank,
iProg)`, for non-negative program numbers. -/
def MidiBus.setPatch (env : DirectEnv) (bus : MidiBus) (st : BusState) (iChannel : Nat)
    (sInstrumentName : String) (iBankSelMethod iBank : Int) (iProg : Nat) : BusState :=
  if env.alsaSeq then
    let patches :=
      if sInstrumentName ≠ "" then
        patchesSet (iChannel &&& 0x0f) ⟨sInstrumentName, iBankSelMethod, iBank, iProg⟩ st.patches
      else st.patches
    let e1 : MidiEngine :=
      { st.engine with
        output := st.engine.output ++ bus.patchEvents iChannel iBankSelMethod iBank iProg }
    { engine := e1.flush env.tickFromFrame env.queueStatus env.audioFrameTime
      patches := patches }
  else st

/-- A bus on port `20` without monitor. -/
def demoBus : MidiBus := ⟨20, none⟩

/-- A bus state: the engine at rest and an empty patch map. -/
def demoBusState : BusState := ⟨demoEngine, []⟩

/-- The text of a document node: plain text, or the decimal text that `QString::number`
writes for an integer. -/
inductive DomText where
  | plain (s : String)
  | decimal (n : Int)
deriving DecidableEq, Repr

/-- Modelled from the spec: `QString::toInt()`, which reads decimal text back as the integer
it was written from; any other text is taken to read as `0`. -/
def DomText.toInt : DomText → Int
  | DomText.decimal n => n
  | DomText.plain _ => 0

/-- Modelled from the spec: `QString::toUShort()`, which reads decimal text back as the
integer it was written from when that fits an `unsigned short`, and as `0` otherwise. -/
def DomText.toUShort : DomText → Nat
  | DomText.decimal n => if 0 ≤ n ∧ n < 65536 then n.toNat else 0
  | DomText.plain _ => 0

/-- Modelled from the spec: `QDomElement::text()`, the text as a string. -/
def DomText.text : DomText → String
  | DomText.plain s => s
  | DomText.decimal n => toString n

/-- A text element `<tagName>text</tagName>`, as `saveTextElement` appends it. -/
structure DomTextElement where
  tagName : String
  text : DomText
deriving DecidableEq, Repr

/-- A child element of `midi-map` as `loadMidiMap` reads it: its tag name, its `channel`
attribute and its child elements. -/
structure DomElement where
  tagName : String
  channel : DomText
  children : List DomTextElement
deriving DecidableEq, Repr

/-- The `midi-patch` element `saveMidiMap` appends for one entry of the patch map.
`saveTextElement` is modelled from the spec as appending the text element. -/
def savePatchElement (key : Nat) (patch : Patch) : DomElement :=
  { tagName := "midi-patch"
    channel := DomText.decimal key
    children :=
      (if patch.instrumentName ≠ "" then
        [⟨"midi-instrument", DomText.plain patch.instrumentName⟩] else [])
      ++ (if 0 ≤ patch.bankSelMethod then
        [⟨"midi-bank-sel-method", DomText.decimal patch.bankSelMethod⟩] else [])
      ++ (if 0 ≤ patch.bank then [⟨"midi-bank", DomText.decimal patch.bank⟩] else [])
      ++ (if 0 ≤ patch.prog then [⟨"midi-prog", DomText.decimal patch.prog⟩] else []) }

/-- The method `qtractorMidiBus::saveMidiMap(pDocument, pElement)`: the children it appends
to `pElement`, one for each entry of the patch map in iteration order. -/
def saveMidiMap (m : PatchMap) : List DomElement :=
  m.map (fun kp => savePatchElement kp.1 kp.2)

/-- The body of the inner loop of `loadMidiMap`: one child of a `midi-patch` element. -/
def loadPatchField (patch : Patch) (ePatch : DomTextElement) : Patch :=
  if ePatch.tagName = "midi-instrument" then
    { patch with instrumentName := ePatch.text.text }
  else if ePatch.tagName = "midi-bank-sel-method" then
    { patch with bankSelMethod := ePatch.text.toInt }
  else if ePatch.tagName = "midi-bank" then
    { patch with bank := ePatch.text.toInt }
  else if ePatch.tagName = "midi-program" then
    { patch with prog := ePatch.text.toInt }
  else patch

/-- The body of the outer loop of `loadMidiMap`: one child element of `midi-map`. The
reference `m_patches[iChannel & 0x0f]` inserts a default-constructed `Patch` (`dflt`; the
constructor is not part of this file) when the key is new. -/
def loadPatchElement (dflt : Patch) (m : PatchMap) (eChild : DomElement) : PatchMap :=
  if eChild.tagName = "midi-patch" then
    let iChannel := eChild.channel.toUShort
    let m1 := match patchesFind m (iChannel &&& 0x0f) with
      | some _ => m
      | none => patchesSet (iChannel &&& 0x0f) dflt m
    let patch := eChild.children.foldl loadPatchField
      ((patchesFind m1 (iChannel &&& 0x0f)).getD dflt)
    let m2 := patchesSet (iChannel &&& 0x0f) patch m1
    if patch.instrumentName = "" then patchesRemove (iChannel &&& 0x0f) m2 else m2
  else m

/-- The method `qtractorMidiBus::loadMidiMap(pDocument, pElement)` on the child elements of
`pElement`: the patch map it leaves, starting from the cleared map. -/
def loadMidiMap (dflt : Patch) (children : List DomElement) : PatchMap :=
  children.foldl (loadPatchElement dflt) []

/-- The patch map that a save followed by a load leaves: every entry with its program
replaced by the program of the default-constructed `Patch`. -/
def reloaded (dflt : Patch) (m : PatchMap) : PatchMap :=
  m.map (fun kp => (kp.1, { kp.2 with prog := dflt.prog }))

/-- What the round trip claim asks of a patch map: channels `0..15` in ascending order, a
non-empty instrument name, and non-negative method, bank and program in every entry. -/
def PatchMap.Savable (m : PatchMap) : Prop :=
  m.Ordered ∧ ∀ kp, kp ∈ m →
    kp.1 < 16 ∧ kp.2.instrumentName ≠ "" ∧ 0 ≤ kp.2.bankSelMethod ∧ 0 ≤ kp.2.bank ∧
      0 ≤ kp.2.prog

/-- A patch map with one entry: channel `0`, program `5`. -/
def demoPatches : PatchMap := [(0, ⟨"Piano", 0, 1, 5⟩)]

/-! ## qtractorMidiOutputThread: the wake from the audio callback -/

/-- The calls a thread makes on the mutex `m_mutex` and the wait condition `m_cond` of the
output thread. -/
inductive ThreadCall where
  | lock | tryLock (taken : Bool) | unlock | wait | wakeAll
deriving DecidableEq, Repr

/-- Whether a call can suspend its caller: `QMutex::lock` and `QWaitCondition::wait` can,
the others return at once. -/
def ThreadCall.blocks : ThreadCall → Bool
  | ThreadCall.lock => true
  | ThreadCall.wait => true
  | _ => false

/-- The mutex and the wait condition of the output thread as the caller of `sync()` meets
them: whether another thread (the output thread in a cycle) holds the mutex, whether the
caller holds it, the wake-ups signalled so far, and the calls the caller has made. -/
structure ThreadSync where
  heldByOther : Bool
  heldBySelf : Bool
  wakes : Nat
  calls : List ThreadCall
deriving DecidableEq, Repr

/-- Modelled from the spec: `QMutex::tryLock()`, the non-blocking acquire: it takes the mutex
and returns `true` when no thread holds it, and returns `false` at once otherwise. -/
def ThreadSync.tryLock (t : ThreadSync) : Bool × ThreadSync :=
  if t.heldByOther || t.heldBySelf then
    (false, { t with calls := t.calls ++ [ThreadCall.tryLock false] })
  else
    (true, { t with heldBySelf := true, calls := t.calls ++ [ThreadCall.tryLock true] })

/-- Modelled from the spec: `QWaitCondition::wakeAll()`, the signal of the condition. -/
def ThreadSync.wakeAll (t : ThreadSync) : ThreadSync :=
  { t with wakes := t.wakes + 1, calls := t.calls ++ [ThreadCall.wakeAll] }

/-- Modelled from the spec: `QMutex::unlock()`, the release by the holder. -/
def ThreadSync.unlock (t : ThreadSync) : ThreadSync :=
  { t with heldBySelf := false, calls := t.calls ++ [ThreadCall.unlock] }

/-- The method `qtractorMidiOutputThread::sync()`. -/
def MidiOutputThread.sync (t : ThreadSync) : ThreadSync :=
  if t.tryLock.1 then t.tryLock.2.wakeAll.unlock else t.tryLock.2

/-- The method `qtractorMidiEngine::sync()`; `hasOutputThread` is `m_pOutputThread != NULL`,
and the cursors are those `midiCursorSync()` reads. -/
def MidiEngine.sync (hasOutputThread : Bool) (iReadAhead : Nat)
    (pAudioCursor pMidiCursor : Option SessionCursor) (t : ThreadSync) : ThreadSync :=
  if hasOutputThread && (midiCursorSync iReadAhead pAudioCursor pMidiCursor false).isSome then
    MidiOutputThread.sync t
  else t

/-- The mutex free, nothing signalled yet. -/
def demoThreadFree : ThreadSync := ⟨false, false, 0, []⟩

/-- The mutex held by the output thread running a cycle. -/
def demoThreadBusy : ThreadSync := ⟨true, false, 0, []⟩

/-! ## qtractorMidiEngine: MMC masked write -/

/-- The array `data` that `sendMmcMaskedWrite(scmd, iTrack, bOn)` fills, for a track index
`iTrack ≥ 0`. -/
def mmcMaskedWriteData (scmd iTrack : Nat) (bOn : Bool) : List Nat :=
  let iMask : Nat := 1 <<< (if iTrack < 2 then iTrack + 5 else (iTrack - 2) % 7)
  [scmd % UCHAR_SIZE,
    (if iTrack < 2 then 0 else 1 + (iTrack - 2) / 7) % UCHAR_SIZE,
    iMask % UCHAR_SIZE,
    (if bOn then iMask else 0) % UCHAR_SIZE]

/-- The method `qtractorMidiEngine::sendMmcMaskedWrite(scmd, iTrack, bOn)`; `MASKED_WRITE`
is the command code `qtractorMmcEvent::MASKED_WRITE`. -/
def sendMmcMaskedWrite (env : DirectEnv) (pOControlBus : Option MidiBus) (e : MidiEngine)
    (MASKED_WRITE : Nat) (scmd iTrack : Nat) (bOn : Bool) : MidiEngine :=
  sendMmcCommand env pOControlBus e MASKED_WRITE (some (mmcMaskedWriteData scmd iTrack bOn)) 4

/-- The track byte of a masked write as the specification words it:
`(i < 2) ? 0 : 1 + (i − 2) / 7`. -/
def maskedWriteByte (i : Nat) : Nat := if i < 2 then 0 else 1 + (i - 2) / 7

/-- The track mask of a masked write as the specification words it:
`1 << (i < 2 ? i + 5 : (i − 2) % 7)`. -/
def maskedWriteMask (i : Nat) : Nat := 1 <<< (if i < 2 then i + 5 else (i - 2) % 7)

/-! ## Rounding to `float` -/

/-- Rounding to the nearest integer does not pass an integer above. -/
theorem roundHalfEven_le (t : ℚ) (N : Int) (h : t ≤ N) : roundHalfEven t ≤ N := by
  have h1 := Int.floor_le t
  have h2 := Int.lt_floor_add_one t
  have hfl : ⌊t⌋ ≤ N := by
    have : (⌊t⌋ : ℚ) ≤ N := le_trans h1 h
    exact_mod_cast this
  have hstep : 0 < t - ⌊t⌋ → ⌊t⌋ + 1 ≤ N := by
    intro hpos
    have : (⌊t⌋ : ℚ) < N := by linarith
    have : ⌊t⌋ < N := by exact_mod_cast this
    omega
  unfold roundHalfEven
  split
  · exact hfl
  · rename_i hlt
    have hpos : 0 < t - ⌊t⌋ := by
      have : (1 : ℚ) / 2 ≤ t - ⌊t⌋ := not_lt.1 hlt
      linarith
    split
    · exact hstep hpos
    · split
      · exact hfl
      · exact hstep hpos

/-- Rounding to the nearest integer does not pass an integer below. -/
theorem le_roundHalfEven (t : ℚ) (N : Int) (h : (N : ℚ) ≤ t) : N ≤ roundHalfEven t := by
  have hfl : N ≤ ⌊t⌋ := Int.le_floor.2 h
  unfold roundHalfEven
  split
  · exact hfl
  · split
    · omega
    · split
      · exact hfl
      · omega

/-- Rounding to the nearest integer moves a number by half a unit at most. -/
theorem roundHalfEven_near (t : ℚ) :
    (roundHalfEven t : ℚ) ≤ t + 1 / 2 ∧ t - 1 / 2 ≤ (roundHalfEven t : ℚ) := by
  have h1 := Int.floor_le t
  have h2 := Int.lt_floor_add_one t
  unfold roundHalfEven
  split
  · rename_i h
    constructor <;> linarith
  · rename_i h
    have h' : (1 : ℚ) / 2 ≤ t - ⌊t⌋ := not_lt.1 h
    split
    · push_cast
      constructor <;> linarith
    · split
      · constructor <;> linarith
      · push_cast
        constructor <;> linarith

/-- The exponent of a `float` is `-126` at least, and the spacing of its values is positive. -/
theorem floatExponent_ge (x : ℚ) : -126 ≤ floatExponent x := le_max_right _ _

/-- A number below `2^24` in absolute value has a float exponent of `23` at most: the values
of a `float` near it include the integers. -/
theorem floatExponent_le (x : ℚ) (h : |x| < 2 ^ 24) : floatExponent x ≤ 23 := by
  unfold floatExponent
  refine max_le ?_ (by decide)
  rcases (abs_nonneg x).eq_or_lt with h0 | h0
  · rw [← h0, Int.log_of_right_le_zero 2 (le_refl (0 : ℚ))]
    decide
  · have hlt : |x| < ((2 : ℕ) : ℚ) ^ (24 : ℤ) := by
      rw [Nat.cast_ofNat]
      exact_mod_cast h
    have := (Int.lt_zpow_iff_log_lt (by decide : 1 < 2) h0).1 hlt
    omega

/-- A positive number is at least `2` to its float exponent when it is not subnormal, and
its float exponent is `-126` when it is. -/
theorem floatExponent_spec (x : ℚ) (h0 : 0 < x) :
    ((2 : ℚ) ^ (-126 : ℤ) ≤ x → (2 : ℚ) ^ floatExponent x ≤ x) ∧
    (x < (2 : ℚ) ^ (-126 : ℤ) → floatExponent x = -126) := by
  have habs : |x| = x := abs_of_pos h0
  unfold floatExponent
  rw [habs]
  constructor
  · intro h
    have hle : ((2 : ℕ) : ℚ) ^ (-126 : ℤ) ≤ x := by
      rw [Nat.cast_ofNat]
      exact h
    have hlog := (Int.zpow_le_iff_le_log (by decide : 1 < 2) h0).1 hle
    rw [max_eq_left hlog]
    have := Int.zpow_log_le_self (by decide : 1 < 2) h0
    rw [Nat.cast_ofNat] at this
    exact this
  · intro h
    have hlt : x < ((2 : ℕ) : ℚ) ^ (-126 : ℤ) := by
      rw [Nat.cast_ofNat]
      exact h
    have hlog := (Int.lt_zpow_iff_log_lt (by decide : 1 < 2) h0).1 hlt
    exact max_eq_right (le_of_lt hlog)

/-- Rounding to `float` keeps the sign of a non-negative number. -/
theorem roundFloat_nonneg (x : ℚ) (h : 0 ≤ x) : 0 ≤ roundFloat x := by
  unfold roundFloat
  have hs : (0 : ℚ) < 2 ^ (floatExponent x - 23) := zpow_pos (by norm_num) _
  have ht : ((0 : Int) : ℚ) ≤ x / 2 ^ (floatExponent x - 23) := by
    rw [Int.cast_zero]
    exact div_nonneg h (le_of_lt hs)
  have hr := le_roundHalfEven _ 0 ht
  have : (0 : ℚ) ≤ (roundHalfEven (x / 2 ^ (floatExponent x - 23)) : ℚ) := by
    exact_mod_cast hr
  exact mul_nonneg this (le_of_lt hs)

/-- Rounding to `float` moves a number by half the spacing at its exponent at most. -/
theorem roundFloat_near (x : ℚ) :
    roundFloat x ≤ x + 2 ^ (floatExponent x - 24) ∧
    x - 2 ^ (floatExponent x - 24) ≤ roundFloat x := by
  have hs : (0 : ℚ) < 2 ^ (floatExponent x - 23) := zpow_pos (by norm_num) _
  have hhalf : (2 : ℚ) ^ (floatExponent x - 24) = 2 ^ (floatExponent x - 23) / 2 := by
    have e : floatExponent x - 24 = (floatExponent x - 23) - 1 := by ring
    rw [e, zpow_sub_one₀ (by norm_num : (2 : ℚ) ≠ 0)]
    ring
  have hn := roundHalfEven_near (x / 2 ^ (floatExponent x - 23))
  have hx : x / 2 ^ (floatExponent x - 23) * 2 ^ (floatExponent x - 23) = x :=
    div_mul_cancel₀ x (ne_of_gt hs)
  unfold roundFloat
  rw [hhalf]
  constructor
  · have := mul_le_mul_of_nonneg_right hn.1 (le_of_lt hs)
    rw [add_mul, hx] at this
    linarith
  · have := mul_le_mul_of_nonneg_right hn.2 (le_of_lt hs)
    rw [sub_mul, hx] at this
    linarith

/-- Rounding a non-negative number to `float` raises it by a relative `2^-24` at most,
apart from `2^-150` for subnormal numbers. -/
theorem roundFloat_le_rel (x : ℚ) (h : 0 ≤ x) :
    roundFloat x ≤ x * (1 + 2 ^ (-24 : ℤ)) + 2 ^ (-150 : ℤ) := by
  rcases h.eq_or_lt with h0 | h0
  · rw [← h0]
    have : roundFloat 0 = 0 := by
      unfold roundFloat roundHalfEven
      simp
    rw [this]
    positivity
  · have hnear := (roundFloat_near x).1
    have hspec := floatExponent_spec x h0
    by_cases hsub : x < (2 : ℚ) ^ (-126 : ℤ)
    · rw [hspec.2 hsub] at hnear
      have e : ((-126 : ℤ) - 24) = -150 := by norm_num
      rw [e] at hnear
      have : 0 ≤ x * (2 : ℚ) ^ (-24 : ℤ) := by positivity
      linarith
    · have hle := hspec.1 (not_lt.1 hsub)
      have hsplit : (2 : ℚ) ^ (floatExponent x - 24)
          = 2 ^ floatExponent x * 2 ^ (-24 : ℤ) := by
        rw [← zpow_add₀ (by norm_num : (2 : ℚ) ≠ 0)]
        rfl
      rw [hsplit] at hnear
      have hmul : (2 : ℚ) ^ floatExponent x * 2 ^ (-24 : ℤ) ≤ x * 2 ^ (-24 : ℤ) :=
        mul_le_mul_of_nonneg_right hle (by positivity)
      have : (0 : ℚ) ≤ 2 ^ (-150 : ℤ) := by positivity
      linarith

/-- The values of a `float` below `2^24` include the integers: rounding to `float` does not
pass an integer above. -/
theorem roundFloat_le_int (x : ℚ) (hx : |x| < 2 ^ 24) (N : Int) (h : x ≤ N) :
    roundFloat x ≤ N := by
  have he := floatExponent_le x hx
  obtain ⟨k, hk⟩ : ∃ k : ℕ, floatExponent x - 23 = -(k : ℤ) :=
    ⟨(23 - floatExponent x).toNat, by omega⟩
  unfold roundFloat
  rw [hk, zpow_neg, zpow_natCast]
  have hp : (0 : ℚ) < 2 ^ k := by positivity
  have ht : x / (2 ^ k)⁻¹ ≤ ((N * 2 ^ k : Int) : ℚ) := by
    rw [div_inv_eq_mul]
    push_cast
    exact mul_le_mul_of_nonneg_right h (le_of_lt hp)
  have hr := roundHalfEven_le _ _ ht
  have hr' : (roundHalfEven (x / (2 ^ k)⁻¹) : ℚ) ≤ (N : ℚ) * 2 ^ k := by
    exact_mod_cast hr
  calc (roundHalfEven (x / (2 ^ k)⁻¹) : ℚ) * (2 ^ k)⁻¹
      ≤ (N : ℚ) * 2 ^ k * (2 ^ k)⁻¹ :=
        mul_le_mul_of_nonneg_right hr' (le_of_lt (inv_pos.2 hp))
    _ = N := by field_simp

/-- The values of a `float` below `2^24` include the integers: rounding to `float` does not
pass an integer below. -/
theorem le_roundFloat_int (x : ℚ) (hx : |x| < 2 ^ 24) (N : Int) (h : (N : ℚ) ≤ x) :
    (N : ℚ) ≤ roundFloat x := by
  have he := floatExponent_le x hx
  obtain ⟨k, hk⟩ : ∃ k : ℕ, floatExponent x - 23 = -(k : ℤ) :=
    ⟨(23 - floatExponent x).toNat, by omega⟩
  unfold roundFloat
  rw [hk, zpow_neg, zpow_natCast]
  have hp : (0 : ℚ) < 2 ^ k := by positivity
  have ht : ((N * 2 ^ k : Int) : ℚ) ≤ x / (2 ^ k)⁻¹ := by
    rw [div_inv_eq_mul]
    push_cast
    exact mul_le_mul_of_nonneg_right h (le_of_lt hp)
  have hr := le_roundHalfEven _ _ ht
  have hr' : (N : ℚ) * 2 ^ k ≤ (roundHalfEven (x / (2 ^ k)⁻¹) : ℚ) := by
    exact_mod_cast hr
  calc (N : ℚ) = (N : ℚ) * 2 ^ k * (2 ^ k)⁻¹ := by field_simp
    _ ≤ (roundHalfEven (x / (2 ^ k)⁻¹) : ℚ) * (2 ^ k)⁻¹ :=
        mul_le_mul_of_nonneg_right hr' (le_of_lt (inv_pos.2 hp))

/-- An integer below `2^24` in absolute value is a `float`. -/
theorem roundFloat_int (N : Int) (h : |(N : ℚ)| < 2 ^ 24) : roundFloat N = N :=
  le_antisymm (roundFloat_le_int N h N (le_refl _)) (le_roundFloat_int N h N (le_refl _))

/-- Rounding to `float` with the exponent given: the number is rounded to the nearest
multiple of `2^(e - 23)`. -/
theorem roundFloat_of_exponent (x : ℚ) (e : Int) (he : -126 ≤ e)
    (h1 : (2 : ℚ) ^ e ≤ |x|) (h2 : |x| < (2 : ℚ) ^ (e + 1)) :
    roundFloat x = (roundHalfEven (x / 2 ^ (e - 23)) : ℚ) * 2 ^ (e - 23) := by
  have h0 : 0 < |x| := lt_of_lt_of_le (zpow_pos (by norm_num) _) h1
  have hlog : Int.log 2 |x| = e := by
    apply le_antisymm
    · have h2' : |x| < ((2 : ℕ) : ℚ) ^ (e + 1) := by
        rw [Nat.cast_ofNat]
        exact h2
      have := (Int.lt_zpow_iff_log_lt (by decide : 1 < 2) h0).1 h2'
      omega
    · have h1' : ((2 : ℕ) : ℚ) ^ e ≤ |x| := by
        rw [Nat.cast_ofNat]
        exact h1
      exact (Int.zpow_le_iff_le_log (by decide : 1 < 2) h0).1 h1'
  have hexp : floatExponent x = e := by
    unfold floatExponent
    rw [hlog]
    exact max_eq_left he
  unfold roundFloat
  rw [hexp]

/-- A number less than half a unit from an integer rounds to it. -/
theorem roundHalfEven_eq (t : ℚ) (n : Int) (h1 : (n : ℚ) - 1 / 2 < t)
    (h2 : t < (n : ℚ) + 1 / 2) : roundHalfEven t = n := by
  have hn := roundHalfEven_near t
  have hlo : ((n - 1 : Int) : ℚ) < (roundHalfEven t : ℚ) := by
    push_cast
    linarith [hn.2]
  have hhi : (roundHalfEven t : ℚ) < ((n + 1 : Int) : ℚ) := by
    push_cast
    linarith [hn.1]
  have hlo' : n - 1 < roundHalfEven t := by exact_mod_cast hlo
  have hhi' : roundHalfEven t < n + 1 := by exact_mod_cast hhi
  omega

/-- A number half-way between two integers rounds to the even one. -/
theorem roundHalfEven_tie (t : ℚ) (n : Int) (h : t = (n : ℚ) + 1 / 2) :
    roundHalfEven t = if n % 2 = 0 then n else n + 1 := by
  have hfl : ⌊t⌋ = n := by
    rw [Int.floor_eq_iff, h]
    constructor <;> linarith
  unfold roundHalfEven
  rw [hfl, h]
  norm_num

/-- A natural number below `2^24` is a `float`. -/
theorem roundFloat_natCast (n : Nat) (h : n < 2 ^ 24) : roundFloat (n : ℚ) = n := by
  have hq : |(((n : Int) : ℚ))| < 2 ^ 24 := by
    rw [Int.cast_natCast, abs_of_nonneg (Nat.cast_nonneg n)]
    exact_mod_cast h
  have := roundFloat_int (n : Int) hq
  rwa [Int.cast_natCast] at this

/-! ## Ring arithmetic -/

theorem and_queueMask (x : Nat) : x &&& c_iQueueMask = x % c_iQueueSize := by
  have h := Nat.and_pow_two_sub_one_eq_mod x 4
  simpa [c_iQueueMask, c_iQueueSize] using h

theorem and_queueMask_lt (x : Nat) : x &&& c_iQueueMask < c_iQueueSize := by
  rw [and_queueMask]
  exact Nat.mod_lt _ (by decide)

theorem length_foldl_set (z : QueueItem) (l : List Nat) (q : List QueueItem) :
    (l.foldl (fun q i => q.set i z) q).length = q.length := by
  induction l generalizing q with
  | nil => rfl
  | cons a l ih => simp [List.foldl_cons, ih]

theorem getElem?_foldl_set_range (z : QueueItem) (n : Nat) (q : List QueueItem) (j : Nat) :
    ((List.range n).foldl (fun q i => q.set i z) q)[j]? =
      if j < n ∧ j < q.length then some z else q[j]? := by
  induction n with
  | zero => simp
  | succ n ih =>
    rw [List.range_succ, List.foldl_append, List.foldl_cons, List.foldl_nil,
      List.getElem?_set, ih, length_foldl_set]
    by_cases h1 : n = j
    · subst h1
      by_cases h2 : n < q.length
      · simp [h2]
      · have hn : q[n]? = none := List.getElem?_eq_none (by omega)
        simp [h2, hn]
    · by_cases h3 : j < n
      · have : j < n + 1 := by omega
        simp [h1, h3, this]
      · have : ¬ j < n + 1 := by omega
        simp [h1, h3, this]

/-- After `reset()` every ring slot of a ring of `c_iQueueSize` items is zero. -/
theorem reset_queue (session : Option MonitorSession) (m : MidiMonitor)
    (h : m.queue.length = c_iQueueSize) :
    (m.reset session).queue = List.replicate c_iQueueSize ⟨0, 0⟩ := by
  apply List.ext_getElem?
  intro j
  simp only [MidiMonitor.reset, getElem?_foldl_set_range, h]
  by_cases hj : j < c_iQueueSize
  · simp [hj, List.getElem?_replicate]
  · simp only [hj, and_self, if_false]
    rw [List.getElem?_eq_none (by omega), List.getElem?_eq_none (by simp; omega)]

theorem reset_inRange (session : Option MonitorSession) (m : MidiMonitor)
    (h : m.queue.length = c_iQueueSize) : (m.reset session).InRange := by
  refine ⟨by simp [MidiMonitor.reset, c_iQueueSize], ?_⟩
  rw [reset_queue session m h, List.length_replicate]

theorem enqueueIndex_lt (clk : MonitorClock) (m : MidiMonitor) (tick i : Nat)
    (h : enqueueIndex clk m tick = some i) : i < c_iQueueSize := by
  unfold enqueueIndex at h
  split at h
  · simp only [Option.some.injEq] at h
    rw [← h]
    exact and_queueMask_lt _
  · cases h

theorem enqueue_inRange (clk : MonitorClock) (m : MidiMonitor) (type : EventType)
    (val tick : Nat) (h : m.InRange) : (m.enqueue clk type val tick).InRange := by
  unfold MidiMonitor.enqueue
  cases enqueueIndex clk m tick with
  | none => exact h
  | some i => exact ⟨h.1, by simp [h.2]⟩

theorem sweepStep_inRange (clk : MonitorClock) (s : Sweep) (h : s.mon.InRange) :
    (sweepStep clk s).mon.InRange :=
  ⟨and_queueMask_lt _, by simp [sweepStep, h.2]⟩

theorem sweep_inRange (clk : MonitorClock) (iFrameEnd : Nat) (fuel : Nat) (s r : Sweep)
    (h : s.mon.InRange) (hs : ∀ i ∈ s.swept, i < c_iQueueSize)
    (hr : sweep clk iFrameEnd fuel s = some r) :
    r.mon.InRange ∧ ∀ i ∈ r.swept, i < c_iQueueSize := by
  induction fuel generalizing s with
  | zero =>
    unfold sweep at hr
    split at hr
    · cases hr
    · cases hr; exact ⟨h, hs⟩
  | succ fuel ih =>
    unfold sweep at hr
    split at hr
    · refine ih (sweepStep clk s) (sweepStep_inRange clk s h) ?_ hr
      intro i hi
      simp only [sweepStep, List.mem_append, List.mem_singleton] at hi
      rcases hi with hi | hi
      · exact hs i hi
      · rw [hi]; exact h.1
    · cases hr; exact ⟨h, hs⟩

theorem value_inRange (clk : MonitorClock) (session : Option Nat) (fuel : Nat)
    (m : MidiMonitor) (r : Sweep) (h : m.InRange) (hr : m.value clk session fuel = some r) :
    r.mon.InRange ∧ ∀ i ∈ r.swept, i < c_iQueueSize := by
  unfold MidiMonitor.value at hr
  have h0 : ∀ i ∈ ([] : List Nat), i < c_iQueueSize := by simp
  cases session with
  | none => cases hr; exact ⟨h, h0⟩
  | some iFrameEnd =>
    simp only at hr
    split at hr
    · exact sweep_inRange clk iFrameEnd fuel _ r h h0 hr
    · cases hr; exact ⟨h, h0⟩

theorem reachable_inRange (bound : Nat) (m : MidiMonitor)
    (h : MonitorReachableWithin bound m) : m.InRange := by
  induction h with
  | init session m0 h => exact reset_inRange session m0 h
  | enqueue clk m type val tick _ _ _ ih => exact enqueue_inRange clk m type val tick ih
  | value clk session fuel m r _ hr ih => exact (value_inRange clk session fuel m r ih hr).1
  | count m _ ih => exact ih
  | reset session m _ ih => exact reset_inRange session m ih.2

/-! ## Bounds on the values held -/

theorem getD_value_le (bound : Nat) (q : List QueueItem) (i : Nat)
    (h : ∀ x, x ∈ q → x.value ≤ bound) : (q.getD i default).value ≤ bound := by
  rw [List.getD_eq_getElem?_getD]
  cases hq : q[i]? with
  | none => exact Nat.zero_le _
  | some x => exact h x (List.getElem?_mem hq)

theorem reset_valuesWithin (bound : Nat) (session : Option MonitorSession) (m : MidiMonitor)
    (h : m.queue.length = c_iQueueSize) : (m.reset session).ValuesWithin bound := by
  refine ⟨Nat.zero_le _, ?_⟩
  intro x hx
  rw [reset_queue session m h] at hx
  rw [(List.mem_replicate.mp hx).2]
  exact Nat.zero_le _

theorem enqueue_valuesWithin (bound : Nat) (clk : MonitorClock) (m : MidiMonitor)
    (type : EventType) (val tick : Nat) (hnote : type = EventType.NOTEON → val ≤ bound)
    (h : m.ValuesWithin bound) : (m.enqueue clk type val tick).ValuesWithin bound := by
  have hput : ∀ it : QueueItem, it.value ≤ bound → (it.put type val).value ≤ bound := by
    intro it hit
    unfold QueueItem.put
    simp only
    split
    · rename_i hc; exact hnote hc.2
    · exact hit
  unfold MidiMonitor.enqueue
  cases enqueueIndex clk m tick with
  | none => exact ⟨hput _ h.1, h.2⟩
  | some i =>
    refine ⟨h.1, ?_⟩
    intro x hx
    rcases List.mem_or_eq_of_mem_set hx with hx | hx
    · exact h.2 x hx
    · rw [hx]
      exact hput _ (getD_value_le bound m.queue i h.2)

theorem sweepStep_valuesWithin (bound : Nat) (clk : MonitorClock) (s : Sweep)
    (h : s.mon.ValuesWithin bound) (hv : s.val ≤ bound) :
    (sweepStep clk s).mon.ValuesWithin bound ∧ (sweepStep clk s).val ≤ bound := by
  refine ⟨⟨h.1, ?_⟩, ?_⟩
  · intro x hx
    rcases List.mem_or_eq_of_mem_set hx with hx | hx
    · exact h.2 x hx
    · rw [hx]; exact Nat.zero_le _
  · unfold sweepStep
    simp only
    split
    · exact getD_value_le bound _ _ h.2
    · exact hv

theorem sweep_valuesWithin (bound : Nat) (clk : MonitorClock) (iFrameEnd : Nat) (fuel : Nat)
    (s r : Sweep) (h : s.mon.ValuesWithin bound) (hv : s.val ≤ bound)
    (hr : sweep clk iFrameEnd fuel s = some r) :
    r.mon.ValuesWithin bound ∧ r.val ≤ bound := by
  induction fuel generalizing s with
  | zero =>
    unfold sweep at hr
    split at hr
    · cases hr
    · cases hr; exact ⟨h, hv⟩
  | succ fuel ih =>
    unfold sweep at hr
    split at hr
    · have hs := sweepStep_valuesWithin bound clk s h hv
      exact ih (sweepStep clk s) hs.1 hs.2 hr
    · cases hr; exact ⟨h, hv⟩

theorem value_valuesWithin (bound : Nat) (clk : MonitorClock) (session : Option Nat)
    (fuel : Nat) (m : MidiMonitor) (r : Sweep) (h : m.ValuesWithin bound)
    (hr : m.value clk session fuel = some r) :
    r.mon.ValuesWithin bound ∧ r.val ≤ bound := by
  have h0 : m.clearValue.ValuesWithin bound := ⟨Nat.zero_le _, h.2⟩
  unfold MidiMonitor.value at hr
  cases session with
  | none => cases hr; exact ⟨h0, h.1⟩
  | some iFrameEnd =>
    simp only at hr
    split at hr
    · exact sweep_valuesWithin bound clk iFrameEnd fuel _ r h0 h.1 hr
    · cases hr; exact ⟨h0, h.1⟩

theorem reachable_valuesWithin (bound : Nat) (m : MidiMonitor)
    (h : MonitorReachableWithin bound m) : m.ValuesWithin bound := by
  induction h with
  | init session m0 h => exact reset_valuesWithin bound session m0 h
  | enqueue clk m type val tick _ hnote _ ih =>
    exact enqueue_valuesWithin bound clk m type val tick hnote ih
  | value clk session fuel m r _ hr ih =>
    exact (value_valuesWithin bound clk session fuel m r ih hr).1
  | count m _ ih => exact ih
  | reset session m hm _ =>
    exact reset_valuesWithin bound session m (reachable_inRange bound m hm).2

/-! ## The sweep loop of `value()` as an iteration -/

theorem sweep_eq_iterate (clk : MonitorClock) (iFrameEnd : Nat) (k : Nat) :
    ∀ (fuel : Nat) (s : Sweep), k ≤ fuel →
      (∀ j, j < k → ((sweepStep clk)^[j] s).mon.iFrameStart < iFrameEnd) →
      ¬ ((sweepStep clk)^[k] s).mon.iFrameStart < iFrameEnd →
      sweep clk iFrameEnd fuel s = some ((sweepStep clk)^[k] s) := by
  induction k with
  | zero =>
    intro fuel s _ _ hstop
    unfold sweep
    rw [if_neg (by simpa using hstop)]
    rfl
  | succ k ih =>
    intro fuel s hfuel hrun hstop
    obtain ⟨fuel, rfl⟩ : ∃ f, fuel = f + 1 := ⟨fuel - 1, by omega⟩
    unfold sweep
    rw [if_pos (by simpa using hrun 0 (by omega))]
    simp only
    rw [Function.iterate_succ_apply]
    apply ih fuel (sweepStep clk s) (by omega)
    · intro j hj
      have := hrun (j + 1) (by omega)
      rwa [Function.iterate_succ_apply] at this
    · rwa [Function.iterate_succ_apply] at hstop

theorem iterate_iFrameStart (clk : MonitorClock) (s : Sweep) (j : Nat)
    (h : s.mon.iFrameStart + j * clk.iFrameSlot < ULONG_SIZE) :
    ((sweepStep clk)^[j] s).mon.iFrameStart = s.mon.iFrameStart + j * clk.iFrameSlot := by
  induction j with
  | zero => simp
  | succ j ih =>
    rw [Function.iterate_succ_apply']
    have hstep : ∀ t : Sweep, (sweepStep clk t).mon.iFrameStart
        = (t.mon.iFrameStart + clk.iFrameSlot) % ULONG_SIZE := fun _ => rfl
    have e : s.mon.iFrameStart + (j + 1) * clk.iFrameSlot
        = s.mon.iFrameStart + j * clk.iFrameSlot + clk.iFrameSlot := by ring
    rw [e] at h ⊢
    rw [hstep, ih (by omega), Nat.mod_eq_of_lt h]

theorem iterate_iTimeStart (clk : MonitorClock) (s : Sweep) (j : Nat) :
    ((sweepStep clk)^[j + 1] s).mon.iTimeStart
      = (s.mon.iTimeStart + (j + 1) * clk.iTimeSlot) % ULONG_SIZE := by
  have hstep : ∀ t : Sweep, (sweepStep clk t).mon.iTimeStart
      = (t.mon.iTimeStart + clk.iTimeSlot) % ULONG_SIZE := fun _ => rfl
  induction j with
  | zero => simp [hstep]
  | succ j ih =>
    rw [Function.iterate_succ_apply', hstep, ih, Nat.mod_add_mod]
    congr 1
    ring

theorem iterate_item_value (clk : MonitorClock) (s : Sweep) (j : Nat) :
    ((sweepStep clk)^[j] s).mon.item.value = s.mon.item.value := by
  induction j with
  | zero => rfl
  | succ j ih =>
    rw [Function.iterate_succ_apply']
    exact ih

theorem iterate_inRange (clk : MonitorClock) (s : Sweep) (j : Nat) (h : s.mon.InRange) :
    ((sweepStep clk)^[j] s).mon.InRange := by
  induction j with
  | zero => exact h
  | succ j ih =>
    rw [Function.iterate_succ_apply']
    exact sweepStep_inRange clk _ ih

theorem iterate_iQueueIndex (clk : MonitorClock) (s : Sweep) (j : Nat) (h : s.mon.InRange) :
    ((sweepStep clk)^[j] s).mon.iQueueIndex = (s.mon.iQueueIndex + j) % c_iQueueSize := by
  induction j with
  | zero => exact (Nat.mod_eq_of_lt h.1).symm
  | succ j ih =>
    rw [Function.iterate_succ_apply']
    have hstep : ∀ t : Sweep, (sweepStep clk t).mon.iQueueIndex
        = ((t.mon.iQueueIndex + 1) % UINT_SIZE) &&& c_iQueueMask := fun _ => rfl
    rw [hstep, and_queueMask, ih]
    simp only [UINT_SIZE, c_iQueueSize]
    omega

theorem iterate_swept (clk : MonitorClock) (s : Sweep) (j : Nat) (h : s.mon.InRange) :
    ((sweepStep clk)^[j] s).swept
      = s.swept ++ (List.range j).map (fun i => (s.mon.iQueueIndex + i) % c_iQueueSize) := by
  induction j with
  | zero => simp
  | succ j ih =>
    rw [Function.iterate_succ_apply']
    have hstep : ∀ t : Sweep, (sweepStep clk t).swept = t.swept ++ [t.mon.iQueueIndex] :=
      fun _ => rfl
    rw [hstep, ih, iterate_iQueueIndex clk s j h, List.range_succ, List.map_append,
      List.append_assoc]
    rfl

theorem getD_set_queue (q : List QueueItem) (idx i : Nat) (z : QueueItem)
    (h : idx < q.length) :
    (q.set idx z).getD i default = if i = idx then z else q.getD i default := by
  simp only [List.getD_eq_getElem?_getD, List.getElem?_set]
  by_cases hi : idx = i
  · subst hi; simp [h]
  · have hi2 : ¬ i = idx := fun e => hi e.symm
    simp [hi, hi2]

theorem le_foldl_max (l : List Nat) (v x : Nat) (h : x ∈ l ∨ x ≤ v) :
    x ≤ l.foldl max v := by
  induction l generalizing v with
  | nil =>
    rcases h with h | h
    · cases h
    · simpa using h
  | cons a l ih =>
    rw [List.foldl_cons]
    apply ih
    rcases h with h | h
    · rcases List.mem_cons.mp h with h | h
      · right; subst h; exact le_max_right _ _
      · left; exact h
    · right; exact le_trans h (le_max_left _ _)

theorem iterate_queue (clk : MonitorClock) (s : Sweep) (j : Nat) (h : s.mon.InRange) (i : Nat) :
    ((sweepStep clk)^[j] s).mon.queue.getD i default
      = if i ∈ (List.range j).map (fun t => (s.mon.iQueueIndex + t) % c_iQueueSize)
        then ⟨0, 0⟩ else s.mon.queue.getD i default := by
  induction j with
  | zero => simp
  | succ j ih =>
    rw [Function.iterate_succ_apply']
    have hstep : ∀ t : Sweep, (sweepStep clk t).mon.queue
        = t.mon.queue.set t.mon.iQueueIndex ⟨0, 0⟩ := fun _ => rfl
    have hr := iterate_inRange clk s j h
    rw [hstep, getD_set_queue _ _ _ _ (by rw [hr.2]; exact hr.1), ih,
      iterate_iQueueIndex clk s j h, List.range_succ, List.map_append]
    simp only [List.map_cons, List.map_nil, List.mem_append, List.mem_singleton]
    by_cases h1 : i = (s.mon.iQueueIndex + j) % c_iQueueSize
    · simp [h1]
    · simp [h1]

theorem iterate_val (clk : MonitorClock) (s : Sweep) (j : Nat) (h : s.mon.InRange) :
    ((sweepStep clk)^[j] s).val
      = ((List.range j).map (fun t =>
          (s.mon.queue.getD ((s.mon.iQueueIndex + t) % c_iQueueSize) default).value)).foldl
          max s.val := by
  induction j with
  | zero => simp
  | succ j ih =>
    rw [Function.iterate_succ_apply']
    have hstep : ∀ t : Sweep, (sweepStep clk t).val
        = if t.val < (t.mon.queue.getD t.mon.iQueueIndex default).value
          then (t.mon.queue.getD t.mon.iQueueIndex default).value else t.val := fun _ => rfl
    rw [hstep, iterate_queue clk s j h, iterate_iQueueIndex clk s j h, List.range_succ,
      List.map_append, List.foldl_append, ← ih]
    simp only [List.map_cons, List.map_nil, List.foldl_cons, List.foldl_nil]
    by_cases hm : (s.mon.iQueueIndex + j) % c_iQueueSize
        ∈ (List.range j).map (fun t => (s.mon.iQueueIndex + t) % c_iQueueSize)
    · rw [if_pos hm]
      have hle : (s.mon.queue.getD ((s.mon.iQueueIndex + j) % c_iQueueSize) default).value
          ≤ ((sweepStep clk)^[j] s).val := by
        rw [ih]
        apply le_foldl_max
        left
        obtain ⟨t, ht, hte⟩ := List.mem_map.mp hm
        exact List.mem_map.mpr ⟨t, ht, by rw [hte]⟩
      simp only [Nat.not_lt_zero, if_false]
      exact (max_eq_left hle).symm
    · rw [if_neg hm]
      split
      · rename_i hlt
        exact (max_eq_right (le_of_lt hlt)).symm
      · rename_i hge
        exact (max_eq_left (by omega)).symm

theorem sweepCount_bounds (clk : MonitorClock) (m : MidiMonitor) (iFrameEnd : Nat)
    (hslot : 0 < clk.iFrameSlot) (hlt : m.iFrameStart < iFrameEnd) :
    iFrameEnd - m.iFrameStart ≤ sweepCount clk m iFrameEnd * clk.iFrameSlot ∧
    ∀ j, j < sweepCount clk m iFrameEnd → j * clk.iFrameSlot < iFrameEnd - m.iFrameStart := by
  unfold sweepCount
  constructor
  · have h := Nat.lt_mul_div_succ (iFrameEnd - m.iFrameStart + clk.iFrameSlot - 1) hslot
    rw [Nat.mul_succ, Nat.mul_comm] at h
    omega
  · intro j hj
    have h1 := Nat.div_mul_le_self (iFrameEnd - m.iFrameStart + clk.iFrameSlot - 1) clk.iFrameSlot
    have h2 : (j + 1) * clk.iFrameSlot
        ≤ (iFrameEnd - m.iFrameStart + clk.iFrameSlot - 1) / clk.iFrameSlot * clk.iFrameSlot :=
      Nat.mul_le_mul_right _ hj
    rw [Nat.succ_mul] at h2
    omega

/-- What `value()` returns when its loop runs `k` times. -/
theorem value_eq_iterate (clk : MonitorClock) (m : MidiMonitor) (iFrameEnd fuel k : Nat)
    (hslot : 0 < clk.iFrameSlot) (hfuel : k ≤ fuel)
    (hno : m.iFrameStart + k * clk.iFrameSlot < ULONG_SIZE)
    (hrun : ∀ j, j < k → m.iFrameStart + j * clk.iFrameSlot < iFrameEnd)
    (hstop : iFrameEnd ≤ m.iFrameStart + k * clk.iFrameSlot) :
    m.value clk (some iFrameEnd) fuel
      = some ((sweepStep clk)^[k] ⟨m.clearValue, m.item.value, []⟩) := by
  have hfs : ∀ j, j ≤ k →
      ((sweepStep clk)^[j] ⟨m.clearValue, m.item.value, []⟩).mon.iFrameStart
        = m.iFrameStart + j * clk.iFrameSlot := by
    intro j hj
    have hle : j * clk.iFrameSlot ≤ k * clk.iFrameSlot := Nat.mul_le_mul_right _ hj
    exact iterate_iFrameStart clk ⟨m.clearValue, m.item.value, []⟩ j
      (by simp only [MidiMonitor.clearValue]; omega)
  unfold MidiMonitor.value
  simp only [if_pos hslot]
  apply sweep_eq_iterate clk iFrameEnd k fuel _ hfuel
  · intro j hj
    have := hfs j (by omega)
    simp only [MidiMonitor.clearValue] at this
    rw [this]
    exact hrun j hj
  · have := hfs k (le_refl k)
    simp only [MidiMonitor.clearValue] at this
    rw [this]
    omega

/-! ## Scheduled events and the conservation of counts -/

theorem enqueueIndex_scheduled (clk : MonitorClock) (m : MidiMonitor) (tick : Nat)
    (h1 : m.iTimeStart < tick) (h2 : 0 < clk.iTimeSlot)
    (hq : (tick - m.iTimeStart) / clk.iTimeSlot < UINT_SIZE) :
    enqueueIndex clk m tick
      = some ((m.iQueueIndex + min ((tick - m.iTimeStart) / clk.iTimeSlot) c_iQueueMask)
          % c_iQueueSize) := by
  unfold enqueueIndex
  rw [if_pos ⟨h1, h2⟩]
  simp only [Nat.mod_eq_of_lt hq, and_queueMask, Option.some.injEq]
  simp only [c_iQueueMask, c_iQueueSize, UINT_SIZE] at *
  split <;> omega

theorem sumCounts_set (q : List QueueItem) (idx : Nat) (z : QueueItem) (h : idx < q.length) :
    sumCounts (q.set idx z) + (q.getD idx default).count = sumCounts q + z.count := by
  induction q generalizing idx with
  | nil => simp at h
  | cons a q ih =>
    cases idx with
    | zero =>
      simp only [sumCounts, List.set_cons_zero, List.map_cons, List.sum_cons, List.getD_cons_zero]
      omega
    | succ idx =>
      have := ih idx (by simpa using h)
      simp only [sumCounts, List.set_cons_succ, List.map_cons, List.sum_cons,
        List.getD_cons_succ] at this ⊢
      omega

theorem getD_count_le (q : List QueueItem) (idx : Nat) (h : idx < q.length) :
    (q.getD idx default).count ≤ sumCounts q := by
  have hs : sumCounts (q.set idx ⟨0, 0⟩) + (q.getD idx default).count = sumCounts q :=
    sumCounts_set q idx ⟨0, 0⟩ h
  omega

theorem sweepStep_total (clk : MonitorClock) (s : Sweep) (h : s.mon.InRange)
    (ht : s.mon.total < UINT_SIZE) : (sweepStep clk s).mon.total = s.mon.total := by
  have hs : sumCounts (s.mon.queue.set s.mon.iQueueIndex ⟨0, 0⟩)
      + (s.mon.queue.getD s.mon.iQueueIndex default).count = sumCounts s.mon.queue :=
    sumCounts_set s.mon.queue s.mon.iQueueIndex ⟨0, 0⟩ (by rw [h.2]; exact h.1)
  unfold MidiMonitor.total at ht ⊢
  simp only [sweepStep]
  have hlt : s.mon.item.count + (s.mon.queue.getD s.mon.iQueueIndex default).count
      < UINT_SIZE := by omega
  rw [Nat.mod_eq_of_lt hlt]
  omega

/-- What `enqueue` changes when the quotient `(tick - tick_start) / tick_slot` fits the
`unsigned int` offset: exactly one item, the ring slot
`(queue_index + min(quotient, QueueMask)) & QueueMask` for a scheduled tick and the direct
item otherwise, updated by `QueueItem.put`. -/
theorem enqueue_effect (clk : MonitorClock) (m : MidiMonitor) (type : EventType)
    (val tick : Nat) (hR : m.InRange)
    (hq : (tick - m.iTimeStart) / clk.iTimeSlot < UINT_SIZE) :
    (m.enqueue clk type val tick).iQueueIndex = m.iQueueIndex ∧
    (m.enqueue clk type val tick).iFrameStart = m.iFrameStart ∧
    (m.enqueue clk type val tick).iTimeStart = m.iTimeStart ∧
    (m.iTimeStart < tick ∧ 0 < clk.iTimeSlot →
      (m.enqueue clk type val tick).item = m.item ∧
      (m.enqueue clk type val tick).queue.getD
          ((m.iQueueIndex + min ((tick - m.iTimeStart) / clk.iTimeSlot) c_iQueueMask)
            &&& c_iQueueMask) default
        = (m.queue.getD
          ((m.iQueueIndex + min ((tick - m.iTimeStart) / clk.iTimeSlot) c_iQueueMask)
            &&& c_iQueueMask) default).put type val ∧
      ∀ i, i ≠ (m.iQueueIndex + min ((tick - m.iTimeStart) / clk.iTimeSlot) c_iQueueMask)
            &&& c_iQueueMask →
        (m.enqueue clk type val tick).queue.getD i default = m.queue.getD i default) ∧
    (¬ (m.iTimeStart < tick ∧ 0 < clk.iTimeSlot) →
      (m.enqueue clk type val tick).queue = m.queue ∧
      (m.enqueue clk type val tick).item = m.item.put type val) := by
  refine ⟨?_, ?_, ?_, ?_, ?_⟩
  · unfold MidiMonitor.enqueue; cases enqueueIndex clk m tick <;> rfl
  · unfold MidiMonitor.enqueue; cases enqueueIndex clk m tick <;> rfl
  · unfold MidiMonitor.enqueue; cases enqueueIndex clk m tick <;> rfl
  · intro hc
    have hidx := enqueueIndex_scheduled clk m tick hc.1 hc.2 hq
    rw [← and_queueMask] at hidx
    have hlen : (m.iQueueIndex + min ((tick - m.iTimeStart) / clk.iTimeSlot) c_iQueueMask)
        &&& c_iQueueMask < m.queue.length := by
      rw [hR.2]; exact and_queueMask_lt _
    unfold MidiMonitor.enqueue
    rw [hidx]
    refine ⟨rfl, ?_, ?_⟩
    · show (m.queue.set _ _).getD _ default = _
      rw [getD_set_queue _ _ _ _ hlen, if_pos rfl]
    · intro i hi
      show (m.queue.set _ _).getD i default = _
      rw [getD_set_queue _ _ _ _ hlen, if_neg hi]
  · intro hc
    have hidx : enqueueIndex clk m tick = none := by
      unfold enqueueIndex
      rw [if_neg hc]
    unfold MidiMonitor.enqueue
    rw [hidx]
    exact ⟨rfl, rfl⟩

/-! ## Claims on the monitor -/

/-- C6 (as the code behaves): with `tick_start = 0`, `tick_slot = 1`, `queue_index = 0`
and `tick = 2^32` the quotient `(tick - tick_start) / tick_slot = 2^32` is narrowed to the
`unsigned int` offset `0` before it is clamped, so `enqueue` updates ring slot `0`, whereas
`(queue_index + min(quotient, QueueMask)) & QueueMask` is slot `15`, which stays untouched. -/
theorem enqueue_offset_narrowed :
    enqueueIndex ⟨0, 1⟩ freshMonitor (2 ^ 32) = some 0 ∧
    (freshMonitor.iQueueIndex
        + min ((2 ^ 32 - freshMonitor.iTimeStart) / 1) c_iQueueMask) &&& c_iQueueMask = 15 ∧
    (freshMonitor.enqueue ⟨0, 1⟩ EventType.NOTEON 100 (2 ^ 32)).queue.getD 0 default
      = ⟨100, 1⟩ ∧
    (freshMonitor.enqueue ⟨0, 1⟩ EventType.NOTEON 100 (2 ^ 32)).queue.getD 15 default
      = ⟨0, 0⟩ := by
  decide

/-- C7: on a monitor whose ring is in range (as in every reachable state), `value()` with
`frame_slot > 0` and `frame_start < frame_end`, where the frame counter does not overflow,
returns after exactly `k = ceil((frame_end - frame_start) / frame_slot)` sweep steps over the
slots `queue_index, queue_index + 1, ...` (mod `QueueSize`): `queue_index` advances by `k`
mod `QueueSize`, `frame_start` grows by `k * frame_slot` and reaches `frame_end`,
`tick_start` grows by `k * tick_slot` (in `unsigned long` arithmetic), the swept slots are
zero and the others untouched, `direct.value` is zero and the peak is the maximum of the old
direct value and the swept slots' values. With `frame_slot = 0` or `frame_start ≥ frame_end`
only `direct.value` is cleared and the peak is the old direct value. -/
theorem value_sweep_steps (clk : MonitorClock) (m : MidiMonitor) (iFrameEnd fuel : Nat)
    (hR : m.InRange) :
    (0 < clk.iFrameSlot → m.iFrameStart < iFrameEnd →
      m.iFrameStart + sweepCount clk m iFrameEnd * clk.iFrameSlot < ULONG_SIZE →
      sweepCount clk m iFrameEnd ≤ fuel →
      ∃ r, m.value clk (some iFrameEnd) fuel = some r ∧
        (sweepCount clk m iFrameEnd - 1) * clk.iFrameSlot < iFrameEnd - m.iFrameStart ∧
        iFrameEnd - m.iFrameStart ≤ sweepCount clk m iFrameEnd * clk.iFrameSlot ∧
        r.swept = (List.range (sweepCount clk m iFrameEnd)).map
          (fun j => (m.iQueueIndex + j) % c_iQueueSize) ∧
        r.swept.length = sweepCount clk m iFrameEnd ∧
        r.mon.iQueueIndex = (m.iQueueIndex + sweepCount clk m iFrameEnd) % c_iQueueSize ∧
        r.mon.iFrameStart = m.iFrameStart + sweepCount clk m iFrameEnd * clk.iFrameSlot ∧
        iFrameEnd ≤ r.mon.iFrameStart ∧
        r.mon.iTimeStart
          = (m.iTimeStart + sweepCount clk m iFrameEnd * clk.iTimeSlot) % ULONG_SIZE ∧
        (∀ i, i ∈ r.swept → r.mon.queue.getD i default = ⟨0, 0⟩) ∧
        (∀ i, i ∉ r.swept → r.mon.queue.getD i default = m.queue.getD i default) ∧
        r.mon.item.value = 0 ∧
        r.val = (r.swept.map (fun i => (m.queue.getD i default).value)).foldl max
          m.item.value) ∧
    (clk.iFrameSlot = 0 ∨ iFrameEnd ≤ m.iFrameStart →
      m.value clk (some iFrameEnd) fuel = some ⟨m.clearValue, m.item.value, []⟩ ∧
      m.clearValue.queue = m.queue ∧ m.clearValue.iQueueIndex = m.iQueueIndex ∧
      m.clearValue.iFrameStart = m.iFrameStart ∧ m.clearValue.iTimeStart = m.iTimeStart) := by
  constructor
  · intro hslot hlt hno hfuel
    obtain ⟨hk1, hk2⟩ := sweepCount_bounds clk m iFrameEnd hslot hlt
    have hkpos : 0 < sweepCount clk m iFrameEnd := by
      rcases Nat.eq_zero_or_pos (sweepCount clk m iFrameEnd) with h0 | h0
      · rw [h0] at hk1; omega
      · exact h0
    have hRc : (⟨m.clearValue, m.item.value, []⟩ : Sweep).mon.InRange := hR
    have hval := value_eq_iterate clk m iFrameEnd fuel (sweepCount clk m iFrameEnd) hslot hfuel
      hno (fun j hj => by have := hk2 j hj; omega) (by omega)
    refine ⟨_, hval, ?_, hk1, ?_, ?_, ?_, ?_, ?_, ?_, ?_, ?_, ?_, ?_⟩
    · have := hk2 (sweepCount clk m iFrameEnd - 1) (by omega)
      exact this
    · rw [iterate_swept clk _ _ hRc]; rfl
    · rw [iterate_swept clk _ _ hRc]; simp
    · rw [iterate_iQueueIndex clk _ _ hRc]; rfl
    · rw [iterate_iFrameStart clk _ _ hno]; rfl
    · rw [iterate_iFrameStart clk _ _ hno]
      show iFrameEnd ≤ m.iFrameStart + sweepCount clk m iFrameEnd * clk.iFrameSlot
      omega
    · obtain ⟨j, hj⟩ : ∃ j, sweepCount clk m iFrameEnd = j + 1 :=
        ⟨sweepCount clk m iFrameEnd - 1, by omega⟩
      rw [hj, iterate_iTimeStart]; rfl
    · intro i hi
      rw [iterate_swept clk _ _ hRc] at hi
      rw [iterate_queue clk _ _ hRc, if_pos (by simpa using hi)]
    · intro i hi
      rw [iterate_swept clk _ _ hRc] at hi
      rw [iterate_queue clk _ _ hRc, if_neg (by simpa using hi)]
      rfl
    · rw [iterate_item_value]; rfl
    · rw [iterate_val clk _ _ hRc, iterate_swept clk _ _ hRc]
      simp only [List.nil_append, List.map_map]
      rfl
  · intro h
    refine ⟨?_, rfl, rfl, rfl, rfl⟩
    unfold MidiMonitor.value
    simp only
    rcases h with h | h
    · rw [if_neg (by omega)]; rfl
    · split
      · unfold sweep
        rw [if_neg (by simpa [MidiMonitor.clearValue] using h)]
        rfl
      · rfl

/-- Check of C7 on a fresh monitor: frame slot 3000, frame-time 9000, three sweep steps. -/
theorem value_sweep_steps_witness :
    ∃ r, freshMonitor.value ⟨3000, 24⟩ (some 9000) 3 = some r ∧
      r.swept = [0, 1, 2] ∧ r.mon.iQueueIndex = 3 ∧ r.mon.iFrameStart = 9000 := by
  obtain ⟨r, h1, _, _, h2, _, h3, h4, _⟩ :=
    (value_sweep_steps ⟨3000, 24⟩ freshMonitor 9000 3 ⟨by decide, rfl⟩).1
      (by decide) (by decide) (by decide) (by decide)
  exact ⟨r, h1, h2, h3, h4⟩

/-- C10: `QueueSize = 16 = 2^4` and `QueueMask = QueueSize - 1`, so `x & QueueMask` is
`x mod QueueSize`; in every reachable monitor state `queue_index < QueueSize` and the ring
has `QueueSize` slots, this holds again after `reset()`, `enqueue` and `value()`, and every
ring index that `enqueue` computes or that any step of the sweep of `value()` reads is
below the ring length. -/
theorem ring_index_in_range (m : MidiMonitor) (h : MonitorReachable m) :
    c_iQueueSize = 2 ^ 4 ∧ c_iQueueMask = c_iQueueSize - 1 ∧
    (∀ x : Nat, x &&& c_iQueueMask = x % c_iQueueSize) ∧
    m.iQueueIndex < c_iQueueSize ∧ m.queue.length = c_iQueueSize ∧
    (∀ session, (m.reset session).iQueueIndex < c_iQueueSize) ∧
    (∀ clk type val tick,
      (m.enqueue clk type val tick).iQueueIndex < c_iQueueSize ∧
      ∀ i, enqueueIndex clk m tick = some i → i < m.queue.length) ∧
    (∀ clk k, ((sweepStep clk)^[k] ⟨m.clearValue, m.item.value, []⟩).mon.iQueueIndex
      < ((sweepStep clk)^[k] ⟨m.clearValue, m.item.value, []⟩).mon.queue.length) ∧
    (∀ clk session fuel r, m.value clk session fuel = some r →
      r.mon.iQueueIndex < c_iQueueSize ∧ ∀ i, i ∈ r.swept → i < m.queue.length) := by
  have hR := reachable_inRange _ m h
  refine ⟨rfl, rfl, and_queueMask, hR.1, hR.2, ?_, ?_, ?_, ?_⟩
  · intro session
    exact (reset_inRange session m hR.2).1
  · intro clk type val tick
    refine ⟨(enqueue_inRange clk m type val tick hR).1, ?_⟩
    intro i hi
    rw [hR.2]
    exact enqueueIndex_lt clk m tick i hi
  · intro clk k
    have := iterate_inRange clk ⟨m.clearValue, m.item.value, []⟩ k hR
    rw [this.2]
    exact this.1
  · intro clk session fuel r hr
    have := value_inRange clk session fuel m r hR hr
    rw [hR.2]
    exact ⟨this.1.1, this.2⟩

/-- Check of C10 on the monitor obtained by constructing and resetting. -/
theorem ring_index_in_range_witness :
    MonitorReachable (freshMonitor.reset none) ∧
    (freshMonitor.reset none).iQueueIndex < c_iQueueSize ∧
    (freshMonitor.reset none).queue.length = c_iQueueSize :=
  ⟨MonitorReachableWithin.init none freshMonitor rfl,
   (ring_index_in_range _ (MonitorReachableWithin.init none freshMonitor rfl)).2.2.2.1,
   (ring_index_in_range _ (MonitorReachableWithin.init none freshMonitor rfl)).2.2.2.2.1⟩

/-- When the session is absent, the frame slot is zero, the sweep has nothing to do, or
the frame counter does not overflow and the iteration bound covers the sweep count,
`value()` returns. -/
theorem value_returns (clk : MonitorClock) (session : Option Nat) (fuel : Nat)
    (m : MidiMonitor)
    (h : ∀ iFrameEnd, session = some iFrameEnd → 0 < clk.iFrameSlot →
      m.iFrameStart < iFrameEnd →
      m.iFrameStart + sweepCount clk m iFrameEnd * clk.iFrameSlot < ULONG_SIZE ∧
        sweepCount clk m iFrameEnd ≤ fuel) :
    ∃ r, m.value clk session fuel = some r := by
  cases session with
  | none => exact ⟨_, rfl⟩
  | some iFrameEnd =>
    by_cases hslot : 0 < clk.iFrameSlot
    · by_cases hlt : m.iFrameStart < iFrameEnd
      · obtain ⟨hno, hfuel⟩ := h iFrameEnd rfl hslot hlt
        obtain ⟨hk1, hk2⟩ := sweepCount_bounds clk m iFrameEnd hslot hlt
        exact ⟨_, value_eq_iterate clk m iFrameEnd fuel (sweepCount clk m iFrameEnd) hslot
          hfuel hno (fun j hj => by have := hk2 j hj; omega) (by omega)⟩
      · refine ⟨⟨m.clearValue, m.item.value, []⟩, ?_⟩
        unfold MidiMonitor.value
        simp only [if_pos hslot]
        unfold sweep
        rw [if_neg (by simpa [MidiMonitor.clearValue] using hlt)]
        rfl
    · refine ⟨⟨m.clearValue, m.item.value, []⟩, ?_⟩
      unfold MidiMonitor.value
      simp only [if_neg hslot]
      rfl

/-- C9 (as stated, refuted): after `reset()` and the single call `enqueue(NoteOn, 200, 0)`,
which `unsigned char val` allows, `value()` with gain `1` returns `200 / 127 > 1`, in exact
arithmetic and as the `float` computed. And with every value within `127`: after
`enqueue(NoteOn, 127, 0)`, with the `float` gain `158845 / 2^19`, the product `gain * 127`
lies half-way between two `float`s and rounds up, and the quotient returned is
`gain + 2^-25`, the next `float` above the gain. -/
theorem value_exceeds_gain :
    MonitorReachable ((freshMonitor.reset none).enqueue ⟨0, 0⟩ EventType.NOTEON 200 0) ∧
    Option.map Sweep.val
      (((freshMonitor.reset none).enqueue ⟨0, 0⟩ EventType.NOTEON 200 0).value ⟨0, 0⟩ none 0)
      = some 200 ∧
    ¬ (valueResult 1 200 ≤ 1) ∧
    ¬ (valueFloat 1 200 ≤ 1) ∧
    MonitorReachableWithin 127
      ((freshMonitor.reset none).enqueue ⟨0, 0⟩ EventType.NOTEON 127 0) ∧
    Option.map Sweep.val
      (((freshMonitor.reset none).enqueue ⟨0, 0⟩ EventType.NOTEON 127 0).value ⟨0, 0⟩ none 0)
      = some 127 ∧
    roundFloat (158845 / 524288) = 158845 / 524288 ∧
    valueFloat (158845 / 524288) 127 = 158845 / 524288 + 2 ^ (-25 : ℤ) ∧
    ¬ (valueFloat (158845 / 524288) 127 ≤ 158845 / 524288) := by
  have hv : valueFloat (158845 / 524288) 127 = 158845 / 524288 + 2 ^ (-25 : ℤ) := by
    unfold valueFloat
    have hp : roundFloat ((158845 / 524288) * ((127 : Nat) : ℚ)) = 5043329 / 131072 := by
      rw [roundFloat_of_exponent _ 5 (by decide) (by norm_num [abs_of_pos])
        (by norm_num [abs_of_pos]),
        roundHalfEven_tie _ 10086657 (by norm_num)]
      norm_num
    rw [hp, roundFloat_of_exponent _ (-2) (by decide) (by norm_num [abs_of_pos])
      (by norm_num [abs_of_pos]),
      roundHalfEven_eq _ 10166081 (by norm_num) (by norm_num)]
    norm_num
  refine ⟨?_, by decide, ?_, ?_, ?_, by decide, ?_, hv, ?_⟩
  · exact MonitorReachableWithin.enqueue _ _ _ _ _ (by decide) (by decide)
      (MonitorReachableWithin.init none freshMonitor rfl)
  · unfold valueResult
    norm_num
  · unfold valueFloat
    rw [one_mul, roundFloat_natCast 200 (by norm_num),
      roundFloat_of_exponent _ 0 (by decide) (by norm_num [abs_of_pos])
        (by norm_num [abs_of_pos]),
      roundHalfEven_eq _ 13210406 (by norm_num) (by norm_num)]
    norm_num
  · exact MonitorReachableWithin.enqueue _ _ _ _ _ (by decide) (by decide)
      (MonitorReachableWithin.init none freshMonitor rfl)
  · rw [roundFloat_of_exponent _ (-2) (by decide) (by norm_num [abs_of_pos])
      (by norm_num [abs_of_pos]),
      roundHalfEven_eq _ 10166080 (by norm_num) (by norm_num)]
    norm_num
  · rw [hv]
    norm_num

/-- The `float` returned by `value()` for a peak within `127` and a gain in `[0, 2^120]`
exceeds the gain by the two roundings at most. -/
theorem valueFloat_le (gain : ℚ) (hg : 0 ≤ gain) (val : Nat) (hval : val ≤ 127) :
    0 ≤ valueFloat gain val ∧
    valueFloat gain val ≤ gain * (1 + 2 ^ (-24 : ℤ)) ^ 2 + 2 ^ (-149 : ℤ) ∧
    (gain ≤ 2 ^ 120 → roundFloat (gain * (val : ℚ)) < 2 ^ 128) := by
  have hq : (val : ℚ) ≤ 127 := by exact_mod_cast hval
  have hv0 : (0 : ℚ) ≤ (val : ℚ) := Nat.cast_nonneg _
  have hx0 : 0 ≤ gain * (val : ℚ) := mul_nonneg hg hv0
  have hx1 : gain * (val : ℚ) ≤ gain * 127 := mul_le_mul_of_nonneg_left hq hg
  have hp0 : 0 ≤ roundFloat (gain * (val : ℚ)) := roundFloat_nonneg _ hx0
  have hp1 := roundFloat_le_rel _ hx0
  have hy0 : 0 ≤ roundFloat (gain * (val : ℚ)) / 127 := div_nonneg hp0 (by norm_num)
  have hq1 := roundFloat_le_rel _ hy0
  have hu : (2 : ℚ) ^ (-24 : ℤ) = 1 / 16777216 := by norm_num [zpow_neg]
  have hd0 : (0 : ℚ) < 2 ^ (-150 : ℤ) := zpow_pos (by norm_num) _
  have hd : (2 : ℚ) ^ (-149 : ℤ) = 2 * 2 ^ (-150 : ℤ) := by
    rw [show (-149 : ℤ) = 1 + -150 from by norm_num, zpow_add₀ (by norm_num : (2 : ℚ) ≠ 0),
      zpow_one]
  have hd1 : (2 : ℚ) ^ (-150 : ℤ) ≤ 1 := zpow_le_one_of_nonpos₀ (by norm_num) (by norm_num)
  refine ⟨roundFloat_nonneg _ hy0, ?_, ?_⟩
  · unfold valueFloat
    rw [hd]
    rw [hu] at hp1 hq1 ⊢
    generalize (2 : ℚ) ^ (-150 : ℤ) = d at hp1 hq1 hd0 ⊢
    generalize roundFloat (roundFloat (gain * (val : ℚ)) / 127) = q at hq1 ⊢
    generalize roundFloat (gain * (val : ℚ)) = p at hp1 hq1 hp0 ⊢
    generalize gain * (val : ℚ) = x at hp1 hx1
    nlinarith
  · intro hmax
    rw [hu] at hp1
    have hx2 : gain * (val : ℚ) ≤ 2 ^ 120 * 127 := le_trans hx1 (by linarith)
    generalize roundFloat (gain * (val : ℚ)) = p at hp1 ⊢
    generalize gain * (val : ℚ) = x at hp1 hx2
    generalize (2 : ℚ) ^ (-150 : ℤ) = d at hp1 hd1
    norm_num at hx2 ⊢
    linarith

/-- With an integer gain below `2^17` the products and the bound are exact: the `float`
returned for a peak within `127` is at most the gain. -/
theorem valueFloat_le_natCast (n val : Nat) (hn : n < 2 ^ 17) (hval : val ≤ 127) :
    valueFloat (n : ℚ) val ≤ (n : ℚ) := by
  unfold valueFloat
  have hprod : n * val < 2 ^ 24 := by
    calc n * val ≤ n * 127 := Nat.mul_le_mul_left _ hval
      _ < 2 ^ 24 := by omega
  have hp : roundFloat ((n : ℚ) * (val : ℚ)) = ((n * val : Nat) : ℚ) := by
    rw [← Nat.cast_mul]
    exact roundFloat_natCast _ hprod
  rw [hp]
  have hq0 : (0 : ℚ) ≤ ((n * val : Nat) : ℚ) / 127 := div_nonneg (Nat.cast_nonneg _) (by norm_num)
  have hq1 : ((n * val : Nat) : ℚ) / 127 ≤ ((n : Int) : ℚ) := by
    rw [div_le_iff₀ (by norm_num : (0 : ℚ) < 127), Int.cast_natCast, Nat.cast_mul]
    exact mul_le_mul_of_nonneg_left (by exact_mod_cast hval) (Nat.cast_nonneg _)
  have habs : |((n * val : Nat) : ℚ) / 127| < 2 ^ 24 := by
    rw [abs_of_nonneg hq0]
    refine lt_of_le_of_lt hq1 ?_
    rw [Int.cast_natCast]
    have : (n : ℚ) < 2 ^ 17 := by exact_mod_cast hn
    linarith
  have := roundFloat_le_int _ habs (n : Int) hq1
  rwa [Int.cast_natCast] at this

/-- C9 (amended): in every monitor state reachable from `reset()` by `enqueue`, `value()`
and `count()` calls whose NOTEON values are all at most `127`, with `0 ≤ gain ≤ 2^120`, the
8-bit peak that `value()` divides by `127` is at most `127`; the exact quotient
`gain * peak / 127` lies in `[0, gain]`; the `float` returned, the product and the quotient
each rounded to `float`, is finite, lies in `[0, gain * (1 + 2^-24)^2 + 2^-149]`, and lies in
`[0, gain]` when the gain is an integer below `2^17`; and `value()` does return whenever
its sweep is not cut short by an overflow of the frame counter or by the iteration bound. -/
theorem value_within_gain (m : MidiMonitor) (h : MonitorReachableWithin 127 m)
    (gain : ℚ) (hg : 0 ≤ gain) (hmax : gain ≤ 2 ^ 120) (clk : MonitorClock)
    (session : Option Nat) (fuel : Nat) :
    (∀ r, m.value clk session fuel = some r →
      r.val ≤ 127 ∧ 0 ≤ valueResult gain r.val ∧ valueResult gain r.val ≤ gain ∧
      roundFloat (gain * (r.val : ℚ)) < 2 ^ 128 ∧
      0 ≤ valueFloat gain r.val ∧
      valueFloat gain r.val ≤ gain * (1 + 2 ^ (-24 : ℤ)) ^ 2 + 2 ^ (-149 : ℤ) ∧
      valueFloat gain r.val < 2 ^ 128 ∧
      (∀ n : Nat, gain = (n : ℚ) → n < 2 ^ 17 → valueFloat gain r.val ≤ gain)) ∧
    ((∀ iFrameEnd, session = some iFrameEnd → 0 < clk.iFrameSlot →
        m.iFrameStart < iFrameEnd →
        m.iFrameStart + sweepCount clk m iFrameEnd * clk.iFrameSlot < ULONG_SIZE ∧
          sweepCount clk m iFrameEnd ≤ fuel) →
      ∃ r, m.value clk session fuel = some r) := by
  refine ⟨?_, value_returns clk session fuel m⟩
  intro r hr
  have hle : r.val ≤ 127 :=
    (value_valuesWithin 127 clk session fuel m r (reachable_valuesWithin 127 m h) hr).2
  have hq : (r.val : ℚ) ≤ 127 := by exact_mod_cast hle
  have h0 : (0 : ℚ) ≤ (r.val : ℚ) := Nat.cast_nonneg _
  have hf := valueFloat_le gain hg r.val hle
  refine ⟨hle, ?_, ?_, hf.2.2 hmax, hf.1, hf.2.1, ?_, ?_⟩
  · unfold valueResult
    exact div_nonneg (mul_nonneg hg h0) (by norm_num)
  · unfold valueResult
    rw [div_le_iff₀ (by norm_num : (0 : ℚ) < 127)]
    exact mul_le_mul_of_nonneg_left hq hg
  · refine lt_of_le_of_lt hf.2.1 ?_
    have hu : (2 : ℚ) ^ (-24 : ℤ) = 1 / 16777216 := by norm_num [zpow_neg]
    have hd1 : (2 : ℚ) ^ (-149 : ℤ) ≤ 1 :=
      zpow_le_one_of_nonpos₀ (by norm_num) (by norm_num)
    rw [hu]
    generalize (2 : ℚ) ^ (-149 : ℤ) = d at hd1 ⊢
    norm_num at hmax ⊢
    linarith
  · intro n hn hlt
    rw [hn]
    exact valueFloat_le_natCast n r.val hlt hle

/-- Check of the amended C9: `reset()`, `enqueue(NoteOn, 120, 0)`, then `value()` with
gain `1`. -/
theorem value_within_gain_witness :
    MonitorReachableWithin 127 ((freshMonitor.reset none).enqueue ⟨0, 0⟩ EventType.NOTEON 120 0) ∧
    (0 : ℚ) ≤ 1 ∧ (1 : ℚ) ≤ 2 ^ 120 ∧
    valueResult 1 120 ≤ 1 ∧ valueFloat 1 120 ≤ 1 := by
  have h := (value_within_gain _
      (MonitorReachableWithin.enqueue ⟨0, 0⟩ _ EventType.NOTEON 120 0 (by decide) (by decide)
        (MonitorReachableWithin.init none freshMonitor rfl))
      1 (by norm_num) (by norm_num) ⟨0, 0⟩ none 0).1
      ⟨((freshMonitor.reset none).enqueue ⟨0, 0⟩ EventType.NOTEON 120 0).clearValue, 120, []⟩
      rfl
  exact ⟨MonitorReachableWithin.enqueue _ _ _ _ _ (by decide) (by decide)
      (MonitorReachableWithin.init none freshMonitor rfl),
    by norm_num, by norm_num, h.2.2.1, h.2.2.2.2.2.2.2 1 (by norm_num) (by norm_num)⟩

theorem monitorEnqueue_fields (clk : MonitorClock) (e : MidiEngine) (mon : Option Nat)
    (type : EventType) (val tick : Nat) :
    (e.monitorEnqueue clk mon type val tick).output = e.output ∧
    (e.monitorEnqueue clk mon type val tick).drained = e.drained ∧
    (e.monitorEnqueue clk mon type val tick).iTimeStart = e.iTimeStart ∧
    (e.monitorEnqueue clk mon type val tick).iTimeDelta = e.iTimeDelta ∧
    (e.monitorEnqueue clk mon type val tick).iAlsaQueue = e.iAlsaQueue := by
  cases mon <;> exact ⟨rfl, rfl, rfl, rfl, rfl⟩

theorem enqueueEvent_fields (iAlsaQueue : Int) (pTrack : Track) (pMidiBus : MidiBus)
    (pEvent : MidiEvent) (tick value : Nat) :
    (enqueueEvent iAlsaQueue pTrack pMidiBus pEvent tick value).queue = iAlsaQueue ∧
    (enqueueEvent iAlsaQueue pTrack pMidiBus pEvent tick value).tick = tick % UINT_SIZE ∧
    (enqueueEvent iAlsaQueue pTrack pMidiBus pEvent tick value).scheduled = true ∧
    (enqueueEvent iAlsaQueue pTrack pMidiBus pEvent tick value).sourcePort
      = pMidiBus.alsaPort ∧
    (enqueueEvent iAlsaQueue pTrack pMidiBus pEvent tick value).subs = true ∧
    (enqueueEvent iAlsaQueue pTrack pMidiBus pEvent tick value).tag
      = (pTrack.midiTag &&& 0xff) % UCHAR_SIZE := by
  unfold enqueueEvent
  cases pEvent.type <;> exact ⟨rfl, rfl, rfl, rfl, rfl, rfl⟩

theorem toULong_spec (x : Int) :
    (toULong x : Int) = x % 2 ^ 64 ∧ toULong x < ULONG_SIZE := by
  unfold toULong ULONG_SIZE
  omega

/-- An `unsigned long` narrowed to `unsigned int` is the integer reduced modulo `2^32`. -/
theorem toULong_narrow (x : Int) : ((toULong x % UINT_SIZE : Nat) : Int) = x % 2 ^ 32 := by
  unfold toULong UINT_SIZE
  omega

/-- The events staged by `enqueue` when the track has an output bus and the event is not
dropped, and the fields that are left alone. -/
theorem enqueue_staged (clk : MonitorClock) (e : MidiEngine) (pTrack : Track)
    (pEvent : MidiEvent) (iTime : Nat) (fGain : ℚ) (bus : MidiBus)
    (hbus : pTrack.outputBus = some bus) (hmix : pEvent.isMixerController = false) :
    (e.enqueue clk pTrack pEvent iTime fGain).output
      = e.output ++ [enqueueEvent e.iAlsaQueue pTrack bus pEvent
          (toULong ((iTime : Int) - e.iTimeStart)) (enqueueValue pEvent fGain)] := by
  unfold MidiEngine.enqueue
  rw [hbus]
  simp only [hmix, Bool.false_eq_true, if_false]
  rw [(monitorEnqueue_fields _ _ _ _ _ _).1, (monitorEnqueue_fields _ _ _ _ _ _).1]

theorem enqueue_keeps (clk : MonitorClock) (e : MidiEngine) (pTrack : Track)
    (pEvent : MidiEvent) (iTime : Nat) (fGain : ℚ) :
    (e.enqueue clk pTrack pEvent iTime fGain).iTimeStart = e.iTimeStart ∧
    (e.enqueue clk pTrack pEvent iTime fGain).iTimeDelta = e.iTimeDelta ∧
    (e.enqueue clk pTrack pEvent iTime fGain).iAlsaQueue = e.iAlsaQueue ∧
    (e.enqueue clk pTrack pEvent iTime fGain).drained = e.drained := by
  unfold MidiEngine.enqueue
  cases pTrack.outputBus with
  | none => exact ⟨rfl, rfl, rfl, rfl⟩
  | some bus =>
    simp only
    split
    · exact ⟨rfl, rfl, rfl, rfl⟩
    · have h1 := monitorEnqueue_fields
      refine ⟨?_, ?_, ?_, ?_⟩
      · rw [(h1 _ _ _ _ _ _).2.2.1, (h1 _ _ _ _ _ _).2.2.1]
      · rw [(h1 _ _ _ _ _ _).2.2.2.1, (h1 _ _ _ _ _ _).2.2.2.1]
      · rw [(h1 _ _ _ _ _ _).2.2.2.2, (h1 _ _ _ _ _ _).2.2.2.2]
      · rw [(h1 _ _ _ _ _ _).2.1, (h1 _ _ _ _ _ _).2.1]

/-- C3: `flush()` drains the staged events and, with `Tm` the backend queue tick and
`Ta = frame_to_tick(audio.frame_time)`, computes `Δ = (Ta - Tm) - time_delta` in 64-bit
arithmetic. When `Δ ≠ 0`, `Ta > 0` and `Tm > 0` it adds `Δ` to `time_start` and to
`time_delta`, so that `time_delta` becomes `Ta - Tm` and `time_start - time_delta` keeps its
value (as 64-bit integers, and exactly when the sums fit a `long`); when `Δ = 0`, `Ta = 0`,
`Tm = 0` or the queue status is unavailable, both are unchanged. -/
theorem flush_correction (tickFromFrame : Nat → Nat) (queueStatus : Option Nat)
    (iAudioFrameTime : Nat) (e : MidiEngine) :
    (∀ Tm, queueStatus = some Tm →
      (toLong ((tickFromFrame iAudioFrameTime : Int) - (Tm : Int) - e.iTimeDelta) ≠ 0 ∧
          0 < tickFromFrame iAudioFrameTime ∧ 0 < Tm →
        (e.flush tickFromFrame queueStatus iAudioFrameTime).iTimeStart
          = toLong (e.iTimeStart
              + toLong ((tickFromFrame iAudioFrameTime : Int) - (Tm : Int) - e.iTimeDelta)) ∧
        (e.flush tickFromFrame queueStatus iAudioFrameTime).iTimeDelta
          = toLong (e.iTimeDelta
              + toLong ((tickFromFrame iAudioFrameTime : Int) - (Tm : Int) - e.iTimeDelta)) ∧
        (e.flush tickFromFrame queueStatus iAudioFrameTime).iTimeDelta
          = toLong ((tickFromFrame iAudioFrameTime : Int) - (Tm : Int)) ∧
        toLong ((e.flush tickFromFrame queueStatus iAudioFrameTime).iTimeStart
            - (e.flush tickFromFrame queueStatus iAudioFrameTime).iTimeDelta)
          = toLong (e.iTimeStart - e.iTimeDelta) ∧
        (-2 ^ 63 ≤ (tickFromFrame iAudioFrameTime : Int) - (Tm : Int) ∧
            (tickFromFrame iAudioFrameTime : Int) - (Tm : Int) < 2 ^ 63 ∧
            -2 ^ 63 ≤ e.iTimeStart
              + ((tickFromFrame iAudioFrameTime : Int) - (Tm : Int) - e.iTimeDelta) ∧
            e.iTimeStart
              + ((tickFromFrame iAudioFrameTime : Int) - (Tm : Int) - e.iTimeDelta) < 2 ^ 63 →
          (e.flush tickFromFrame queueStatus iAudioFrameTime).iTimeDelta
            = (tickFromFrame iAudioFrameTime : Int) - (Tm : Int) ∧
          (e.flush tickFromFrame queueStatus iAudioFrameTime).iTimeStart
            = e.iTimeStart
              + ((tickFromFrame iAudioFrameTime : Int) - (Tm : Int) - e.iTimeDelta) ∧
          (e.flush tickFromFrame queueStatus iAudioFrameTime).iTimeStart
              - (e.flush tickFromFrame queueStatus iAudioFrameTime).iTimeDelta
            = e.iTimeStart - e.iTimeDelta)) ∧
      (¬ (toLong ((tickFromFrame iAudioFrameTime : Int) - (Tm : Int) - e.iTimeDelta) ≠ 0 ∧
          0 < tickFromFrame iAudioFrameTime ∧ 0 < Tm) →
        (e.flush tickFromFrame queueStatus iAudioFrameTime).iTimeStart = e.iTimeStart ∧
        (e.flush tickFromFrame queueStatus iAudioFrameTime).iTimeDelta = e.iTimeDelta)) ∧
    (queueStatus = none →
      (e.flush tickFromFrame queueStatus iAudioFrameTime).iTimeStart = e.iTimeStart ∧
      (e.flush tickFromFrame queueStatus iAudioFrameTime).iTimeDelta = e.iTimeDelta) ∧
    (e.flush tickFromFrame queueStatus iAudioFrameTime).output = [] ∧
    (e.flush tickFromFrame queueStatus iAudioFrameTime).drained = e.drained ++ e.output := by
  have hΔ : ∀ Tm : Nat,
      toLong ((toULong ((tickFromFrame iAudioFrameTime : Int) - (Tm : Int)) : Int)
        - e.iTimeDelta)
      = toLong ((tickFromFrame iAudioFrameTime : Int) - (Tm : Int) - e.iTimeDelta) := by
    intro Tm
    unfold toLong toULong
    omega
  refine ⟨?_, ?_, ?_, ?_⟩
  · intro Tm hTm
    subst hTm
    constructor
    · intro hc
      have hfl : e.flush tickFromFrame (some Tm) iAudioFrameTime
          = { e with
              drained := e.drained ++ e.output
              output := []
              iTimeStart := toLong (e.iTimeStart
                + toLong ((tickFromFrame iAudioFrameTime : Int) - (Tm : Int) - e.iTimeDelta))
              iTimeDelta := toLong (e.iTimeDelta
                + toLong ((tickFromFrame iAudioFrameTime : Int) - (Tm : Int)
                    - e.iTimeDelta)) } := by
        unfold MidiEngine.flush
        simp only [hΔ]
        rw [if_pos hc]
      rw [hfl]
      simp only
      generalize (tickFromFrame iAudioFrameTime : Int) = Ta at *
      generalize (Tm : Int) = tm at *
      generalize e.iTimeStart = ts at *
      generalize e.iTimeDelta = td at *
      unfold toLong
      refine ⟨?_, ?_, ?_, ?_, ?_⟩
      · trivial
      · trivial
      · omega
      · omega
      · intro hfit
        omega
    · intro hc
      have hfl : e.flush tickFromFrame (some Tm) iAudioFrameTime
          = { e with drained := e.drained ++ e.output, output := [] } := by
        unfold MidiEngine.flush
        simp only [hΔ]
        rw [if_neg hc]
      exact ⟨by rw [hfl], by rw [hfl]⟩
  · intro hnone
    subst hnone
    exact ⟨rfl, rfl⟩
  · unfold MidiEngine.flush
    cases queueStatus with
    | none => rfl
    | some Tm =>
      simp only
      split <;> rfl
  · unfold MidiEngine.flush
    cases queueStatus with
    | none => rfl
    | some Tm =>
      simp only
      split <;> rfl

/-- Check of C3: with `time_start = 100`, `time_delta = 0`, `Ta = 100` and `Tm = 90` the
correction is `Δ = 10`: afterwards `time_delta = 10` and `time_start = 110`; with the queue
status unavailable nothing moves. -/
theorem flush_correction_witness :
    (demoEngine.flush (fun f => f) (some 90) 100).iTimeDelta = 10 ∧
    (demoEngine.flush (fun f => f) (some 90) 100).iTimeStart = 110 ∧
    (demoEngine.flush (fun f => f) none 100).iTimeStart = 100 := by
  have h := ((((flush_correction (fun f => f) (some 90) 100 demoEngine).1 90 rfl).1
    ⟨by decide, by decide, by decide⟩).2.2.2.2
    ⟨by decide, by decide, by decide, by decide⟩)
  have h2 := ((flush_correction (fun f => f) none 100 demoEngine).2.1 rfl).1
  exact ⟨h.1, h.2.1, h2⟩

/-! ## The output cycle -/

theorem processedRanges_append (l1 l2 : List Action) :
    processedRanges (l1 ++ l2) = processedRanges l1 ++ processedRanges l2 := by
  induction l1 with
  | nil => rfl
  | cons a l1 ih =>
    cases a <;> simp [processedRanges, ih]

theorem restartCount_append (l1 l2 : List Action) :
    restartCount (l1 ++ l2) = restartCount l1 + restartCount l2 := by
  induction l1 with
  | nil => simp [restartCount]
  | cons a l1 ih =>
    cases a <;> simp [restartCount, ih]
    omega

theorem sessionEnqueue_keeps (clk : MonitorClock) (sess : Session) (e : MidiEngine)
    (iFrameStart iFrameEnd : Nat) :
    (sessionEnqueue clk sess e iFrameStart iFrameEnd).iTimeStart = e.iTimeStart ∧
    (sessionEnqueue clk sess e iFrameStart iFrameEnd).iTimeDelta = e.iTimeDelta := by
  unfold sessionEnqueue
  generalize sess.events iFrameStart iFrameEnd = calls
  induction calls generalizing e with
  | nil => exact ⟨rfl, rfl⟩
  | cons c calls ih =>
    rw [List.foldl_cons]
    have h := enqueue_keeps clk e c.track c.event c.time c.gain
    have h2 := ih (e.enqueue clk c.track c.event c.time c.gain)
    exact ⟨h2.1.trans h.1, h2.2.trans h.2.1⟩

theorem wrapStep_trace (clk : MonitorClock) (sess : Session) (c : Cycle) :
    (wrapStep clk sess c).st.trace
      = c.st.trace ++ [Action.sessionProcess c.iFrameStart sess.loopEnd,
          Action.cursorSeek sess.loopStart, Action.restartLoop] := by
  simp [wrapStep, OutputState.sessionProcess]

theorem wrapStep_iFrameStart (clk : MonitorClock) (sess : Session) (c : Cycle) :
    (wrapStep clk sess c).iFrameStart = sess.loopStart := rfl

theorem wrapStep_iFrameEnd (clk : MonitorClock) (sess : Session) (c : Cycle)
    (h0 : sess.loopStart ≤ sess.loopEnd)
    (h1 : sess.loopEnd ≤ c.iFrameEnd) (h2 : c.iFrameEnd < ULONG_SIZE) :
    (wrapStep clk sess c).iFrameEnd = sess.loopStart + (c.iFrameEnd - sess.loopEnd) := by
  show toULong _ = _
  unfold toULong
  unfold ULONG_SIZE at h2
  omega

theorem restartLoop_effect (sess : Session) (e : MidiEngine) :
    (e.restartLoop sess).iTimeDelta = e.iTimeDelta ∧
    (e.restartLoop sess).output = e.output ∧
    (sess.isLooping = true → (e.restartLoop sess).iTimeStart
      = toLong (e.iTimeStart - toLong (sess.tickFromFrame
          (toULong ((sess.loopEnd : Int) - (sess.loopStart : Int)))))) ∧
    (sess.isLooping = false → e.restartLoop sess = e) := by
  unfold MidiEngine.restartLoop
  cases sess.isLooping <;> simp

theorem wrapStep_time (clk : MonitorClock) (sess : Session) (c : Cycle) :
    (wrapStep clk sess c).st.engine.iTimeDelta = c.st.engine.iTimeDelta ∧
    (sess.isLooping = true → (wrapStep clk sess c).st.engine.iTimeStart
      = toLong (c.st.engine.iTimeStart - toLong (sess.tickFromFrame
          (toULong ((sess.loopEnd : Int) - (sess.loopStart : Int)))))) := by
  have hk := sessionEnqueue_keeps clk sess c.st.engine c.iFrameStart sess.loopEnd
  have hr := restartLoop_effect sess (sessionEnqueue clk sess c.st.engine c.iFrameStart sess.loopEnd)
  constructor
  · exact hr.1.trans hk.2
  · intro hl
    have h := hr.2.2.1 hl
    rw [hk.1] at h
    exact h

theorem wrapLoop_eq_iterate (clk : MonitorClock) (sess : Session) (n : Nat) :
    ∀ (fuel : Nat) (c : Cycle), n ≤ fuel →
      (∀ j, j < n → sess.loopEnd ≤ ((wrapStep clk sess)^[j] c).iFrameEnd) →
      ((wrapStep clk sess)^[n] c).iFrameEnd < sess.loopEnd →
      wrapLoop clk sess fuel c = some ((wrapStep clk sess)^[n] c) := by
  induction n with
  | zero =>
    intro fuel c _ _ hstop
    unfold wrapLoop
    rw [if_neg (by simpa using hstop)]
    rfl
  | succ n ih =>
    intro fuel c hfuel hrun hstop
    obtain ⟨fuel, rfl⟩ : ∃ f, fuel = f + 1 := ⟨fuel - 1, by omega⟩
    unfold wrapLoop
    rw [if_pos (by simpa using hrun 0 (by omega))]
    simp only
    rw [Function.iterate_succ_apply]
    apply ih fuel (wrapStep clk sess c) (by omega)
    · intro j hj
      have := hrun (j + 1) (by omega)
      rwa [Function.iterate_succ_apply] at this
    · rwa [Function.iterate_succ_apply] at hstop

theorem wrapLoop_result (clk : MonitorClock) (sess : Session) (fuel : Nat) (c c' : Cycle)
    (h : wrapLoop clk sess fuel c = some c') :
    ∃ n, c' = (wrapStep clk sess)^[n] c ∧ c'.iFrameEnd < sess.loopEnd := by
  induction fuel generalizing c with
  | zero =>
    unfold wrapLoop at h
    split at h
    · cases h
    · rename_i hstop
      cases h
      exact ⟨0, rfl, by omega⟩
  | succ fuel ih =>
    unfold wrapLoop at h
    split at h
    · obtain ⟨n, hn, hlt⟩ := ih (wrapStep clk sess c) h
      exact ⟨n + 1, by rw [Function.iterate_succ_apply]; exact hn, hlt⟩
    · rename_i hstop
      cases h
      exact ⟨0, rfl, by omega⟩

theorem iterate_wrap_iFrameStart (clk : MonitorClock) (sess : Session) (c : Cycle) (n : Nat) :
    ((wrapStep clk sess)^[n + 1] c).iFrameStart = sess.loopStart := by
  rw [Function.iterate_succ_apply']
  rfl

theorem iterate_wrap_trace (clk : MonitorClock) (sess : Session) (c : Cycle) (n : Nat) :
    ∃ acts, ((wrapStep clk sess)^[n] c).st.trace = c.st.trace ++ acts ∧
      processedRanges acts
        = (List.range n).map (fun j => (((wrapStep clk sess)^[j] c).iFrameStart, sess.loopEnd)) ∧
      restartCount acts = n := by
  induction n with
  | zero => exact ⟨[], by simp, rfl, rfl⟩
  | succ n ih =>
    obtain ⟨acts, h1, h2, h3⟩ := ih
    refine ⟨acts ++ [Action.sessionProcess ((wrapStep clk sess)^[n] c).iFrameStart sess.loopEnd,
      Action.cursorSeek sess.loopStart, Action.restartLoop], ?_, ?_, ?_⟩
    · rw [Function.iterate_succ_apply', wrapStep_trace, h1, List.append_assoc]
    · rw [processedRanges_append, h2, List.range_succ, List.map_append]
      rfl
    · rw [restartCount_append, h3]
      rfl

theorem iterate_wrap_time (clk : MonitorClock) (sess : Session) (c : Cycle) (n : Nat)
    (hl : sess.isLooping = true)
    (hts : -2 ^ 63 ≤ c.st.engine.iTimeStart ∧ c.st.engine.iTimeStart < 2 ^ 63) :
    ((wrapStep clk sess)^[n] c).st.engine.iTimeDelta = c.st.engine.iTimeDelta ∧
    ((wrapStep clk sess)^[n] c).st.engine.iTimeStart
      = toLong (c.st.engine.iTimeStart - (n : Int) * toLong (sess.tickFromFrame
          (toULong ((sess.loopEnd : Int) - (sess.loopStart : Int))))) := by
  have hstep := fun c' => wrapStep_time clk sess c'
  generalize toLong (sess.tickFromFrame
    (toULong ((sess.loopEnd : Int) - (sess.loopStart : Int)))) = y at hstep ⊢
  induction n with
  | zero =>
    refine ⟨rfl, ?_⟩
    show c.st.engine.iTimeStart = toLong (c.st.engine.iTimeStart - ((0 : Nat) : Int) * y)
    have e : c.st.engine.iTimeStart - ((0 : Nat) : Int) * y = c.st.engine.iTimeStart := by
      simp
    rw [e]
    generalize c.st.engine.iTimeStart = ts at hts ⊢
    clear hstep
    unfold toLong
    omega
  | succ n ih =>
    rw [Function.iterate_succ_apply']
    have h := hstep ((wrapStep clk sess)^[n] c)
    refine ⟨h.1.trans ih.1, ?_⟩
    rw [h.2 hl, ih.2]
    have e : ((n + 1 : Nat) : Int) * y = (n : Int) * y + y := by
      push_cast
      ring
    rw [e]
    generalize (n : Int) * y = x
    generalize c.st.engine.iTimeStart = ts
    clear hstep h ih hts
    unfold toLong
    omega

theorem iterate_wrap_iFrameEnd (clk : MonitorClock) (sess : Session) (c : Cycle)
    (hlt : sess.loopStart < sess.loopEnd) (hE : c.iFrameEnd < ULONG_SIZE)
    (hge : sess.loopEnd ≤ c.iFrameEnd) (j : Nat)
    (hj : j ≤ (c.iFrameEnd - sess.loopEnd) / (sess.loopEnd - sess.loopStart) + 1) :
    ((wrapStep clk sess)^[j] c).iFrameEnd + j * (sess.loopEnd - sess.loopStart)
      = c.iFrameEnd := by
  induction j with
  | zero => simp
  | succ j ih =>
    have ih' := ih (by omega)
    have hq := Nat.div_mul_le_self (c.iFrameEnd - sess.loopEnd) (sess.loopEnd - sess.loopStart)
    have hjq : j * (sess.loopEnd - sess.loopStart)
        ≤ (c.iFrameEnd - sess.loopEnd) / (sess.loopEnd - sess.loopStart)
          * (sess.loopEnd - sess.loopStart) := Nat.mul_le_mul_right _ (by omega)
    have hs : (j + 1) * (sess.loopEnd - sess.loopStart)
        = j * (sess.loopEnd - sess.loopStart) + (sess.loopEnd - sess.loopStart) :=
      Nat.succ_mul _ _
    rw [Function.iterate_succ_apply']
    generalize (wrapStep clk sess)^[j] c = cj at ih' ⊢
    have hstep := wrapStep_iFrameEnd clk sess cj (le_of_lt hlt)
      (by clear hj ih; omega) (by clear hj ih; omega)
    rw [hstep, hs]
    clear hstep ih hj
    omega

/-- The loop of `process()` on a window that reaches the loop end: it runs
`fullLoops + 1` times and leaves the window end inside the loop. -/
theorem wrapLoop_window (clk : MonitorClock) (sess : Session) (c : Cycle) (fuel : Nat)
    (hlt : sess.loopStart < sess.loopEnd) (hE : c.iFrameEnd < ULONG_SIZE)
    (hge : sess.loopEnd ≤ c.iFrameEnd)
    (hfuel : (c.iFrameEnd - sess.loopEnd) / (sess.loopEnd - sess.loopStart) + 1 ≤ fuel) :
    wrapLoop clk sess fuel c = some ((wrapStep clk sess)^[
        (c.iFrameEnd - sess.loopEnd) / (sess.loopEnd - sess.loopStart) + 1] c) ∧
    ((wrapStep clk sess)^[
        (c.iFrameEnd - sess.loopEnd) / (sess.loopEnd - sess.loopStart) + 1] c).iFrameEnd
      = sess.loopStart + (c.iFrameEnd - sess.loopEnd) % (sess.loopEnd - sess.loopStart) := by
  have hL : 0 < sess.loopEnd - sess.loopStart := by omega
  have hfe := fun j hj => iterate_wrap_iFrameEnd clk sess c hlt hE hge j hj
  have hq := Nat.div_mul_le_self (c.iFrameEnd - sess.loopEnd) (sess.loopEnd - sess.loopStart)
  have hdm := Nat.div_add_mod (c.iFrameEnd - sess.loopEnd) (sess.loopEnd - sess.loopStart)
  have hml := Nat.mod_lt (c.iFrameEnd - sess.loopEnd) hL
  rw [Nat.mul_comm] at hdm
  have hlast := hfe _ (le_refl _)
  rw [Nat.succ_mul] at hlast
  have hend : ((wrapStep clk sess)^[
        (c.iFrameEnd - sess.loopEnd) / (sess.loopEnd - sess.loopStart) + 1] c).iFrameEnd
      = sess.loopStart + (c.iFrameEnd - sess.loopEnd) % (sess.loopEnd - sess.loopStart) := by
    generalize ((wrapStep clk sess)^[
        (c.iFrameEnd - sess.loopEnd) / (sess.loopEnd - sess.loopStart) + 1] c).iFrameEnd
        = x at hlast ⊢
    clear hfe hfuel
    omega
  refine ⟨?_, hend⟩
  apply wrapLoop_eq_iterate clk sess _ fuel c hfuel
  · intro j hj
    have h1 := hfe j (by omega)
    have hjq : j * (sess.loopEnd - sess.loopStart)
        ≤ (c.iFrameEnd - sess.loopEnd) / (sess.loopEnd - sess.loopStart)
          * (sess.loopEnd - sess.loopStart) := Nat.mul_le_mul_right _ (by omega)
    generalize ((wrapStep clk sess)^[j] c).iFrameEnd = x at h1 ⊢
    clear hfe hfuel hlast hend
    omega
  · rw [hend]
    clear hfe hfuel hlast hend
    omega

theorem finishWindow_trace (clk : MonitorClock) (sess : Session) (W : Nat) (c1 : Cycle) :
    ∃ x, (finishWindow clk sess W c1).trace
      = c1.st.trace ++ [Action.sessionProcess c1.iFrameStart c1.iFrameEnd,
          Action.cursorSeek x, Action.cursorProcess W] ∧
      ((finishWindow clk sess W c1).midiCursor
        = c1.st.midiCursor.map (fun cur => (cur.seek x).process W)) ∧
      (c1.iFrameEnd < sess.loopEnd ∨ sess.isLooping = false ∨ sess.loopEnd ≤ c1.iFrameStart →
        x = c1.iFrameEnd) := by
  refine ⟨_, ?_, rfl, ?_⟩
  · simp [finishWindow, OutputState.sessionProcess]
  · intro h
    rw [if_neg]
    intro hc
    rcases h with h | h | h
    · omega
    · rw [h] at hc; exact absurd hc.1 (by decide)
    · omega

theorem finishWindow_ranges (clk : MonitorClock) (sess : Session) (W : Nat) (c1 : Cycle) :
    processedRanges (finishWindow clk sess W c1).trace
      = processedRanges c1.st.trace ++ [(c1.iFrameStart, c1.iFrameEnd)] ∧
    restartCount (finishWindow clk sess W c1).trace = restartCount c1.st.trace := by
  obtain ⟨x, hx, _⟩ := finishWindow_trace clk sess W c1
  rw [hx, processedRanges_append, restartCount_append]
  exact ⟨rfl, rfl⟩

theorem finishWindow_time (clk : MonitorClock) (sess : Session) (W : Nat) (c1 : Cycle) :
    (finishWindow clk sess W c1).engine.iTimeStart = c1.st.engine.iTimeStart ∧
    (finishWindow clk sess W c1).engine.iTimeDelta = c1.st.engine.iTimeDelta :=
  sessionEnqueue_keeps clk sess c1.st.engine c1.iFrameStart c1.iFrameEnd

theorem processWindow_wraps (clk : MonitorClock) (sess : Session) (W fuel : Nat)
    (st : OutputState) (cur : SessionCursor)
    (hl : sess.isLooping = true) (hlt : sess.loopStart < sess.loopEnd)
    (hs : cur.frame < sess.loopEnd) (hno : cur.frame + W < ULONG_SIZE)
    (hge : sess.loopEnd ≤ cur.frame + W) (hfuel : fullLoops sess cur.frame W + 1 ≤ fuel) :
    processWindow clk sess W fuel st cur
      = some (finishWindow clk sess W
          ((wrapStep clk sess)^[fullLoops sess cur.frame W + 1] (entryCycle st cur W))) ∧
    ((wrapStep clk sess)^[fullLoops sess cur.frame W + 1] (entryCycle st cur W)).iFrameEnd
      = wrappedEnd sess cur.frame W := by
  have he : (entryCycle st cur W).iFrameEnd = cur.frame + W := Nat.mod_eq_of_lt hno
  have h := wrapLoop_window clk sess (entryCycle st cur W) fuel hlt (by rw [he]; exact hno)
    (by rw [he]; exact hge) (by rw [he]; exact hfuel)
  rw [he] at h
  refine ⟨?_, h.2⟩
  unfold processWindow
  simp only
  rw [if_pos ⟨hl, hs⟩]
  have h1 := h.1
  unfold entryCycle at h1
  rw [h1]
  rfl

theorem processWindow_single (clk : MonitorClock) (sess : Session) (W fuel : Nat)
    (st : OutputState) (cur : SessionCursor) (hno : cur.frame + W < ULONG_SIZE)
    (h : sess.isLooping = false ∨ cur.frame + W < sess.loopEnd) :
    processWindow clk sess W fuel st cur
      = some (finishWindow clk sess W (entryCycle st cur W)) := by
  unfold processWindow
  simp only
  by_cases hc : sess.isLooping = true ∧ cur.frame < sess.loopEnd
  · rw [if_pos hc]
    rcases h with h | h
    · rw [h] at hc; exact absurd hc.1 (by decide)
    · unfold wrapLoop
      rw [if_neg (by simp only [Nat.mod_eq_of_lt hno]; omega)]
      rfl
  · rw [if_neg hc]
    rfl

theorem processWindow_result (clk : MonitorClock) (sess : Session) (W fuel : Nat)
    (st st' : OutputState) (cur : SessionCursor)
    (h : processWindow clk sess W fuel st cur = some st') :
    ∃ n, st' = finishWindow clk sess W ((wrapStep clk sess)^[n] (entryCycle st cur W)) ∧
      (sess.isLooping = false → n = 0) ∧
      (((wrapStep clk sess)^[n] (entryCycle st cur W)).iFrameEnd < sess.loopEnd ∨
        sess.isLooping = false ∨
        sess.loopEnd ≤ ((wrapStep clk sess)^[n] (entryCycle st cur W)).iFrameStart) := by
  unfold processWindow at h
  simp only at h
  by_cases hc : sess.isLooping = true ∧ cur.frame < sess.loopEnd
  · rw [if_pos hc] at h
    cases hw : wrapLoop clk sess fuel
        ⟨{ st with midiCursor := some cur }, cur.frame, (cur.frame + W) % ULONG_SIZE⟩ with
    | none => rw [hw] at h; cases h
    | some c1 =>
      rw [hw] at h
      obtain ⟨n, hn, hlt⟩ := wrapLoop_result clk sess fuel _ c1 hw
      simp only [Option.some.injEq] at h
      refine ⟨n, ?_, ?_, ?_⟩
      · rw [← h, hn]; rfl
      · intro hf; rw [hf] at hc; exact absurd hc.1 (by decide)
      · left
        rw [hn] at hlt
        exact hlt
  · rw [if_neg hc] at h
    simp only [Option.some.injEq] at h
    refine ⟨0, h.symm, fun _ => rfl, ?_⟩
    by_cases hl : sess.isLooping = true
    · right; right
      have : ¬ cur.frame < sess.loopEnd := fun hlt => hc ⟨hl, hlt⟩
      show sess.loopEnd ≤ cur.frame
      omega
    · right; left
      simpa using hl

theorem map_range_succ_const (q : Nat) (f : Nat → Nat × Nat) (a : Nat × Nat)
    (h : ∀ j, f (j + 1) = a) :
    (List.range (q + 1)).map f = f 0 :: List.replicate q a := by
  rw [List.range_succ_eq_map, List.map_cons, List.map_map]
  congr 1
  have : (f ∘ Nat.succ) = fun _ => a := funext (fun j => h j)
  rw [this, List.map_const', List.length_range]

theorem process_of_window (clk : MonitorClock) (sess : Session) (inp : CycleInput)
    (W fuel : Nat) (st st1 : OutputState) (cur : SessionCursor)
    (hsync : midiCursorSync W inp.audioCursor st.midiCursor false = some cur)
    (h1 : processWindow clk sess W fuel st cur = some st1) :
    process clk sess inp W fuel st
      = some { st1 with
          engine := st1.engine.flush sess.tickFromFrame inp.queueStatus inp.flushFrameTime
          trace := st1.trace ++ [Action.flush] } := by
  unfold process
  rw [hsync]
  simp only [h1]

/-- C2: in one output cycle that is not skipped, with the window end `s + W` below `2^64`:
with looping on, `loop_start < loop_end`, cursor frame `s < loop_end` and a window that
reaches the loop end, the cycle returns (given enough iterations) and the frame ranges handed
to `session.process` are, in order, `[s, loop_end)`, then `fullLoops` times
`[loop_start, loop_end)`, then `[loop_start, e)` with `loop_start ≤ e < loop_end`; each
wrap folds the window end `f ≥ loop_end` to `loop_start + (f - loop_end)`, so that
`e = loop_start + (s + W - loop_end) - fullLoops * loop_length`, and the lengths of the
ranges add up to `W`. With looping off or `s + W < loop_end` the single range `[s, s + W)`
is processed. -/
theorem cycle_ranges (clk : MonitorClock) (sess : Session) (inp : CycleInput) (W fuel : Nat)
    (st : OutputState) (cur : SessionCursor)
    (hsync : midiCursorSync W inp.audioCursor st.midiCursor false = some cur)
    (hno : cur.frame + W < ULONG_SIZE) :
    (sess.isLooping = true → sess.loopStart < sess.loopEnd → cur.frame < sess.loopEnd →
      sess.loopEnd ≤ cur.frame + W → fullLoops sess cur.frame W + 1 ≤ fuel →
      ∃ st', process clk sess inp W fuel st = some st' ∧
        processedRanges st'.trace = processedRanges st.trace ++
          ((cur.frame, sess.loopEnd) ::
            (List.replicate (fullLoops sess cur.frame W) (sess.loopStart, sess.loopEnd)
              ++ [(sess.loopStart, wrappedEnd sess cur.frame W)])) ∧
        sess.loopStart ≤ wrappedEnd sess cur.frame W ∧
        wrappedEnd sess cur.frame W < sess.loopEnd ∧
        wrappedEnd sess cur.frame W + fullLoops sess cur.frame W * loopLength sess
          = sess.loopStart + (cur.frame + W - sess.loopEnd) ∧
        rangesLength ((cur.frame, sess.loopEnd) ::
            (List.replicate (fullLoops sess cur.frame W) (sess.loopStart, sess.loopEnd)
              ++ [(sess.loopStart, wrappedEnd sess cur.frame W)])) = W) ∧
    (sess.isLooping = false ∨ cur.frame + W < sess.loopEnd →
      ∃ st', process clk sess inp W fuel st = some st' ∧
        processedRanges st'.trace = processedRanges st.trace ++ [(cur.frame, cur.frame + W)]) ∧
    (∀ c : Cycle, sess.loopStart ≤ sess.loopEnd → sess.loopEnd ≤ c.iFrameEnd →
      c.iFrameEnd < ULONG_SIZE →
      (wrapStep clk sess c).iFrameStart = sess.loopStart ∧
      (wrapStep clk sess c).iFrameEnd = sess.loopStart + (c.iFrameEnd - sess.loopEnd)) := by
  have hproc : ∀ st1, processWindow clk sess W fuel st cur = some st1 →
      ∃ st', process clk sess inp W fuel st = some st' ∧
        processedRanges st'.trace = processedRanges st1.trace := by
    intro st1 h1
    refine ⟨_, process_of_window clk sess inp W fuel st st1 cur hsync h1, ?_⟩
    simp only [processedRanges_append]
    exact List.append_nil _
  refine ⟨?_, ?_, ?_⟩
  · intro hl hlt hs hge hfuel
    obtain ⟨hw, hend⟩ := processWindow_wraps clk sess W fuel st cur hl hlt hs hno hge hfuel
    obtain ⟨st', hst', hr⟩ := hproc _ hw
    have hmod := Nat.mod_lt (cur.frame + W - sess.loopEnd)
      (show 0 < sess.loopEnd - sess.loopStart by omega)
    have hdm := Nat.div_add_mod (cur.frame + W - sess.loopEnd) (sess.loopEnd - sess.loopStart)
    rw [Nat.mul_comm] at hdm
    refine ⟨st', hst', ?_, ?_, ?_, ?_, ?_⟩
    · rw [hr, (finishWindow_ranges clk sess W _).1, hend, iterate_wrap_iFrameStart]
      obtain ⟨acts, ha1, ha2, _⟩ := iterate_wrap_trace clk sess (entryCycle st cur W)
        (fullLoops sess cur.frame W + 1)
      rw [ha1, processedRanges_append, ha2,
        map_range_succ_const _ _ (sess.loopStart, sess.loopEnd)
          (fun j => by rw [iterate_wrap_iFrameStart])]
      simp [entryCycle]
    · unfold wrappedEnd; omega
    · unfold wrappedEnd loopLength; omega
    · unfold wrappedEnd fullLoops loopLength
      omega
    · unfold rangesLength
      simp only [List.map_cons, List.map_append, List.map_replicate, List.map_nil,
        List.sum_cons, List.sum_append, List.sum_replicate, List.sum_nil, smul_eq_mul]
      unfold wrappedEnd fullLoops loopLength
      omega
  · intro h
    obtain ⟨st', hst', hr⟩ := hproc _ (processWindow_single clk sess W fuel st cur hno h)
    refine ⟨st', hst', ?_⟩
    rw [hr, (finishWindow_ranges clk sess W _).1]
    simp [entryCycle, Nat.mod_eq_of_lt hno]
  · intro c h0 h1 h2
    exact ⟨rfl, wrapStep_iFrameEnd clk sess c h0 h1 h2⟩

/-- Check of C2: loop `[1000, 21000)`, cursor at frame `5000`, `W = 48000`: the cycle
processes `[5000, 21000)`, `[1000, 21000)` and `[1000, 13000)`. -/
theorem cycle_ranges_witness :
    ∃ st', process ⟨3000, 24⟩ demoSession demoInput 48000 2 demoOutputState = some st' ∧
      processedRanges st'.trace = [(5000, 21000), (1000, 21000), (1000, 13000)] ∧
      rangesLength [(5000, 21000), (1000, 21000), (1000, 13000)] = 48000 := by
  obtain ⟨st', h1, h2, _, _, _, h3⟩ :=
    (cycle_ranges ⟨3000, 24⟩ demoSession demoInput 48000 2 demoOutputState ⟨5000, 5000⟩
      rfl (by decide)).1 rfl (by decide) (by decide) (by decide) (by decide)
  exact ⟨st', h1, h2, h3⟩

/-- C4: with both session cursors present (and `audio.frame_time + W` below `2^64`),
`midi_cursor_sync(start = false)` returns none if and only if
`midi.frame_time > audio.frame_time + W`; in that case `process()` returns the state it was
given (nothing staged, MIDI cursor, `time_start` and `time_delta` unchanged, no call made),
and otherwise every cycle that returns has called `session.process` and `flush`. -/
theorem cycle_skipped_iff (clk : MonitorClock) (sess : Session) (inp : CycleInput)
    (W fuel : Nat) (st : OutputState) (a m : SessionCursor)
    (ha : inp.audioCursor = some a) (hm : st.midiCursor = some m)
    (hno : a.frameTime + W < ULONG_SIZE) :
    (midiCursorSync W inp.audioCursor st.midiCursor false = none
      ↔ m.frameTime > a.frameTime + W) ∧
    (m.frameTime > a.frameTime + W →
      process clk sess inp W fuel st = some st ∧
      ∃ st', process clk sess inp W fuel st = some st' ∧
        st'.engine.output = st.engine.output ∧ st'.engine.drained = st.engine.drained ∧
        st'.midiCursor = st.midiCursor ∧ st'.engine.iTimeStart = st.engine.iTimeStart ∧
        st'.engine.iTimeDelta = st.engine.iTimeDelta ∧ st'.trace = st.trace) ∧
    (¬ m.frameTime > a.frameTime + W →
      ∀ st', process clk sess inp W fuel st = some st' →
        ∃ acts x y, st'.trace = st.trace ++ acts ++ [Action.flush] ∧
          Action.sessionProcess x y ∈ acts) := by
  have hsync : midiCursorSync W inp.audioCursor st.midiCursor false
      = if m.frameTime > a.frameTime + W then none else some m := by
    unfold midiCursorSync
    rw [ha, hm]
    simp [Nat.mod_eq_of_lt hno]
  refine ⟨?_, ?_, ?_⟩
  · rw [hsync]
    split <;> simp_all
  · intro hgt
    have hp : process clk sess inp W fuel st = some st := by
      unfold process
      rw [hsync, if_pos hgt]
    exact ⟨hp, st, hp, rfl, rfl, rfl, rfl, rfl, rfl⟩
  · intro hle st' hst'
    rw [if_neg hle] at hsync
    unfold process at hst'
    rw [hsync] at hst'
    simp only at hst'
    cases hw : processWindow clk sess W fuel st m with
    | none => rw [hw] at hst'; cases hst'
    | some st1 =>
      rw [hw] at hst'
      simp only [Option.some.injEq] at hst'
      obtain ⟨n, hn, _, _⟩ := processWindow_result clk sess W fuel st st1 m hw
      obtain ⟨x, hx, _⟩ := finishWindow_trace clk sess W
        ((wrapStep clk sess)^[n] (entryCycle st m W))
      obtain ⟨acts, hacts, _⟩ := iterate_wrap_trace clk sess (entryCycle st m W) n
      refine ⟨acts ++ [Action.sessionProcess
          ((wrapStep clk sess)^[n] (entryCycle st m W)).iFrameStart
          ((wrapStep clk sess)^[n] (entryCycle st m W)).iFrameEnd,
          Action.cursorSeek x, Action.cursorProcess W],
        ((wrapStep clk sess)^[n] (entryCycle st m W)).iFrameStart,
        ((wrapStep clk sess)^[n] (entryCycle st m W)).iFrameEnd, ?_, ?_⟩
      · rw [← hst']
        show st1.trace ++ [Action.flush] = _
        rw [hn, hx, hacts]
        simp [entryCycle]
      · simp

/-- Check of C4: with the MIDI cursor at frame-time `5000`, `W = 1000` and the audio cursor
at frame-time `0` the cycle is skipped; with the audio cursor at `4000` it runs. -/
theorem cycle_skipped_iff_witness :
    midiCursorSync 1000 demoInputBehind.audioCursor demoOutputState.midiCursor false = none ∧
    (∃ st', process ⟨3000, 24⟩ demoSession demoInputBehind 1000 0 demoOutputState = some st' ∧
      st'.trace = [] ∧ st'.engine.output = []) ∧
    (∀ st', process ⟨3000, 24⟩ demoSession demoInput 1000 0 demoOutputState = some st' →
      ∃ acts x y, st'.trace = demoOutputState.trace ++ acts ++ [Action.flush] ∧
        Action.sessionProcess x y ∈ acts) := by
  have h := cycle_skipped_iff ⟨3000, 24⟩ demoSession demoInputBehind 1000 0 demoOutputState
    ⟨0, 0⟩ ⟨5000, 5000⟩ rfl rfl (by decide)
  have h2 := cycle_skipped_iff ⟨3000, 24⟩ demoSession demoInput 1000 0 demoOutputState
    ⟨4000, 4000⟩ ⟨5000, 5000⟩ rfl rfl (by decide)
  refine ⟨h.1.mpr (by decide), ?_, h2.2.2 (by decide)⟩
  obtain ⟨st', h3, h4, _, _, _, _, h5⟩ := (h.2.1 (by decide)).2
  exact ⟨st', h3, h5, h4⟩

/-- C5: `restartLoop()` lowers `time_start` by `(long) tickFromFrame(loop_end - loop_start)`
(in 64-bit arithmetic) when the session is looping, changes nothing otherwise and never
touches `time_delta`; each wrap of the output window calls it exactly once; so the cycle,
before its flush, has made `n` wraps and `n` such calls and has
`time_start = time_start_before - n * loop_length_ticks` as a 64-bit integer, and exactly
when that difference fits a `long`. A window that reaches the loop end makes
`fullLoops + 1` wraps. -/
theorem restartLoop_per_wrap (clk : MonitorClock) (sess : Session) (W fuel : Nat)
    (st : OutputState) (cur : SessionCursor)
    (hts : -2 ^ 63 ≤ st.engine.iTimeStart ∧ st.engine.iTimeStart < 2 ^ 63) :
    (∀ e : MidiEngine,
      (e.restartLoop sess).iTimeDelta = e.iTimeDelta ∧
      (sess.isLooping = true →
        (e.restartLoop sess).iTimeStart = toLong (e.iTimeStart - loopTicks sess)) ∧
      (sess.isLooping = false → e.restartLoop sess = e)) ∧
    (∀ c : Cycle,
      restartCount (wrapStep clk sess c).st.trace = restartCount c.st.trace + 1 ∧
      (wrapStep clk sess c).st.engine = (sessionEnqueue clk sess c.st.engine c.iFrameStart
        sess.loopEnd).restartLoop sess) ∧
    (∀ st', processWindow clk sess W fuel st cur = some st' →
      ∃ n, st' = finishWindow clk sess W ((wrapStep clk sess)^[n] (entryCycle st cur W)) ∧
        restartCount st'.trace = restartCount st.trace + n ∧
        st'.engine.iTimeDelta = st.engine.iTimeDelta ∧
        st'.engine.iTimeStart = toLong (st.engine.iTimeStart - (n : Int) * loopTicks sess) ∧
        (0 ≤ loopTicks sess → -2 ^ 63 ≤ st.engine.iTimeStart - (n : Int) * loopTicks sess →
          st'.engine.iTimeStart = st.engine.iTimeStart - (n : Int) * loopTicks sess)) ∧
    (sess.isLooping = true → sess.loopStart < sess.loopEnd → cur.frame < sess.loopEnd →
      cur.frame + W < ULONG_SIZE → sess.loopEnd ≤ cur.frame + W →
      fullLoops sess cur.frame W + 1 ≤ fuel →
      ∃ st', processWindow clk sess W fuel st cur = some st' ∧
        restartCount st'.trace = restartCount st.trace + (fullLoops sess cur.frame W + 1) ∧
        st'.engine.iTimeStart = toLong (st.engine.iTimeStart
          - ((fullLoops sess cur.frame W + 1 : Nat) : Int) * loopTicks sess)) ∧
    (sess.loopStart ≤ sess.loopEnd → sess.loopEnd < ULONG_SIZE →
      sess.tickFromFrame (sess.loopEnd - sess.loopStart) < 2 ^ 63 →
      loopTicks sess = (sess.tickFromFrame (sess.loopEnd - sess.loopStart) : Int)) := by
  have hiter : ∀ n,
      restartCount (finishWindow clk sess W
          ((wrapStep clk sess)^[n] (entryCycle st cur W))).trace = restartCount st.trace + n ∧
      (finishWindow clk sess W
          ((wrapStep clk sess)^[n] (entryCycle st cur W))).engine.iTimeDelta
        = st.engine.iTimeDelta ∧
      (sess.isLooping = true ∨ n = 0 →
        (finishWindow clk sess W
            ((wrapStep clk sess)^[n] (entryCycle st cur W))).engine.iTimeStart
          = toLong (st.engine.iTimeStart - (n : Int) * loopTicks sess)) := by
    intro n
    obtain ⟨acts, ha1, _, ha3⟩ := iterate_wrap_trace clk sess (entryCycle st cur W) n
    have hft := finishWindow_time clk sess W ((wrapStep clk sess)^[n] (entryCycle st cur W))
    refine ⟨?_, ?_, ?_⟩
    · rw [(finishWindow_ranges clk sess W _).2, ha1, restartCount_append, ha3]
      rfl
    · rw [hft.2]
      cases n with
      | zero => rfl
      | succ k =>
        have : ∀ j, ((wrapStep clk sess)^[j] (entryCycle st cur W)).st.engine.iTimeDelta
            = st.engine.iTimeDelta := by
          intro j
          induction j with
          | zero => rfl
          | succ j ih =>
            rw [Function.iterate_succ_apply']
            exact (wrapStep_time clk sess _).1.trans ih
        exact this _
    · intro h
      rw [hft.1]
      rcases h with hl | h0
      · exact (iterate_wrap_time clk sess (entryCycle st cur W) n hl hts).2
      · subst h0
        show st.engine.iTimeStart = toLong (st.engine.iTimeStart - ((0 : Nat) : Int) * loopTicks sess)
        have e : st.engine.iTimeStart - ((0 : Nat) : Int) * loopTicks sess
            = st.engine.iTimeStart := by simp
        rw [e]
        generalize st.engine.iTimeStart = ts at hts ⊢
        unfold toLong
        omega
  refine ⟨?_, ?_, ?_, ?_, ?_⟩
  · intro e
    have h := restartLoop_effect sess e
    exact ⟨h.1, h.2.2.1, h.2.2.2⟩
  · intro c
    refine ⟨?_, rfl⟩
    rw [wrapStep_trace, restartCount_append]
    rfl
  · intro st' hst'
    obtain ⟨n, hn, hn0, _⟩ := processWindow_result clk sess W fuel st st' cur hst'
    have h := hiter n
    have hcase : sess.isLooping = true ∨ n = 0 := by
      cases hl : sess.isLooping with
      | true => left; rfl
      | false => right; exact hn0 hl
    have h3 := h.2.2 hcase
    rw [← hn] at h h3
    refine ⟨n, hn, h.1, h.2.1, h3, ?_⟩
    intro hpos hfit
    rw [h3]
    have hnn : (0 : Int) ≤ (n : Int) * loopTicks sess :=
      mul_nonneg (Int.ofNat_nonneg n) hpos
    generalize (n : Int) * loopTicks sess = x at hfit hnn ⊢
    generalize st.engine.iTimeStart = ts at hts hfit ⊢
    clear h h3 hiter hn hst' hcase
    unfold toLong
    omega
  · intro hl hlt hs hno hge hfuel
    obtain ⟨hw, _⟩ := processWindow_wraps clk sess W fuel st cur hl hlt hs hno hge hfuel
    have h := hiter (fullLoops sess cur.frame W + 1)
    exact ⟨_, hw, h.1, h.2.2 (Or.inl hl)⟩
  · intro hle hend htf
    unfold loopTicks
    have e : toULong ((sess.loopEnd : Int) - (sess.loopStart : Int))
        = sess.loopEnd - sess.loopStart := by
      unfold toULong
      unfold ULONG_SIZE at hend
      omega
    rw [e]
    generalize sess.tickFromFrame (sess.loopEnd - sess.loopStart) = t at htf ⊢
    clear hiter e
    unfold toLong
    omega

/-- Check of C5: loop `[1000, 21000)` of `80` ticks, cursor at frame `5000`, `W = 48000`:
two wraps, two `restartLoop` calls, and `time_start` goes from `100` to `-60`. -/
theorem restartLoop_per_wrap_witness :
    ∃ st', processWindow ⟨3000, 24⟩ demoSession 48000 2 demoOutputState ⟨5000, 5000⟩
        = some st' ∧
      restartCount st'.trace = 2 ∧ st'.engine.iTimeStart = -60 := by
  obtain ⟨st', h1, h2, h3⟩ :=
    (restartLoop_per_wrap ⟨3000, 24⟩ demoSession 48000 2 demoOutputState ⟨5000, 5000⟩
      (by decide)).2.2.2.1 rfl (by decide) (by decide) (by decide) (by decide) (by decide)
  exact ⟨st', h1, h2, h3.trans (by decide)⟩

/-! ## Claims on engine enqueue: suppression and scaling -/

theorem and_velocity (x : Nat) : (x % UCHAR_SIZE) &&& 0x7f = x &&& 0x7f := by
  have h := Nat.and_pow_two_sub_one_eq_mod x 7
  have h2 := Nat.and_pow_two_sub_one_eq_mod (x % UCHAR_SIZE) 7
  have e : (2 : Nat) ^ 7 - 1 = 0x7f := by decide
  rw [e] at h h2
  rw [h, h2]
  simp only [UCHAR_SIZE]
  omega

theorem scaleVelocity_le (fGain : ℚ) (value : Nat) : scaleVelocity fGain value ≤ 127 := by
  unfold scaleVelocity
  generalize (Int.toNat ⌊roundFloat (fGain * (value : ℚ))⌋) % UCHAR_SIZE = x
  have h := Nat.and_pow_two_sub_one_eq_mod x 7
  have e : (2 : Nat) ^ 7 - 1 = 0x7f := by decide
  rw [e] at h
  rw [h]
  omega

/-- At unit gain a velocity within `127` is kept. -/
theorem scaleVelocity_one (value : Nat) (h : value ≤ 127) : scaleVelocity 1 value = value := by
  unfold scaleVelocity
  rw [and_velocity, one_mul, roundFloat_natCast value (by omega), Int.floor_natCast,
    Int.toNat_ofNat]
  have h7 := Nat.and_pow_two_sub_one_eq_mod value 7
  have e7 : (2 : Nat) ^ 7 - 1 = 0x7f := by decide
  rw [e7] at h7
  rw [h7]
  omega

/-- An `unsigned long` below `2^32` is kept by the narrowing to `unsigned int`. -/
theorem toULong_small (x : Int) (h0 : 0 ≤ x) (h1 : x < 2 ^ 32) :
    toULong x % UINT_SIZE = toULong x ∧ (toULong x : Int) = x := by
  unfold toULong UINT_SIZE
  omega

theorem monitorEnqueue_monitors (clk : MonitorClock) (e : MidiEngine) (mon : Option Nat)
    (type : EventType) (val tick : Nat) (i : Nat) :
    (e.monitorEnqueue clk mon type val tick).monitors i
      = if mon = some i then (e.monitors i).enqueue clk type val tick else e.monitors i := by
  cases mon with
  | none => simp [MidiEngine.monitorEnqueue]
  | some j =>
    by_cases h : j = i
    · subst h
      simp [MidiEngine.monitorEnqueue]
    · have h2 : ¬ i = j := fun e => h e.symm
      simp [MidiEngine.monitorEnqueue, Function.update, h, h2]

theorem enqueue_result (clk : MonitorClock) (e : MidiEngine) (pTrack : Track)
    (pEvent : MidiEvent) (iTime : Nat) (fGain : ℚ) (bus : MidiBus)
    (hbus : pTrack.outputBus = some bus) (hmix : pEvent.isMixerController = false) :
    e.enqueue clk pTrack pEvent iTime fGain
      = (({ e with output := e.output ++ [enqueueEvent e.iAlsaQueue pTrack bus pEvent
              (toULong ((iTime : Int) - e.iTimeStart)) (enqueueValue pEvent fGain)] }
            : MidiEngine).monitorEnqueue clk pTrack.monitor pEvent.type
              (enqueueValue pEvent fGain) (toULong ((iTime : Int) - e.iTimeStart))).monitorEnqueue
          clk bus.monitorOut pEvent.type (enqueueValue pEvent fGain)
          (toULong ((iTime : Int) - e.iTimeStart)) := by
  unfold MidiEngine.enqueue
  rw [hbus]
  simp only [hmix, Bool.false_eq_true, if_false]

/-- C12 (as stated, refuted): the tick handed to the monitors is the `unsigned long`
`t - time_start`, the tick of the staged backend event is that number narrowed to 32 bits.
With `time_start = 100` and `t = 2^32 + 130` the event is staged at tick `30` while the track
monitor is enqueued at tick `2^32 + 30`, and so counts the event in its last slot and not in
slot `1`; with `t = 50` the event is staged at tick `2^32 - 50` while the monitor is handed
`2^64 - 50`. And the product is a `float` product: for the `float` gain `5368709 / 2^29`
(the `float` nearest to `0.01`) and velocity `100` the exact product lies below `1`, its
integer part is `0`, but the `float` product is `1` and the velocity staged is `1`. -/
theorem enqueue_monitor_tick_differs :
    (∃ ev, (demoEngine.enqueue ⟨3000, 24⟩ demoTrackMonitored
        ⟨EventType.NOTEON, 60, 100, 10, []⟩ 4294967426 1).output = [ev] ∧ ev.tick = 30) ∧
    (demoEngine.enqueue ⟨3000, 24⟩ demoTrackMonitored
        ⟨EventType.NOTEON, 60, 100, 10, []⟩ 4294967426 1).monitors 0
      = freshMonitor.enqueue ⟨3000, 24⟩ EventType.NOTEON 100 4294967326 ∧
    freshMonitor.enqueue ⟨3000, 24⟩ EventType.NOTEON 100 4294967326
      ≠ freshMonitor.enqueue ⟨3000, 24⟩ EventType.NOTEON 100 30 ∧
    (∃ ev, (demoEngine.enqueue ⟨3000, 24⟩ demoTrackMonitored
        ⟨EventType.NOTEON, 60, 100, 10, []⟩ 50 1).output = [ev] ∧ ev.tick = 4294967246) ∧
    (demoEngine.enqueue ⟨3000, 24⟩ demoTrackMonitored
        ⟨EventType.NOTEON, 60, 100, 10, []⟩ 50 1).monitors 0
      = freshMonitor.enqueue ⟨3000, 24⟩ EventType.NOTEON 100 18446744073709551566 ∧
    roundFloat (5368709 / 2 ^ 29) = 5368709 / 2 ^ 29 ∧
    enqueueValue ⟨EventType.NOTEON, 60, 100, 10, []⟩ (5368709 / 2 ^ 29) = 1 ∧
    (Int.toNat ⌊(5368709 / 2 ^ 29 : ℚ) * ((100 : Nat) : ℚ)⌋) &&& 0x7F = 0 := by
  have hv : enqueueValue ⟨EventType.NOTEON, 60, 100, 10, []⟩ 1 = 100 := by
    unfold enqueueValue
    rw [if_pos rfl]
    exact scaleVelocity_one 100 (by decide)
  have hmon : ∀ iTime : Nat,
      (demoEngine.enqueue ⟨3000, 24⟩ demoTrackMonitored
          ⟨EventType.NOTEON, 60, 100, 10, []⟩ iTime 1).monitors 0
        = freshMonitor.enqueue ⟨3000, 24⟩ EventType.NOTEON 100
            (toULong ((iTime : Int) - 100)) := by
    intro iTime
    rw [enqueue_result ⟨3000, 24⟩ demoEngine demoTrackMonitored
        ⟨EventType.NOTEON, 60, 100, 10, []⟩ iTime 1 ⟨20, some 1⟩ rfl rfl,
      monitorEnqueue_monitors, if_neg (by decide), monitorEnqueue_monitors,
      if_pos (by decide), hv]
    rfl
  have hout : ∀ iTime : Nat,
      ∃ ev, (demoEngine.enqueue ⟨3000, 24⟩ demoTrackMonitored
          ⟨EventType.NOTEON, 60, 100, 10, []⟩ iTime 1).output = [ev] ∧
        ev.tick = toULong ((iTime : Int) - 100) % UINT_SIZE := by
    intro iTime
    exact ⟨_, enqueue_staged ⟨3000, 24⟩ demoEngine demoTrackMonitored
        ⟨EventType.NOTEON, 60, 100, 10, []⟩ iTime 1 ⟨20, some 1⟩ rfl rfl,
      (enqueueEvent_fields _ _ _ _ _ _).2.1⟩
  have hprod : roundFloat ((5368709 / 2 ^ 29) * ((100 : Nat) : ℚ)) = 1 := by
    rw [roundFloat_of_exponent _ (-1) (by decide) (by norm_num [abs_of_pos])
      (by norm_num [abs_of_pos]),
      roundHalfEven_eq _ 16777216 (by norm_num) (by norm_num)]
    norm_num
  refine ⟨?_, ?_, by decide, ?_, ?_, ?_, ?_, ?_⟩
  · obtain ⟨ev, h1, h2⟩ := hout 4294967426
    exact ⟨ev, h1, h2.trans (by decide)⟩
  · exact (hmon 4294967426).trans rfl
  · obtain ⟨ev, h1, h2⟩ := hout 50
    exact ⟨ev, h1, h2.trans (by decide)⟩
  · exact (hmon 50).trans rfl
  · rw [roundFloat_of_exponent _ (-7) (by decide) (by norm_num [abs_of_pos])
      (by norm_num [abs_of_pos]),
      roundHalfEven_eq _ 10737418 (by norm_num) (by norm_num)]
    norm_num
  · unfold enqueueValue
    rw [if_pos rfl]
    unfold scaleVelocity
    rw [hprod]
    have hfl : ⌊(1 : ℚ)⌋ = 1 := Int.floor_one
    rw [hfl]
    rfl
  · have hfl : ⌊(5368709 / 2 ^ 29 : ℚ) * ((100 : Nat) : ℚ)⌋ = 0 := by
      rw [Int.floor_eq_iff]
      constructor <;> norm_num
    rw [hfl]
    rfl

/-- C12 (amended): on a track with an output bus, for an event that is not dropped: for a
NoteOn the velocity staged to the backend and handed to the track and bus output monitors is
the `float` product `gain * velocity` (the product rounded to `float`), truncated to an
integer, `& 0x7F`, hence at most `127`, and the original velocity when `gain = 1` and
`velocity ≤ 127`; for every other kind the value is handed over unscaled (and staged unscaled
for the kinds that carry a value); both monitors are handed the tick `t - time_start` as an
`unsigned long` (reduced modulo `2^64`), the staged event carries that tick reduced modulo
`2^32`, and the two are the same tick `t - time_start` when `0 ≤ t - time_start < 2^32`. -/
theorem enqueue_scaled_velocity (clk : MonitorClock) (e : MidiEngine) (pTrack : Track)
    (pEvent : MidiEvent) (iTime : Nat) (fGain : ℚ) (bus : MidiBus)
    (hbus : pTrack.outputBus = some bus) (hmix : pEvent.isMixerController = false) :
    (pEvent.type = EventType.NOTEON →
      enqueueValue pEvent fGain
        = (Int.toNat ⌊roundFloat (fGain * (pEvent.value : ℚ))⌋) &&& 0x7F ∧
      enqueueValue pEvent fGain ≤ 127 ∧
      (fGain = 1 → pEvent.value ≤ 127 → enqueueValue pEvent fGain = pEvent.value)) ∧
    (pEvent.type ≠ EventType.NOTEON → enqueueValue pEvent fGain = pEvent.value) ∧
    (∃ ev, (e.enqueue clk pTrack pEvent iTime fGain).output = e.output ++ [ev] ∧
      (ev.tick : Int) = ((iTime : Int) - e.iTimeStart) % 2 ^ 32 ∧
      ev.tick = toULong ((iTime : Int) - e.iTimeStart) % UINT_SIZE ∧
      (0 ≤ (iTime : Int) - e.iTimeStart → (iTime : Int) - e.iTimeStart < 2 ^ 32 →
        ev.tick = toULong ((iTime : Int) - e.iTimeStart) ∧
        (ev.tick : Int) = (iTime : Int) - e.iTimeStart) ∧
      (pEvent.type = EventType.NOTEON ∨ pEvent.type = EventType.KEYPRESS ∨
        pEvent.type = EventType.CONTROLLER ∨ pEvent.type = EventType.PGMCHANGE ∨
        pEvent.type = EventType.CHANPRESS ∨ pEvent.type = EventType.PITCHBEND →
        ev.value = enqueueValue pEvent fGain)) ∧
    (toULong ((iTime : Int) - e.iTimeStart) : Int) = ((iTime : Int) - e.iTimeStart) % 2 ^ 64 ∧
    (∀ i, pTrack.monitor = some i → bus.monitorOut ≠ some i →
      (e.enqueue clk pTrack pEvent iTime fGain).monitors i
        = (e.monitors i).enqueue clk pEvent.type (enqueueValue pEvent fGain)
            (toULong ((iTime : Int) - e.iTimeStart))) ∧
    (∀ i, bus.monitorOut = some i → pTrack.monitor ≠ some i →
      (e.enqueue clk pTrack pEvent iTime fGain).monitors i
        = (e.monitors i).enqueue clk pEvent.type (enqueueValue pEvent fGain)
            (toULong ((iTime : Int) - e.iTimeStart))) ∧
    (∀ i, pTrack.monitor = some i → bus.monitorOut = some i →
      (e.enqueue clk pTrack pEvent iTime fGain).monitors i
        = ((e.monitors i).enqueue clk pEvent.type (enqueueValue pEvent fGain)
            (toULong ((iTime : Int) - e.iTimeStart))).enqueue clk pEvent.type
              (enqueueValue pEvent fGain) (toULong ((iTime : Int) - e.iTimeStart))) ∧
    (∀ i, pTrack.monitor ≠ some i → bus.monitorOut ≠ some i →
      (e.enqueue clk pTrack pEvent iTime fGain).monitors i = e.monitors i) := by
  have hres := enqueue_result clk e pTrack pEvent iTime fGain bus hbus hmix
  have hf := enqueueEvent_fields e.iAlsaQueue pTrack bus pEvent
    (toULong ((iTime : Int) - e.iTimeStart)) (enqueueValue pEvent fGain)
  refine ⟨?_, ?_, ?_, (toULong_spec _).1, ?_, ?_, ?_, ?_⟩
  · intro ht
    have hv : enqueueValue pEvent fGain = scaleVelocity fGain pEvent.value := by
      unfold enqueueValue; rw [if_pos ht]
    refine ⟨?_, ?_, ?_⟩
    · rw [hv]; unfold scaleVelocity; exact and_velocity _
    · rw [hv]; exact scaleVelocity_le _ _
    · intro hg hle
      rw [hv, hg]
      exact scaleVelocity_one _ hle
  · intro ht
    unfold enqueueValue; rw [if_neg ht]
  · refine ⟨_, enqueue_staged clk e pTrack pEvent iTime fGain bus hbus hmix, ?_, hf.2.1, ?_,
      ?_⟩
    · rw [hf.2.1]; exact toULong_narrow _
    · intro h0 h1
      have hs := toULong_small _ h0 h1
      rw [hf.2.1]
      exact ⟨hs.1, by rw [hs.1]; exact hs.2⟩
    · intro hk
      unfold enqueueEvent
      rcases hk with h | h | h | h | h | h <;> rw [h]
  · intro i hi hj
    rw [hres, monitorEnqueue_monitors, if_neg hj, monitorEnqueue_monitors, if_pos hi]
  · intro i hj hi
    rw [hres, monitorEnqueue_monitors, if_pos hj, monitorEnqueue_monitors, if_neg hi]
  · intro i hi hj
    rw [hres, monitorEnqueue_monitors, if_pos hj, monitorEnqueue_monitors, if_pos hi]
  · intro i hi hj
    rw [hres, monitorEnqueue_monitors, if_neg hj, monitorEnqueue_monitors, if_neg hi]

/-- Check of C12 (amended) on a NoteOn of velocity `100` at unit gain and `t = 150`, on a
monitored track with a monitored bus and `time_start = 100`: the velocity handed over is
`100`, and the track monitor is enqueued at tick `50`, the tick of the staged event. -/
theorem enqueue_scaled_velocity_witness :
    demoTrackMonitored.outputBus = some ⟨20, some 1⟩ ∧
    (⟨EventType.NOTEON, 60, 100, 10, []⟩ : MidiEvent).isMixerController = false ∧
    enqueueValue ⟨EventType.NOTEON, 60, 100, 10, []⟩ 1 = 100 ∧
    (∃ ev, (demoEngine.enqueue ⟨3000, 24⟩ demoTrackMonitored
        ⟨EventType.NOTEON, 60, 100, 10, []⟩ 150 1).output = [ev] ∧ (ev.tick : Int) = 50) ∧
    (demoEngine.enqueue ⟨3000, 24⟩ demoTrackMonitored
        ⟨EventType.NOTEON, 60, 100, 10, []⟩ 150 1).monitors 0
      = freshMonitor.enqueue ⟨3000, 24⟩ EventType.NOTEON
          (enqueueValue ⟨EventType.NOTEON, 60, 100, 10, []⟩ 1) 50 := by
  have h := enqueue_scaled_velocity ⟨3000, 24⟩ demoEngine demoTrackMonitored
    ⟨EventType.NOTEON, 60, 100, 10, []⟩ 150 1 ⟨20, some 1⟩ rfl rfl
  refine ⟨rfl, rfl, (h.1 rfl).2.2 rfl (by decide), ?_, ?_⟩
  · obtain ⟨ev, h1, h2, _⟩ := h.2.2.1
    exact ⟨ev, h1, h2.trans (by decide)⟩
  · exact (h.2.2.2.2.1 0 rfl (by decide)).trans rfl

/-! ## Claims on capture -/

/-- C13: `capture()` of an inbound NoteOn (or Note) event with velocity `0` leaves every
record clip, every track monitor, every bus input monitor and the posted MMC events exactly
as `capture()` of the NoteOff event with the same tick, channel, note, velocity `0`,
duration and destination port does; what is recorded and monitored is a NOTEOFF. -/
theorem noteon_zero_is_noteoff (env : CaptureEnv) (st : CaptureState) (pEv : SndSeqInput)
    (htype : pEv.type = SndSeqInputType.NOTE ∨ pEv.type = SndSeqInputType.NOTEON)
    (hvel : pEv.noteVelocity = 0) :
    capture env st pEv = capture env st { pEv with type := SndSeqInputType.NOTEOFF } ∧
    captureDecode env pEv = CaptureDecision.route (noteLocals EventType.NOTEOFF pEv) := by
  have hd : captureDecode env pEv = CaptureDecision.route (noteLocals EventType.NOTEOFF pEv) := by
    unfold captureDecode
    rcases htype with h | h <;> rw [h] <;> simp [hvel]
  have hd2 : captureDecode env { pEv with type := SndSeqInputType.NOTEOFF }
      = CaptureDecision.route (noteLocals EventType.NOTEOFF pEv) := rfl
  refine ⟨?_, hd⟩
  unfold capture
  rw [hd, hd2]
  rfl

/-- Check of C13: a NoteOn with velocity `0` on port `5`, channel `0`, is recorded as the
NoteOff is. -/
theorem noteon_zero_is_noteoff_witness :
    capture demoCaptureEnv demoCaptureState (noteInput SndSeqInputType.NOTEON 0)
      = capture demoCaptureEnv demoCaptureState (noteInput SndSeqInputType.NOTEOFF 0) :=
  (noteon_zero_is_noteoff demoCaptureEnv demoCaptureState (noteInput SndSeqInputType.NOTEON 0)
    (Or.inr rfl) rfl).1

theorem mmcTrap_eq_signature (bytes : List Nat) (h : bytes[0]? = some 0xF0) :
    mmcTrap bytes = mmcSignature bytes := by
  match bytes, h with
  | [], h => simp at h
  | [a], h => simp [mmcTrap, mmcSignature]
  | [a, b], h => simp [mmcTrap, mmcSignature]
  | [a, b, c], h => simp [mmcTrap, mmcSignature]
  | a :: b :: c :: d :: rest, h =>
    simp only [List.getElem?_cons_zero, Option.some.injEq] at h
    subst h
    by_cases hb : b = 0x7F
    · by_cases hd : d = 0x06
      · subst hb; subst hd
        simp [mmcTrap, mmcSignature]
      · simp [mmcTrap, mmcSignature, hb, hd]
    · simp [mmcTrap, mmcSignature, hb]

/-- C14 (as stated, refuted): with the input control bus on port `5` and no notify widget
set, the sysex `F0 7F 00 06 01 F7` arriving on port `5` matches the MMC signature and the
control bus port, yet `capture()` posts no MMC event: the state is left as it was. -/
theorem mmc_not_posted_without_widget :
    mmcSignature [0xF0, 0x7F, 0x00, 0x06, 0x01, 0xF7] = true ∧
    demoCaptureEnv.controlPort = some (sysexInput 5 [0xF0, 0x7F, 0x00, 0x06, 0x01, 0xF7]).destPort ∧
    (capture demoCaptureEnv demoCaptureState
      (sysexInput 5 [0xF0, 0x7F, 0x00, 0x06, 0x01, 0xF7])).posted = [] ∧
    capture demoCaptureEnv demoCaptureState
      (sysexInput 5 [0xF0, 0x7F, 0x00, 0x06, 0x01, 0xF7]) = demoCaptureState := by
  decide

/-- C14 (amended): for a Sysex event whose bytes begin with `F0`: when the bytes match the
MMC signature `F0 7F ?? 06 …` and the destination port is the input control bus port,
`capture()` appends to no clip and enqueues on no monitor, and posts one MMC event with the
sysex bytes if a notify widget is set (none otherwise); every other Sysex is routed to the
tracks and bus monitors like an ordinary event and posts nothing. So with a notify widget
set, an MMC event is posted if and only if signature and port match. -/
theorem mmc_trapped_iff (env : CaptureEnv) (st : CaptureState) (pEv : SndSeqInput)
    (htype : pEv.type = SndSeqInputType.SYSEX) (hF0 : pEv.ext[0]? = some 0xF0) :
    (mmcSignature pEv.ext = true ∧ env.controlPort = some pEv.destPort →
      (capture env st pEv).tracks = st.tracks ∧ (capture env st pEv).buses = st.buses ∧
      (capture env st pEv).posted
        = if env.notifyWidget then st.posted ++ [pEv.ext] else st.posted) ∧
    (¬ (mmcSignature pEv.ext = true ∧ env.controlPort = some pEv.destPort) →
      (capture env st pEv).posted = st.posted ∧
      (capture env st pEv).tracks = st.tracks.map (captureTrack env pEv
        ⟨EventType.SYSEX, 0, 0, 0, 0, some (pEv.ext.take (pEv.ext.length % USHORT_SIZE))⟩) ∧
      (capture env st pEv).buses = st.buses.map (captureBus env pEv
        ⟨EventType.SYSEX, 0, 0, 0, 0, some (pEv.ext.take (pEv.ext.length % USHORT_SIZE))⟩)) ∧
    (env.notifyWidget = true →
      ((capture env st pEv).posted = st.posted ++ [pEv.ext]
        ↔ (mmcSignature pEv.ext = true ∧ env.controlPort = some pEv.destPort))) := by
  have hsig := mmcTrap_eq_signature pEv.ext hF0
  have hpos : mmcSignature pEv.ext = true ∧ env.controlPort = some pEv.destPort →
      captureDecode env pEv = CaptureDecision.mmc pEv.ext := by
    intro h
    unfold captureDecode
    rw [htype]
    simp only
    rw [if_pos ⟨by rw [hsig]; exact h.1, h.2⟩]
  have hneg : ¬ (mmcSignature pEv.ext = true ∧ env.controlPort = some pEv.destPort) →
      captureDecode env pEv = CaptureDecision.route
        ⟨EventType.SYSEX, 0, 0, 0, 0, some (pEv.ext.take (pEv.ext.length % USHORT_SIZE))⟩ := by
    intro h
    unfold captureDecode
    rw [htype]
    simp only
    rw [if_neg (by rw [hsig]; exact h)]
  have h1 : mmcSignature pEv.ext = true ∧ env.controlPort = some pEv.destPort →
      (capture env st pEv).tracks = st.tracks ∧ (capture env st pEv).buses = st.buses ∧
      (capture env st pEv).posted
        = if env.notifyWidget then st.posted ++ [pEv.ext] else st.posted := by
    intro h
    unfold capture
    rw [hpos h]
    cases env.notifyWidget <;> simp
  have h2 : ¬ (mmcSignature pEv.ext = true ∧ env.controlPort = some pEv.destPort) →
      (capture env st pEv).posted = st.posted ∧
      (capture env st pEv).tracks = st.tracks.map (captureTrack env pEv
        ⟨EventType.SYSEX, 0, 0, 0, 0, some (pEv.ext.take (pEv.ext.length % USHORT_SIZE))⟩) ∧
      (capture env st pEv).buses = st.buses.map (captureBus env pEv
        ⟨EventType.SYSEX, 0, 0, 0, 0, some (pEv.ext.take (pEv.ext.length % USHORT_SIZE))⟩) := by
    intro h
    unfold capture
    rw [hneg h]
    exact ⟨rfl, rfl, rfl⟩
  refine ⟨h1, h2, ?_⟩
  intro hw
  constructor
  · intro hp
    by_contra hc
    have := (h2 hc).1
    rw [this] at hp
    have hl := congrArg List.length hp
    simp at hl
  · intro hc
    rw [(h1 hc).2.2, hw]
    simp

/-- Check of the amended C14: with a notify widget the MMC sysex on the control port is
posted and nothing is routed; on another port it is routed and nothing is posted. -/
theorem mmc_trapped_iff_witness :
    (capture demoCaptureEnvNotify demoCaptureState
      (sysexInput 5 [0xF0, 0x7F, 0x00, 0x06, 0x01, 0xF7])).posted
      = [[0xF0, 0x7F, 0x00, 0x06, 0x01, 0xF7]] ∧
    (capture demoCaptureEnvNotify demoCaptureState
      (sysexInput 6 [0xF0, 0x7F, 0x00, 0x06, 0x01, 0xF7])).posted = [] := by
  have h := mmc_trapped_iff demoCaptureEnvNotify demoCaptureState
    (sysexInput 5 [0xF0, 0x7F, 0x00, 0x06, 0x01, 0xF7]) rfl rfl
  have h2 := mmc_trapped_iff demoCaptureEnvNotify demoCaptureState
    (sysexInput 6 [0xF0, 0x7F, 0x00, 0x06, 0x01, 0xF7]) rfl rfl
  exact ⟨(h.1 (by decide)).2.2, (h2.2.1 (by decide)).1⟩

theorem captures_iff (t : RecordTrack) (pEv : SndSeqInput) (l : CaptureLocals) :
    t.captures pEv l = true ↔
      (t.isMidi = true ∧ t.isRecord = true ∧ t.midiChannel = l.iChannel ∧
        t.inputBus = some pEv.destPort) := by
  unfold RecordTrack.captures
  simp only [Bool.and_eq_true, decide_eq_true_eq]
  tauto

/-- C15: `capture()` hands an event on to the tracks and buses exactly when its kind is one
of the switch and it is not an MMC sysex for the input control bus. The event then recorded
and monitored is decoded from the inbound event: for a note kind the channel, note, velocity
and duration of `data.note` (a NoteOn or Note of velocity `0` as NoteOff); for a key
pressure or controller the channel of `data.control`, and the low bytes of its `param` and
`value`; for a program change, channel pressure or pitch bend the same with `data1 = 0`; for
a sysex channel `0`, zero data and the first `len mod 2^16` bytes, which are the event's
bytes when there are fewer than `2^16`. For such an event `capture()` posts nothing and
keeps the lists of tracks and buses; to the record clip of each track that is a MIDI track,
record-armed, on the event's channel and whose input bus port is the destination port it
appends exactly one event `(tick, kind, data1, data2, duration, sysex)` and it enqueues
`(kind, data2)` once on that track's monitor, also when the track has no record clip; every
other track is unchanged; each bus on the destination port gets one enqueue on its input
monitor, when it has one, and every other bus is unchanged. -/
theorem capture_routes_event (env : CaptureEnv) (st : CaptureState) (pEv : SndSeqInput) :
    ((pEv.type ≠ SndSeqInputType.OTHER ∧
        ¬ (pEv.type = SndSeqInputType.SYSEX ∧ mmcTrap pEv.ext = true ∧
            env.controlPort = some pEv.destPort)) ↔
      ∃ l, captureDecode env pEv = CaptureDecision.route l) ∧
    (∀ l, captureDecode env pEv = CaptureDecision.route l →
      (pEv.type = SndSeqInputType.NOTE ∨ pEv.type = SndSeqInputType.NOTEON →
        l = ⟨if pEv.noteVelocity = 0 then EventType.NOTEOFF else EventType.NOTEON,
              pEv.noteChannel, pEv.noteNote, pEv.noteVelocity, pEv.noteDuration, none⟩) ∧
      (pEv.type = SndSeqInputType.NOTEOFF →
        l = ⟨EventType.NOTEOFF, pEv.noteChannel, pEv.noteNote, pEv.noteVelocity,
              pEv.noteDuration, none⟩) ∧
      (pEv.type = SndSeqInputType.KEYPRESS →
        l = ⟨EventType.KEYPRESS, pEv.controlChannel, pEv.controlParam % 256,
              (pEv.controlValue % 256).toNat, 0, none⟩) ∧
      (pEv.type = SndSeqInputType.CONTROLLER →
        l = ⟨EventType.CONTROLLER, pEv.controlChannel, pEv.controlParam % 256,
              (pEv.controlValue % 256).toNat, 0, none⟩) ∧
      (pEv.type = SndSeqInputType.PGMCHANGE →
        l = ⟨EventType.PGMCHANGE, pEv.controlChannel, 0,
              (pEv.controlValue % 256).toNat, 0, none⟩) ∧
      (pEv.type = SndSeqInputType.CHANPRESS →
        l = ⟨EventType.CHANPRESS, pEv.controlChannel, 0,
              (pEv.controlValue % 256).toNat, 0, none⟩) ∧
      (pEv.type = SndSeqInputType.PITCHBEND →
        l = ⟨EventType.PITCHBEND, pEv.controlChannel, 0,
              (pEv.controlValue % 256).toNat, 0, none⟩) ∧
      (pEv.type = SndSeqInputType.SYSEX →
        l = ⟨EventType.SYSEX, 0, 0, 0, 0,
              some (pEv.ext.take (pEv.ext.length % 2 ^ 16))⟩) ∧
      (pEv.type = SndSeqInputType.SYSEX → pEv.ext.length < USHORT_SIZE →
        l.sysex = some pEv.ext) ∧
      (pEv.type ≠ SndSeqInputType.SYSEX → l.sysex = none) ∧
      (capture env st pEv).posted = st.posted ∧
      (capture env st pEv).tracks.length = st.tracks.length ∧
      (capture env st pEv).buses.length = st.buses.length ∧
      (∀ (i : Nat) (t : RecordTrack), st.tracks[i]? = some t →
        ∃ t' : RecordTrack, (capture env st pEv).tracks[i]? = some t' ∧
          (t.isMidi = true ∧ t.isRecord = true ∧ t.midiChannel = l.iChannel ∧
              t.inputBus = some pEv.destPort →
            t'.clipRecord = t.clipRecord.map (fun sequence => sequence ++
              [⟨pEv.tick, l.type, l.data1, l.data2, l.duration, l.sysex⟩]) ∧
            t'.monitor = t.monitor.map
              (fun m => m.enqueue env.clk l.type l.data2 env.directTick) ∧
            t'.isMidi = t.isMidi ∧ t'.isRecord = t.isRecord ∧
            t'.midiChannel = t.midiChannel ∧ t'.inputBus = t.inputBus) ∧
          (¬ (t.isMidi = true ∧ t.isRecord = true ∧ t.midiChannel = l.iChannel ∧
              t.inputBus = some pEv.destPort) → t' = t)) ∧
      (∀ (j : Nat) (b : InputBus), st.buses[j]? = some b →
        ∃ b' : InputBus, (capture env st pEv).buses[j]? = some b' ∧
          b'.alsaPort = b.alsaPort ∧
          (b.alsaPort = pEv.destPort →
            b'.monitorIn = b.monitorIn.map
              (fun m => m.enqueue env.clk l.type l.data2 env.directTick)) ∧
          (b.alsaPort ≠ pEv.destPort → b' = b))) := by
  constructor
  · unfold captureDecode
    cases hty : pEv.type <;> simp only [ne_eq, not_true_eq_false, not_false_eq_true,
      false_and, true_and, and_true, reduceCtorEq, CaptureDecision.route.injEq, exists_eq',
      exists_false]
    split <;> simp_all
  intro l hroute
  have hc : capture env st pEv
      = { st with
          tracks := st.tracks.map (captureTrack env pEv l)
          buses := st.buses.map (captureBus env pEv l) } := by
    unfold capture
    rw [hroute]
  rw [hc]
  refine ⟨?_, ?_, ?_, ?_, ?_, ?_, ?_, ?_, ?_, ?_, rfl, by simp, by simp, ?_, ?_⟩
  · intro ht
    have h := hroute
    unfold captureDecode at h
    rcases ht with ht | ht <;>
    · rw [ht] at h
      simp only [CaptureDecision.route.injEq] at h
      exact h.symm
  · intro ht
    have h := hroute
    unfold captureDecode at h
    rw [ht] at h
    simp only [CaptureDecision.route.injEq] at h
    exact h.symm
  · intro ht
    have h := hroute
    unfold captureDecode at h
    rw [ht] at h
    simp only [CaptureDecision.route.injEq] at h
    exact h.symm
  · intro ht
    have h := hroute
    unfold captureDecode at h
    rw [ht] at h
    simp only [CaptureDecision.route.injEq] at h
    exact h.symm
  · intro ht
    have h := hroute
    unfold captureDecode at h
    rw [ht] at h
    simp only [CaptureDecision.route.injEq] at h
    exact h.symm
  · intro ht
    have h := hroute
    unfold captureDecode at h
    rw [ht] at h
    simp only [CaptureDecision.route.injEq] at h
    exact h.symm
  · intro ht
    have h := hroute
    unfold captureDecode at h
    rw [ht] at h
    simp only [CaptureDecision.route.injEq] at h
    exact h.symm
  · intro ht
    have h := hroute
    unfold captureDecode at h
    rw [ht] at h
    simp only at h
    split at h
    · cases h
    · simp only [CaptureDecision.route.injEq] at h
      exact h.symm
  · intro ht hlen
    have h := hroute
    unfold captureDecode at h
    rw [ht] at h
    simp only at h
    split at h
    · cases h
    · simp only [CaptureDecision.route.injEq] at h
      rw [← h]
      simp only [Nat.mod_eq_of_lt hlen, List.take_length]
  · intro ht
    unfold captureDecode at hroute
    cases hty : pEv.type <;> rw [hty] at hroute <;>
      first
      | exact absurd hty ht
      | (simp only [CaptureDecision.route.injEq] at hroute
         rw [← hroute]
         rfl)
      | cases hroute
  · intro i t ht
    refine ⟨captureTrack env pEv l t, by simp [ht], ?_, ?_⟩
    · intro hm
      have := (captures_iff t pEv l).mpr hm
      unfold captureTrack
      rw [if_pos this]
      exact ⟨rfl, rfl, rfl, rfl, rfl, rfl⟩
    · intro hm
      have : ¬ t.captures pEv l = true := fun h => hm ((captures_iff t pEv l).mp h)
      unfold captureTrack
      rw [if_neg this]
  · intro j b hb
    refine ⟨captureBus env pEv l b, by simp [hb], ?_, ?_, ?_⟩
    · unfold captureBus; split <;> rfl
    · intro hp
      unfold captureBus
      rw [if_pos hp]
    · intro hp
      unfold captureBus
      rw [if_neg hp]

/-- Check of C15: a NoteOn (velocity `100`, tick `96`) on port `5`, channel `0`: the track on
channel `0` records it and its monitor counts it, the track on channel `1` is unchanged, the
bus monitor counts it; and a controller `7` with value `300` on channel `1` is handed on
with `data2 = 44`, the low byte. -/
theorem capture_routes_event_witness :
    (capture demoCaptureEnv demoCaptureState (noteInput SndSeqInputType.NOTEON 100)).tracks
      = [⟨true, true, 0, some 5, some [⟨96, EventType.NOTEON, 60, 100, 0, none⟩],
          some (freshMonitor.enqueue ⟨3000, 24⟩ EventType.NOTEON 100 0)⟩,
         ⟨true, true, 1, some 5, none, some freshMonitor⟩] ∧
    (capture demoCaptureEnv demoCaptureState (noteInput SndSeqInputType.NOTEON 100)).posted
      = [] ∧
    captureDecode demoCaptureEnv ⟨SndSeqInputType.CONTROLLER, 96, 5, 0, 0, 0, 0, 1, 7, 300, []⟩
      = CaptureDecision.route ⟨EventType.CONTROLLER, 1, 7, 44, 0, none⟩ := by
  have h := (capture_routes_event demoCaptureEnv demoCaptureState
    (noteInput SndSeqInputType.NOTEON 100)).2 (noteLocals EventType.NOTEON
      (noteInput SndSeqInputType.NOTEON 100)) rfl
  obtain ⟨l, hl⟩ := (capture_routes_event demoCaptureEnv demoCaptureState
    ⟨SndSeqInputType.CONTROLLER, 96, 5, 0, 0, 0, 0, 1, 7, 300, []⟩).1.mp
      ⟨by decide, by decide⟩
  have h4 := ((capture_routes_event demoCaptureEnv demoCaptureState
    ⟨SndSeqInputType.CONTROLLER, 96, 5, 0, 0, 0, 0, 1, 7, 300, []⟩).2 l hl).2.2.2.1 rfl
  refine ⟨by decide, h.2.2.2.2.2.2.2.2.2.2.1, ?_⟩
  rw [hl, h4]
  rfl

/-! ## Claims on track mute -/

theorem flush_drains (tickFromFrame : Nat → Nat) (queueStatus : Option Nat)
    (iAudioFrameTime : Nat) (e : MidiEngine) :
    (e.flush tickFromFrame queueStatus iAudioFrameTime).output = [] ∧
    (e.flush tickFromFrame queueStatus iAudioFrameTime).drained = e.drained ++ e.output ∧
    (e.flush tickFromFrame queueStatus iAudioFrameTime).monitors = e.monitors ∧
    (e.flush tickFromFrame queueStatus iAudioFrameTime).iAlsaQueue = e.iAlsaQueue := by
  unfold MidiEngine.flush
  cases queueStatus with
  | none => exact ⟨rfl, rfl, rfl, rfl⟩
  | some Tm =>
    simp only
    split <;> exact ⟨rfl, rfl, rfl, rfl⟩

/-- The clip loop of `trackSync` in closed form: it walks the clips up to the first one
starting at or after `iFrameEnd`, and asks those that end after `iFrameStart` to process. -/
theorem syncClips_calls (env : MuteEnv) (iFrameStart iFrameEnd : Nat) (clips : List Clip) :
    ∀ st : MuteState,
      (syncClips env iFrameStart iFrameEnd clips st).clipCalls
        = st.clipCalls ++
          ((clips.takeWhile (fun c => decide (c.clipStart < iFrameEnd))).filter
            (fun c => decide (iFrameStart < (c.clipStart + c.clipLength) % ULONG_SIZE))).map
            (fun c => ⟨c, iFrameStart, iFrameEnd⟩) ∧
      (syncClips env iFrameStart iFrameEnd clips st).removes = st.removes ∧
      (syncClips env iFrameStart iFrameEnd clips st).midiCursor = st.midiCursor := by
  induction clips with
  | nil => intro st; simp [syncClips]
  | cons c rest ih =>
    intro st
    unfold syncClips
    by_cases h1 : c.clipStart < iFrameEnd
    · rw [if_pos h1]
      by_cases h2 : iFrameStart < (c.clipStart + c.clipLength) % ULONG_SIZE
      · rw [if_pos h2]
        obtain ⟨g1, g2, g3⟩ := ih (clipProcess env st c iFrameStart iFrameEnd)
        refine ⟨?_, g2, g3⟩
        rw [g1]
        simp [clipProcess, List.takeWhile_cons, h1, List.filter_cons, h2]
      · rw [if_neg h2]
        obtain ⟨g1, g2, g3⟩ := ih st
        refine ⟨?_, g2, g3⟩
        rw [g1]
        simp [List.takeWhile_cons, h1, List.filter_cons, h2]
    · rw [if_neg h1]
      simp [List.takeWhile_cons, h1]

theorem takeWhile_sorted (bound : Nat) (clips : List Clip)
    (hs : clips.Pairwise (fun a b => a.clipStart ≤ b.clipStart)) :
    clips.takeWhile (fun c => decide (c.clipStart < bound))
      = clips.filter (fun c => decide (c.clipStart < bound)) := by
  induction clips with
  | nil => rfl
  | cons c rest ih =>
    rw [List.pairwise_cons] at hs
    by_cases h1 : c.clipStart < bound
    · simp only [List.takeWhile_cons, List.filter_cons, h1, decide_True, if_true]
      rw [ih hs.2]
    · have hnil : rest.filter (fun c => decide (c.clipStart < bound)) = [] := by
        rw [List.filter_eq_nil_iff]
        intro a ha
        have := hs.1 a ha
        simp only [decide_eq_true_eq]
        omega
      simp [List.takeWhile_cons, List.filter_cons, h1, hnil]

/-- C17 (as stated, refuted): with the play-head at frame `100` and the MIDI cursor at
frame `200`, a clip that starts at frame `0` and is `10` frames long starts before the
cursor frame, yet `track_mute(track, false)` does not ask it to process anything. -/
theorem unmute_skips_ended_clip :
    (⟨0, 10⟩ : Clip).clipStart < 200 ∧
    demoMuteState.midiCursor = some ⟨200, 200⟩ ∧
    (trackMute demoUnmuteEnv demoMuteState demoTrackMonitored [⟨0, 10⟩] false).clipCalls
      = [] := by
  decide

/-- C17 (amended): with a MIDI cursor and the track's clips in order of their start,
`track_mute(track, false)` asks exactly the clips with `clip start < cursor.frame` that have
not ended at the play-head (`playhead_frame < clip start + clip length`, in `unsigned long`
arithmetic) to process the range `[playhead_frame, cursor.frame)`, each once and in list
order; clips starting at or after the cursor frame, and clips that ended before the
play-head, are not processed; the backend is flushed afterwards. -/
theorem track_unmute_rerenders (env : MuteEnv) (st : MuteState) (pTrack : Track)
    (clips : List Clip) (cur : SessionCursor) (hcur : st.midiCursor = some cur)
    (hsorted : clips.Pairwise (fun a b => a.clipStart ≤ b.clipStart)) :
    (trackMute env st pTrack clips false).clipCalls
      = st.clipCalls ++
        (clips.filter (fun c => decide (c.clipStart < cur.frame) &&
            decide (env.playHead < (c.clipStart + c.clipLength) % ULONG_SIZE))).map
          (fun c => ⟨c, env.playHead, cur.frame⟩) ∧
    (trackMute env st pTrack clips false).engine
      = (syncClips env env.playHead cur.frame clips st).engine.flush
          env.direct.tickFromFrame env.direct.queueStatus env.direct.audioFrameTime ∧
    (trackMute env st pTrack clips false).engine.output = [] ∧
    (trackMute env st pTrack clips false).removes = st.removes ∧
    (trackMute env st pTrack clips false).midiCursor = st.midiCursor := by
  have hc := syncClips_calls env env.playHead cur.frame clips st
  have ht : trackMute env st pTrack clips false
      = { syncClips env env.playHead cur.frame clips st with
          engine := (syncClips env env.playHead cur.frame clips st).engine.flush
            env.direct.tickFromFrame env.direct.queueStatus env.direct.audioFrameTime } := by
    unfold trackMute trackSync
    simp only [Bool.false_eq_true, if_false, hcur]
  rw [ht]
  refine ⟨?_, rfl, (flush_drains _ _ _ _).1, hc.2.1, ?_⟩
  · show (syncClips env env.playHead cur.frame clips st).clipCalls = _
    rw [hc.1, takeWhile_sorted cur.frame clips hsorted, List.filter_filter]
    congr 2
    apply List.filter_congr
    intro c _
    exact Bool.and_comm _ _
  · show (syncClips env env.playHead cur.frame clips st).midiCursor = _
    rw [hc.2.2]

/-- Check of the amended C17: play-head `100`, cursor frame `200`, clips `[0, 10)`,
`[50, 150)`, `[120, 180)` and `[200, 300)`: the second and third are asked to process
`[100, 200)`. -/
theorem track_unmute_rerenders_witness :
    (trackMute demoUnmuteEnv demoMuteState demoTrackMonitored
      [⟨0, 10⟩, ⟨50, 100⟩, ⟨120, 60⟩, ⟨200, 100⟩] false).clipCalls
      = [⟨⟨50, 100⟩, 100, 200⟩, ⟨⟨120, 60⟩, 100, 200⟩] :=
  (track_unmute_rerenders demoUnmuteEnv demoMuteState demoTrackMonitored
    [⟨0, 10⟩, ⟨50, 100⟩, ⟨120, 60⟩, ⟨200, 100⟩] ⟨200, 200⟩ rfl (by decide)).1

/-! ## Claims on MMC -/

/-- The remainder left after the hours field: no wrap-around of the `unsigned long`. -/
theorem locate_rest_hours (L : Nat) :
    ((L : Int) - 3600 * 30 * ((L / 108000 : Nat) : Int)) % 2 ^ 64
      = ((L % 108000 : Nat) : Int) := by
  omega

/-- The remainder left after the minutes field. -/
theorem locate_rest_minutes (L : Nat) :
    (((L % 108000 : Nat) : Int) - 60 * 30 * ((L % 108000 / 1800 : Nat) : Int)) % 2 ^ 64
      = ((L % 1800 : Nat) : Int) := by
  omega

/-- The remainder left after the seconds field. -/
theorem locate_rest_seconds (L : Nat) :
    (((L % 1800 : Nat) : Int) - 30 * ((L % 1800 / 30 : Nat) : Int)) % 2 ^ 64
      = ((L % 30 : Nat) : Int) := by
  omega

/-- The four fields fit a byte, so the `unsigned char` casts do not truncate them. -/
theorem locate_fields_fit (L : Nat) (hL : L < 30 * 3600 * 100) :
    L / (3600 * 30) % 2 ^ 8 = L / 108000 ∧
    L % 108000 / (60 * 30) % 2 ^ 8 = L % 108000 / 1800 ∧
    L % 1800 / 30 % 2 ^ 8 = L % 1800 / 30 ∧
    L % 30 % 2 ^ 8 = L % 30 := by
  refine ⟨?_, ?_, ?_, ?_⟩ <;> omega

/-- The payload `sendMmcLocate` builds, in closed form, for a position below 100 hours. -/
theorem mmcLocateData_eq (L : Nat) (hL : L < 30 * 3600 * 100) :
    mmcLocateData L
      = [0x01, L / 108000, L % 108000 / 1800, L % 1800 / 30, L % 30, 0x00] := by
  obtain ⟨e1, e3, e5, e7⟩ := locate_fields_fit L hL
  unfold mmcLocateData
  simp only [toULong, UCHAR_SIZE]
  rw [e1, locate_rest_hours L, Int.toNat_ofNat, e3, locate_rest_minutes L, Int.toNat_ofNat,
    e5, locate_rest_seconds L, Int.toNat_ofNat, e7]

/-- C18: for every locate position `L < 30 * 3600 * 100`, `sendMmcLocate(L)` hands the
payload `{01, h, m, s, f, 00}` to `sendMmcCommand`, with
`h * (3600 * 30) + m * (60 * 30) + s * 30 + f = L`, `h < 100`, `m < 60`, `s < 60` and
`f < 30` (so every byte is below `0x80`); decoding the SMPTE-30 fields recovers `L`. -/
theorem mmc_locate_roundtrip (L : Nat) (hL : L < 30 * 3600 * 100) :
    ∃ h m s f, mmcLocateData L = [0x01, h, m, s, f, 0x00] ∧
      h * (3600 * 30) + m * (60 * 30) + s * 30 + f = L ∧
      h < 100 ∧ m < 60 ∧ s < 60 ∧ f < 30 ∧
      (∀ b, b ∈ mmcLocateData L → b < 0x80) ∧
      mmcLocateDecode (mmcLocateData L) = L ∧
      (∀ env bus e LOCATE, sendMmcLocate env bus e LOCATE L
        = sendMmcCommand env bus e LOCATE (some [0x01, h, m, s, f, 0x00]) 6) := by
  have hsum : L / 108000 * (3600 * 30) + L % 108000 / 1800 * (60 * 30) + L % 1800 / 30 * 30
      + L % 30 = L := by omega
  have hh : L / 108000 < 100 := by omega
  have hm : L % 108000 / 1800 < 60 := by omega
  have hs : L % 1800 / 30 < 60 := by omega
  have hf : L % 30 < 30 := by omega
  have hd := mmcLocateData_eq L hL
  refine ⟨L / 108000, L % 108000 / 1800, L % 1800 / 30, L % 30, hd, hsum, hh, hm, hs, hf,
    ?_, ?_, ?_⟩
  · intro b hb
    rw [hd] at hb
    simp only [List.mem_cons, List.mem_singleton, List.mem_nil_iff, or_false] at hb
    clear hd hsum
    rcases hb with h | h | h | h | h | h <;> omega
  · rw [hd]
    exact hsum
  · intro env bus e LOCATE
    unfold sendMmcLocate
    rw [hd]

/-- Check of C18 at `L = 1000000`: the payload is `{01, 9, 15, 33, 10, 00}`. -/
theorem mmc_locate_roundtrip_witness :
    mmcLocateDecode (mmcLocateData 1000000) = 1000000 ∧
    mmcLocateData 1000000 = [0x01, 9, 15, 33, 10, 0x00] := by
  obtain ⟨h, m, s, f, _, _, _, _, _, _, _, h2, _⟩ := mmc_locate_roundtrip 1000000 (by decide)
  exact ⟨h2, rfl⟩

/-- C19 (as stated, refuted): `sendMmcLocate` with `L = 405402` builds the payload
`{01, 3, 45, 13, 12, 00}`, not `{01, 3, 45, 17, 12, 00}`. -/
theorem mmc_locate_405402 :
    mmcLocateData 405402 = [0x01, 3, 45, 13, 12, 0x00] ∧
    mmcLocateData 405402 ≠ [0x01, 3, 45, 17, 12, 0x00] := by
  have h : mmcLocateData 405402 = [0x01, 3, 45, 13, 12, 0x00] := rfl
  refine ⟨h, ?_⟩
  rw [h]
  decide

/-- C19 (amended): the position with fields `3:45:17` and frame `12` is
`3 * 3600 * 30 + 45 * 60 * 30 + 17 * 30 + 12 = 405522`; `sendMmcLocate` with `L = 405522`
yields the payload `{01, 3, 45, 17, 12, 00}`, and decoding that payload recovers `405522`. -/
theorem mmc_locate_405522 :
    3 * 3600 * 30 + 45 * 60 * 30 + 17 * 30 + 12 = 405522 ∧
    mmcLocateData 405522 = [0x01, 3, 45, 17, 12, 0x00] ∧
    mmcLocateDecode [0x01, 3, 45, 17, 12, 0x00] = 405522 ∧
    (∀ env bus e LOCATE, sendMmcLocate env bus e LOCATE 405522
      = sendMmcCommand env bus e LOCATE (some [0x01, 3, 45, 17, 12, 0x00]) 6) := by
  refine ⟨by decide, rfl, rfl, ?_⟩
  intro env bus e LOCATE
  rfl

/-- The engine after `sendSysex` on an open sequencer: the bus hands over one direct sysex
event with the first `iSysex` bytes, and the output is drained. -/
theorem sendSysex_open (env : DirectEnv) (bus : MidiBus) (e : MidiEngine)
    (pSysex : List Nat) (iSysex : Nat) (hopen : env.alsaSeq = true) :
    (bus.sendSysex env e pSysex iSysex).output = [] ∧
    (bus.sendSysex env e pSysex iSysex).drained
      = e.drained ++ e.output ++
        [{ bus.directEvent with type := SndSeqType.SYSEX, sysex := pSysex.take iSysex }] ∧
    (bus.sendSysex env e pSysex iSysex).monitors = e.monitors := by
  unfold MidiBus.sendSysex
  rw [if_pos hopen]
  have h := flush_drains env.tickFromFrame env.queueStatus env.audioFrameTime
    ({ e with output := e.output ++
        [{ bus.directEvent with type := SndSeqType.SYSEX, sysex := pSysex.take iSysex }] }
      : MidiEngine)
  refine ⟨h.1, ?_, h.2.2.1⟩
  rw [h.2.1, List.append_assoc]

/-- The buffer of `sendMmcCommand` when no payload is written. -/
theorem mmcBuffer_bare (cmd : Nat) (pMmcData : Option (List Nat)) (iMmcData : Nat)
    (h : hasMmcData pMmcData iMmcData = false) :
    mmcBuffer cmd pMmcData iMmcData
      = ⟨6, [0xf0, 0x7f, 0x7f, 0x06, cmd % UCHAR_SIZE, 0xf7], 6⟩ := by
  unfold mmcBuffer
  simp [h, USHORT_SIZE]

/-- The buffer of `sendMmcCommand` when the payload is written. -/
theorem mmcBuffer_payload (cmd : Nat) (data : List Nat) (n : Nat) (h0 : 0 < n)
    (hn : n ≤ data.length) :
    mmcBuffer cmd (some data) n
      = ⟨(n + 7) % USHORT_SIZE,
          [0xf0, 0x7f, 0x7f, 0x06, cmd % UCHAR_SIZE, n % UCHAR_SIZE] ++ data.take n ++ [0xf7],
          (n + 7) % USHORT_SIZE⟩ := by
  have hp : hasMmcData (some data) n = true := by simp [hasMmcData, h0]
  have hl : (data.take n).length = n := by simp [hn]
  unfold mmcBuffer
  simp only [hp, if_true, Option.getD_some]
  have e1 : 6 + (1 + n) = n + 7 := by omega
  have e2 : ([0xf0, 0x7f, 0x7f, 0x06, cmd % UCHAR_SIZE] ++ n % UCHAR_SIZE :: List.take n data
      ++ [0xf7]).length = n + 7 := by
    simp only [List.length_append, List.length_cons, List.length_nil, hl]
    omega
  rw [e1, e2]
  rfl

/-- C20: `sendMmcCommand(cmd, payload, n)` without an output control bus leaves the engine
as it was. With one it builds `F0 7F 7F 06 cmd F7` (6 bytes, the size allocated) when no
payload is given or `n = 0`, and `F0 7F 7F 06 cmd n payload[0..n) F7` (`n + 7` bytes, the size
allocated) when a payload of at least `n` bytes is given and `0 < n ≤ 255`; for `0 < n` the
length byte written is `n` only when `n ≤ 255` (it is `n mod 256`). On an open sequencer the
control bus hands exactly that message to the backend as one direct sysex event. -/
theorem mmc_command_bytes (env : DirectEnv) (bus : MidiBus) (e : MidiEngine)
    (cmd : Nat) (data : List Nat) (n : Nat) (hcmd : cmd < UCHAR_SIZE) (hn : n ≤ data.length) :
    (∀ p, sendMmcCommand env none e cmd p n = e) ∧
    mmcBuffer cmd none n = ⟨6, [0xf0, 0x7f, 0x7f, 0x06, cmd, 0xf7], 6⟩ ∧
    mmcBuffer cmd (some data) 0 = ⟨6, [0xf0, 0x7f, 0x7f, 0x06, cmd, 0xf7], 6⟩ ∧
    (0 < n → n ≤ 255 →
      mmcBuffer cmd (some data) n
        = ⟨n + 7, [0xf0, 0x7f, 0x7f, 0x06, cmd, n] ++ data.take n ++ [0xf7], n + 7⟩ ∧
      (mmcBuffer cmd (some data) n).written.length = n + 7 ∧
      (mmcBuffer cmd (some data) n).written.length = (mmcBuffer cmd (some data) n).allocated) ∧
    (0 < n →
      ((mmcBuffer cmd (some data) n).written
        = [0xf0, 0x7f, 0x7f, 0x06, cmd, n] ++ data.take n ++ [0xf7] ↔ n ≤ 255)) ∧
    (∀ p, env.alsaSeq = true → n ≤ 255 → (p = none ∨ p = some data) →
      (sendMmcCommand env (some bus) e cmd p n).output = [] ∧
      (sendMmcCommand env (some bus) e cmd p n).drained
        = e.drained ++ e.output ++
          [{ bus.directEvent with
              type := SndSeqType.SYSEX, sysex := (mmcBuffer cmd p n).written }]) := by
  have hc : cmd % UCHAR_SIZE = cmd := Nat.mod_eq_of_lt hcmd
  have hbare : ∀ p m, hasMmcData p m = false →
      mmcBuffer cmd p m = ⟨6, [0xf0, 0x7f, 0x7f, 0x06, cmd, 0xf7], 6⟩ := by
    intro p m h
    rw [mmcBuffer_bare cmd p m h, hc]
  have hfull : 0 < n → n ≤ 255 →
      mmcBuffer cmd (some data) n
        = ⟨n + 7, [0xf0, 0x7f, 0x7f, 0x06, cmd, n] ++ data.take n ++ [0xf7], n + 7⟩ := by
    intro h0 h255
    have e1 : (n + 7) % USHORT_SIZE = n + 7 := by
      unfold USHORT_SIZE
      omega
    have e2 : n % UCHAR_SIZE = n := by
      unfold UCHAR_SIZE
      omega
    rw [mmcBuffer_payload cmd data n h0 hn, hc, e1, e2]
  have hl : (data.take n).length = n := by simp [hn]
  refine ⟨fun _ => rfl, hbare none n rfl, hbare (some data) 0 (by simp [hasMmcData]), ?_, ?_, ?_⟩
  · intro h0 h255
    rw [hfull h0 h255]
    refine ⟨rfl, ?_, ?_⟩ <;>
    · simp only [List.length_append, List.length_cons, List.length_nil, hl]
      omega
  · intro h0
    rw [mmcBuffer_payload cmd data n h0 hn, hc]
    constructor
    · intro h
      have h5 := congrArg (fun l => l.getD 5 0) h
      simp only [List.cons_append, List.nil_append, List.getD_cons_succ,
        List.getD_cons_zero] at h5
      unfold UCHAR_SIZE at h5
      omega
    · intro h255
      have e2 : n % UCHAR_SIZE = n := by
        unfold UCHAR_SIZE
        omega
      rw [e2]
  · intro p hopen h255 hp
    have hs := sendSysex_open env bus e (mmcBuffer cmd p n).written (mmcBuffer cmd p n).iSysex
      hopen
    have htake : (mmcBuffer cmd p n).written.take (mmcBuffer cmd p n).iSysex
        = (mmcBuffer cmd p n).written := by
      apply List.take_of_length_le
      rcases hp with hp | hp
      · rw [hp, hbare none n rfl]
        exact Nat.le_refl _
      · rw [hp]
        rcases Nat.eq_zero_or_pos n with h0 | h0
        · rw [h0, hbare (some data) 0 (by simp [hasMmcData])]
          exact Nat.le_refl _
        · rw [hfull h0 h255]
          simp only [List.length_append, List.length_cons, List.length_nil, hl]
          omega
    rw [htake] at hs
    exact ⟨hs.1, hs.2.1⟩

/-- Check of C20 on the locate command `0x44` with the six payload bytes of position
`1000000`: thirteen bytes go out, in a buffer of thirteen. -/
theorem mmc_command_bytes_witness :
    mmcBuffer 0x44 (some [0x01, 9, 15, 33, 10, 0x00]) 6
      = ⟨13, [0xf0, 0x7f, 0x7f, 0x06, 0x44, 6, 0x01, 9, 15, 33, 10, 0x00, 0xf7], 13⟩ :=
  ((mmc_command_bytes demoDirectEnv ⟨20, none⟩ demoEngine 0x44 [0x01, 9, 15, 33, 10, 0x00] 6
    (by decide) (by decide)).2.2.2.1 (by decide) (by decide)).1

/-! ## Claims on the direct helpers of a bus -/

/-- The engine after `setPatch` on an open sequencer: the events of the patch are handed
over after those already staged, and the output is drained. -/
theorem setPatch_open (env : DirectEnv) (bus : MidiBus) (st : BusState) (iChannel : Nat)
    (sInstrumentName : String) (iBankSelMethod iBank : Int) (iProg : Nat)
    (hopen : env.alsaSeq = true) :
    (bus.setPatch env st iChannel sInstrumentName iBankSelMethod iBank iProg).engine.output
      = [] ∧
    (bus.setPatch env st iChannel sInstrumentName iBankSelMethod iBank iProg).engine.drained
      = st.engine.drained ++ st.engine.output
        ++ bus.patchEvents iChannel iBankSelMethod iBank iProg ∧
    (bus.setPatch env st iChannel sInstrumentName iBankSelMethod iBank iProg).patches
      = if sInstrumentName ≠ "" then
          patchesSet (iChannel &&& 0x0f) ⟨sInstrumentName, iBankSelMethod, iBank, iProg⟩
            st.patches
        else st.patches := by
  unfold MidiBus.setPatch
  rw [if_pos hopen]
  have h := flush_drains env.tickFromFrame env.queueStatus env.audioFrameTime
    ({ st.engine with
        output := st.engine.output ++ bus.patchEvents iChannel iBankSelMethod iBank iProg }
      : MidiEngine)
  refine ⟨h.1, ?_, rfl⟩
  simp only
  rw [h.2.1, List.append_assoc]

/-- After an assignment through `m_patches[key]`, the key holds the entry assigned. -/
theorem patchesFind_set_self (key : Nat) (p : Patch) (m : PatchMap) :
    patchesFind (patchesSet key p m) key = some p := by
  induction m with
  | nil => simp [patchesSet, patchesFind]
  | cons kq rest ih =>
    obtain ⟨k, q⟩ := kq
    unfold patchesSet
    by_cases h1 : key < k
    · simp [h1, patchesFind]
    · by_cases h2 : key = k
      · simp [h1, h2, patchesFind]
      · simp only [h1, h2, if_false]
        unfold patchesFind
        rw [if_neg h2]
        exact ih

/-- An assignment through `m_patches[key]` leaves the entries of the other keys alone. -/
theorem patchesFind_set_other (key : Nat) (p : Patch) (m : PatchMap) (j : Nat)
    (hj : j ≠ key) : patchesFind (patchesSet key p m) j = patchesFind m j := by
  induction m with
  | nil => simp [patchesSet, patchesFind, hj]
  | cons kq rest ih =>
    obtain ⟨k, q⟩ := kq
    unfold patchesSet
    by_cases h1 : key < k
    · simp only [h1, if_true]
      conv_lhs => unfold patchesFind
      rw [if_neg hj]
    · by_cases h2 : key = k
      · subst h2
        simp only [h1, if_false, if_true]
        conv_lhs => unfold patchesFind
        conv_rhs => unfold patchesFind
        rw [if_neg hj, if_neg hj]
      · simp only [h1, h2, if_false]
        conv_lhs => unfold patchesFind
        conv_rhs => unfold patchesFind
        rw [ih]

/-- The keys after an assignment through `m_patches[key]`: the key, and those held before. -/
theorem mem_patchesSet (key : Nat) (p : Patch) (m : PatchMap) (x : Nat × Patch)
    (hx : x ∈ patchesSet key p m) : x = (key, p) ∨ x ∈ m := by
  induction m with
  | nil =>
    simp only [patchesSet, List.mem_singleton] at hx
    exact Or.inl hx
  | cons kq rest ih =>
    obtain ⟨k, q⟩ := kq
    unfold patchesSet at hx
    by_cases h1 : key < k
    · simp only [h1, if_true, List.mem_cons] at hx
      rcases hx with hx | hx | hx
      · exact Or.inl hx
      · exact Or.inr (by rw [hx]; exact List.mem_cons_self _ _)
      · exact Or.inr (List.mem_cons_of_mem _ hx)
    · by_cases h2 : key = k
      · subst h2
        simp only [Nat.lt_irrefl, if_false, if_true, List.mem_cons] at hx
        rcases hx with hx | hx
        · exact Or.inl hx
        · exact Or.inr (List.mem_cons_of_mem _ hx)
      · simp only [h1, h2, if_false, List.mem_cons] at hx
        rcases hx with hx | hx
        · exact Or.inr (by rw [hx]; exact List.mem_cons_self _ _)
        · rcases ih hx with h | h
          · exact Or.inl h
          · exact Or.inr (List.mem_cons_of_mem _ h)

/-- An assignment through `m_patches[key]` keeps the keys in ascending order. -/
theorem patchesSet_ordered (key : Nat) (p : Patch) (m : PatchMap) (h : m.Ordered) :
    (patchesSet key p m).Ordered := by
  unfold PatchMap.Ordered at h ⊢
  induction m with
  | nil => simp [patchesSet]
  | cons kq rest ih =>
    obtain ⟨k, q⟩ := kq
    rw [List.pairwise_cons] at h
    unfold patchesSet
    by_cases h1 : key < k
    · simp only [h1, if_true]
      refine List.pairwise_cons.2 ⟨?_, List.pairwise_cons.2 h⟩
      intro a ha
      rcases List.mem_cons.1 ha with ha | ha
      · rw [ha]; exact h1
      · exact Nat.lt_trans h1 (h.1 a ha)
    · by_cases h2 : key = k
      · subst h2
        simp only [Nat.lt_irrefl, if_false, if_true]
        exact List.pairwise_cons.2 ⟨h.1, h.2⟩
      · simp only [h1, h2, if_false]
        refine List.pairwise_cons.2 ⟨?_, ih h.2⟩
        intro a ha
        rcases mem_patchesSet key p rest a ha with ha | ha
        · rw [ha]
          show k < key
          omega
        · exact h.1 a ha

/-- A channel number below `16` is its own patch map key: `ch & 0x0f = ch`. -/
theorem and_channel (ch : Nat) (h : ch < 16) : ch &&& 0x0f = ch := by
  have h4 := Nat.and_pow_two_sub_one_eq_mod ch 4
  have e4 : (2 : Nat) ^ 4 - 1 = 0x0f := by decide
  rw [e4] at h4
  rw [h4]
  exact Nat.mod_eq_of_lt h

/-- C22 (as stated, refuted): on an open engine, `set_patch(3, "", 0, 1, 5)` on a bus with an
empty patch map leaves the map empty, so channel `3` holds no entry afterwards; and
`set_patch(19, "Piano", 0, 1, 5)` records its entry under channel `3`, none under `19`. -/
theorem set_patch_unnamed_not_recorded :
    demoDirectEnv.alsaSeq = true ∧
    (demoBus.setPatch demoDirectEnv demoBusState 3 "" 0 1 5).patches = [] ∧
    patchesFind (demoBus.setPatch demoDirectEnv demoBusState 3 "" 0 1 5).patches 3 = none ∧
    patchesFind (demoBus.setPatch demoDirectEnv demoBusState 19 "Piano" 0 1 5).patches 19
      = none ∧
    patchesFind (demoBus.setPatch demoDirectEnv demoBusState 19 "Piano" 0 1 5).patches 3
      = some ⟨"Piano", 0, 1, 5⟩ := by
  refine ⟨rfl, ?_, ?_, ?_, ?_⟩ <;> decide

/-- C22 (amended): after `set_patch(ch, instrument, method, bank, prog)` on an open engine
with a non-empty instrument name, the bus patch map holds the entry
`{instrument, method, bank, prog}` for channel `ch & 0x0F`, which is `ch` for `ch < 16`, the
entries of all other channels are unchanged, and the keys stay in ascending order; with an
empty instrument name the patch map is left as it was. -/
theorem set_patch_records (env : DirectEnv) (bus : MidiBus) (st : BusState) (ch : Nat)
    (instrument : String) (method bank : Int) (prog : Nat) (hopen : env.alsaSeq = true) :
    (instrument ≠ "" →
      patchesFind (bus.setPatch env st ch instrument method bank prog).patches (ch &&& 0x0F)
        = some ⟨instrument, method, bank, prog⟩ ∧
      (ch < 16 → patchesFind (bus.setPatch env st ch instrument method bank prog).patches ch
        = some ⟨instrument, method, bank, prog⟩) ∧
      (∀ j, j ≠ ch &&& 0x0F →
        patchesFind (bus.setPatch env st ch instrument method bank prog).patches j
          = patchesFind st.patches j) ∧
      (st.patches.Ordered →
        (bus.setPatch env st ch instrument method bank prog).patches.Ordered)) ∧
    (instrument = "" →
      (bus.setPatch env st ch instrument method bank prog).patches = st.patches) := by
  have hs := (setPatch_open env bus st ch instrument method bank prog hopen).2.2
  constructor
  · intro hne
    rw [hs, if_pos hne]
    refine ⟨patchesFind_set_self _ _ _, ?_, ?_, ?_⟩
    · intro h16
      have h := patchesFind_set_self (ch &&& 0x0f) ⟨instrument, method, bank, prog⟩ st.patches
      rw [and_channel ch h16] at h
      rw [and_channel ch h16]
      exact h
    · intro j hj
      exact patchesFind_set_other _ _ _ j hj
    · intro hord
      exact patchesSet_ordered _ _ _ hord
  · intro he
    rw [hs, if_neg (not_not.2 he)]

/-- Check of C22: a patch set on channel `9` of a bus that holds one on channel `0`. -/
theorem set_patch_records_witness :
    demoDirectEnv.alsaSeq = true ∧ "Drums" ≠ "" ∧
    patchesFind (demoBus.setPatch demoDirectEnv ⟨demoEngine, [(0, ⟨"Piano", 0, 1, 5⟩)]⟩
        9 "Drums" 3 0 0).patches 9 = some ⟨"Drums", 3, 0, 0⟩ :=
  ⟨rfl, by decide,
    ((set_patch_records demoDirectEnv demoBus ⟨demoEngine, [(0, ⟨"Piano", 0, 1, 5⟩)]⟩
      9 "Drums" 3 0 0 rfl).1 (by decide)).2.1 (by decide)⟩

/-- A key above all keys of a patch map holds no entry. -/
theorem patchesFind_above (m : PatchMap) (key : Nat) (h : ∀ kp, kp ∈ m → kp.1 < key) :
    patchesFind m key = none := by
  induction m with
  | nil => rfl
  | cons kq rest ih =>
    have hk : kq.1 < key := h kq (List.mem_cons_self _ _)
    unfold patchesFind
    rw [if_neg (by omega)]
    exact ih (fun kp hkp => h kp (List.mem_cons_of_mem _ hkp))

/-- An entry assigned to a key above all keys of a patch map goes last. -/
theorem patchesSet_above (m : PatchMap) (key : Nat) (p : Patch)
    (h : ∀ kp, kp ∈ m → kp.1 < key) : patchesSet key p m = m ++ [(key, p)] := by
  induction m with
  | nil => rfl
  | cons kq rest ih =>
    obtain ⟨k, q⟩ := kq
    have hk : k < key := h (k, q) (List.mem_cons_self _ _)
    unfold patchesSet
    rw [if_neg (by omega), if_neg (by omega),
      ih (fun kp hkp => h kp (List.mem_cons_of_mem _ hkp))]
    rfl

/-- The last entry of a patch map is found under its key, when the keys before are smaller. -/
theorem patchesFind_last (m : PatchMap) (key : Nat) (d : Patch)
    (h : ∀ kp, kp ∈ m → kp.1 < key) : patchesFind (m ++ [(key, d)]) key = some d := by
  induction m with
  | nil => simp [patchesFind]
  | cons kq rest ih =>
    have hk : kq.1 < key := h kq (List.mem_cons_self _ _)
    rw [List.cons_append]
    unfold patchesFind
    rw [if_neg (by omega)]
    exact ih (fun kp hkp => h kp (List.mem_cons_of_mem _ hkp))

/-- An assignment to the key of the last entry replaces that entry. -/
theorem patchesSet_last (m : PatchMap) (key : Nat) (d p : Patch)
    (h : ∀ kp, kp ∈ m → kp.1 < key) :
    patchesSet key p (m ++ [(key, d)]) = m ++ [(key, p)] := by
  induction m with
  | nil => simp [patchesSet]
  | cons kq rest ih =>
    obtain ⟨k, q⟩ := kq
    have hk : k < key := h (k, q) (List.mem_cons_self _ _)
    rw [List.cons_append]
    unfold patchesSet
    rw [if_neg (by omega), if_neg (by omega),
      ih (fun kp hkp => h kp (List.mem_cons_of_mem _ hkp))]
    rfl

/-- The inner loop of `loadMidiMap` on the children `saveMidiMap` writes for a patch: name,
method and bank are read back; the program, written as `midi-prog`, is not read by the
branch for `midi-program`, so the program of the starting patch stays. -/
theorem load_saved_fields (key : Nat) (p d : Patch) (hname : p.instrumentName ≠ "")
    (hmethod : 0 ≤ p.bankSelMethod) (hbank : 0 ≤ p.bank) (hprog : 0 ≤ p.prog) :
    (savePatchElement key p).children.foldl loadPatchField d
      = { p with prog := d.prog } := by
  unfold savePatchElement
  simp only [hname, hmethod, hbank, hprog, ne_eq, not_false_eq_true, if_true,
    List.cons_append, List.nil_append, List.foldl_cons, List.foldl_nil]
  simp [loadPatchField, DomText.text, DomText.toInt]

/-- The outer loop of `loadMidiMap` on the element `saveMidiMap` writes for an entry whose
channel is above all keys loaded so far: the entry goes last, with the default program. -/
theorem load_saved_element (dflt : Patch) (acc : PatchMap) (key : Nat) (p : Patch)
    (hkey : key < 16) (hacc : ∀ kp, kp ∈ acc → kp.1 < key)
    (hname : p.instrumentName ≠ "") (hmethod : 0 ≤ p.bankSelMethod) (hbank : 0 ≤ p.bank)
    (hprog : 0 ≤ p.prog) :
    loadPatchElement dflt acc (savePatchElement key p)
      = acc ++ [(key, { p with prog := dflt.prog })] := by
  have htag : (savePatchElement key p).tagName = "midi-patch" := rfl
  have hch : (savePatchElement key p).channel.toUShort &&& 0x0f = key := by
    have h1 : (savePatchElement key p).channel.toUShort = key := by
      show (if 0 ≤ (key : Int) ∧ (key : Int) < 65536 then (key : Int).toNat else 0) = key
      rw [if_pos (by omega)]
      exact Int.toNat_ofNat key
    rw [h1]
    exact and_channel key hkey
  unfold loadPatchElement
  rw [if_pos htag]
  simp only [hch]
  rw [patchesFind_above acc key hacc]
  simp only
  rw [patchesSet_above acc key dflt hacc, patchesFind_last acc key dflt hacc,
    Option.getD_some, load_saved_fields key p dflt hname hmethod hbank hprog,
    patchesSet_last acc key dflt _ hacc, if_neg hname]

/-- The loop of `loadMidiMap` over the elements `saveMidiMap` writes for a patch map that
continues, in ascending order, the keys loaded so far. -/
theorem load_saved_loop (dflt : Patch) (m : PatchMap) :
    ∀ acc : PatchMap, (∀ kp, kp ∈ acc → ∀ kq, kq ∈ m → kp.1 < kq.1) → m.Savable →
      (saveMidiMap m).foldl (loadPatchElement dflt) acc = acc ++ reloaded dflt m := by
  induction m with
  | nil => intro acc _ _; simp [saveMidiMap, reloaded]
  | cons kq rest ih =>
    intro acc hacc hsav
    obtain ⟨hord, hall⟩ := hsav
    unfold PatchMap.Ordered at hord
    rw [List.pairwise_cons] at hord
    obtain ⟨h16, hname, hmethod, hbank, hprog⟩ := hall kq (List.mem_cons_self _ _)
    have hstep := load_saved_element dflt acc kq.1 kq.2 h16
      (fun kp hkp => hacc kp hkp kq (List.mem_cons_self _ _)) hname hmethod hbank hprog
    unfold saveMidiMap reloaded
    rw [List.map_cons, List.foldl_cons, hstep, List.map_cons]
    have hrest := ih (acc ++ [(kq.1, { kq.2 with prog := dflt.prog })]) ?_
      ⟨hord.2, fun kp hkp => hall kp (List.mem_cons_of_mem _ hkp)⟩
    · unfold saveMidiMap reloaded at hrest
      rw [hrest, List.append_assoc]
      rfl
    · intro kp hkp kr hkr
      rcases List.mem_append.1 hkp with h | h
      · exact hacc kp h kr (List.mem_cons_of_mem _ hkr)
      · rw [List.mem_singleton] at h
        rw [h]
        exact hord.1 kr hkr

/-- A patch map is left as it was by the replacement of every program with the default one
exactly when every program already is the default one. -/
theorem reloaded_eq_iff (dflt : Patch) (m : PatchMap) :
    reloaded dflt m = m ↔ ∀ kp, kp ∈ m → kp.2.prog = dflt.prog := by
  unfold reloaded
  induction m with
  | nil => simp
  | cons kq rest ih =>
    obtain ⟨k, q⟩ := kq
    rw [List.map_cons, List.cons.injEq, ih]
    constructor
    · rintro ⟨h1, h2⟩ kp hkp
      rcases List.mem_cons.1 hkp with h | h
      · rw [h]
        have hq := congrArg (fun x => x.2.prog) h1
        exact hq.symm
      · exact h2 kp h
    · intro h
      refine ⟨?_, fun kp hkp => h kp (List.mem_cons_of_mem _ hkp)⟩
      have hq : q.prog = dflt.prog := h (k, q) (List.mem_cons_self _ _)
      show (k, ({ q with prog := dflt.prog } : Patch)) = (k, q)
      rw [← hq]

/-- C25 (the code diverges): for every patch map the claim covers (channels `0..15` in
ascending order, non-empty instrument names, non-negative method, bank and program),
`loadMidiMap` of the element written by `saveMidiMap` yields the same channels, instrument
names, methods and banks, but every program is the one of a default-constructed `Patch`:
`saveMidiMap` writes the program as `midi-prog`, `loadMidiMap` reads `midi-program`. The map
loaded is the original only if every program already was the default one. -/
theorem midi_map_round_trip (dflt : Patch) (m : PatchMap) (h : m.Savable) :
    loadMidiMap dflt (saveMidiMap m) = reloaded dflt m ∧
    (loadMidiMap dflt (saveMidiMap m)).map Prod.fst = m.map Prod.fst ∧
    (∀ (i : Nat) (kp : Nat × Patch), m[i]? = some kp →
      ∃ kq : Nat × Patch, (loadMidiMap dflt (saveMidiMap m))[i]? = some kq ∧
        kq.1 = kp.1 ∧ kq.2.instrumentName = kp.2.instrumentName ∧
        kq.2.bankSelMethod = kp.2.bankSelMethod ∧ kq.2.bank = kp.2.bank ∧
        kq.2.prog = dflt.prog) ∧
    (loadMidiMap dflt (saveMidiMap m) = m ↔ ∀ kp, kp ∈ m → kp.2.prog = dflt.prog) := by
  have hload : loadMidiMap dflt (saveMidiMap m) = reloaded dflt m := by
    unfold loadMidiMap
    rw [load_saved_loop dflt m [] (fun kp hkp => absurd hkp (List.not_mem_nil _)) h]
    rfl
  refine ⟨hload, ?_, ?_, ?_⟩
  · rw [hload]
    unfold reloaded
    rw [List.map_map]
    rfl
  · intro i kp hi
    rw [hload]
    unfold reloaded
    rw [List.getElem?_map, hi]
    exact ⟨_, rfl, rfl, rfl, rfl, rfl, rfl⟩
  · rw [hload]
    exact reloaded_eq_iff dflt m

/-- Check of C25 on one patch with program `5` on channel `0`, with a default-constructed
patch whose program is `-1`: the map loaded holds program `-1`. -/
theorem midi_map_round_trip_witness :
    demoPatches.Savable ∧
    loadMidiMap ⟨"", -1, -1, -1⟩ (saveMidiMap demoPatches) = [(0, ⟨"Piano", 0, 1, -1⟩)] ∧
    loadMidiMap ⟨"", -1, -1, -1⟩ (saveMidiMap demoPatches) ≠ demoPatches := by
  have hs : demoPatches.Savable := by
    refine ⟨List.pairwise_singleton _ _, ?_⟩
    intro kp hkp
    rw [demoPatches, List.mem_singleton] at hkp
    rw [hkp]
    decide
  have h := (midi_map_round_trip ⟨"", -1, -1, -1⟩ demoPatches hs).1
  refine ⟨hs, h, ?_⟩
  rw [h]
  decide

/-! ## Claims on the wake from the audio callback -/

/-- The method `qtractorMidiOutputThread::sync()` in closed form, for a caller that does not
hold the mutex. -/
theorem outputThread_sync (t : ThreadSync) (hself : t.heldBySelf = false) :
    MidiOutputThread.sync t
      = if t.heldByOther then { t with calls := t.calls ++ [ThreadCall.tryLock false] }
        else { t with wakes := t.wakes + 1,
                      calls := t.calls ++ [ThreadCall.tryLock true, ThreadCall.wakeAll,
                        ThreadCall.unlock] } := by
  obtain ⟨o, s, w, c⟩ := t
  simp only at hself
  subst hself
  cases o <;> simp [MidiOutputThread.sync, ThreadSync.tryLock, ThreadSync.wakeAll,
    ThreadSync.unlock]

/-- C26: the engine `sync()`, called by a thread that does not hold the output thread mutex,
makes no call that can block (no `lock`, no `wait`): it makes at most the calls
`tryLock`, `wakeAll`, `unlock`, and leaves the mutex as it found it. It signals the wait
condition, once, exactly when there is an output thread, `midiCursorSync()` returns the MIDI
cursor (with both cursors present: the MIDI cursor is not more than `W` ahead) and the
try-lock succeeds; when the mutex is held by a running cycle it signals nothing and changes
nothing but for the failed try-lock. It is a total function: no error path. -/
theorem engine_sync_wait_free (hasOutputThread : Bool) (W : Nat)
    (pAudioCursor pMidiCursor : Option SessionCursor) (t : ThreadSync)
    (hself : t.heldBySelf = false) :
    (∃ acts, (MidiEngine.sync hasOutputThread W pAudioCursor pMidiCursor t).calls
        = t.calls ++ acts ∧
      (∀ c, c ∈ acts → c.blocks = false) ∧
      (∀ c, c ∈ acts → c = ThreadCall.tryLock true ∨ c = ThreadCall.tryLock false ∨
        c = ThreadCall.wakeAll ∨ c = ThreadCall.unlock) ∧
      acts.length ≤ 3) ∧
    (MidiEngine.sync hasOutputThread W pAudioCursor pMidiCursor t).heldByOther
      = t.heldByOther ∧
    (MidiEngine.sync hasOutputThread W pAudioCursor pMidiCursor t).heldBySelf = false ∧
    ((MidiEngine.sync hasOutputThread W pAudioCursor pMidiCursor t).wakes
      = if hasOutputThread = true
          ∧ (midiCursorSync W pAudioCursor pMidiCursor false).isSome = true
          ∧ t.heldByOther = false
        then t.wakes + 1 else t.wakes) ∧
    (hasOutputThread = true →
      (midiCursorSync W pAudioCursor pMidiCursor false).isSome = true →
      t.heldByOther = false →
      (MidiEngine.sync hasOutputThread W pAudioCursor pMidiCursor t).calls
        = t.calls ++ [ThreadCall.tryLock true, ThreadCall.wakeAll, ThreadCall.unlock]) ∧
    (t.heldByOther = true →
      (MidiEngine.sync hasOutputThread W pAudioCursor pMidiCursor t).wakes = t.wakes ∧
      ((MidiEngine.sync hasOutputThread W pAudioCursor pMidiCursor t).calls = t.calls ∨
        (MidiEngine.sync hasOutputThread W pAudioCursor pMidiCursor t).calls
          = t.calls ++ [ThreadCall.tryLock false])) ∧
    (∀ a m : SessionCursor, pAudioCursor = some a → pMidiCursor = some m →
      a.frameTime + W < ULONG_SIZE →
      ((midiCursorSync W pAudioCursor pMidiCursor false).isSome = true
        ↔ ¬ m.frameTime > a.frameTime + W)) := by
  have hs := outputThread_sync t hself
  refine ⟨?_, ?_, ?_, ?_, ?_, ?_, ?_⟩
  · unfold MidiEngine.sync
    by_cases hc : (hasOutputThread
        && (midiCursorSync W pAudioCursor pMidiCursor false).isSome) = true
    · rw [if_pos hc, hs]
      by_cases ho : t.heldByOther = true
      · rw [if_pos ho]
        refine ⟨[ThreadCall.tryLock false], rfl, ?_, ?_, by decide⟩
        · intro c hc'
          rw [List.mem_singleton] at hc'
          rw [hc']
          rfl
        · intro c hc'
          rw [List.mem_singleton] at hc'
          exact Or.inr (Or.inl hc')
      · rw [if_neg ho]
        refine ⟨[ThreadCall.tryLock true, ThreadCall.wakeAll, ThreadCall.unlock], rfl, ?_, ?_,
          by decide⟩
        · intro c hc'
          simp only [List.mem_cons, List.mem_singleton, List.not_mem_nil, or_false] at hc'
          rcases hc' with h | h | h <;> (rw [h]; rfl)
        · intro c hc'
          simp only [List.mem_cons, List.mem_singleton, List.not_mem_nil, or_false] at hc'
          rcases hc' with h | h | h
          · exact Or.inl h
          · exact Or.inr (Or.inr (Or.inl h))
          · exact Or.inr (Or.inr (Or.inr h))
    · rw [if_neg hc]
      exact ⟨[], (List.append_nil _).symm, fun c h => absurd h (List.not_mem_nil _),
        fun c h => absurd h (List.not_mem_nil _), by decide⟩
  · unfold MidiEngine.sync
    split
    · rw [hs]
      split <;> rfl
    · rfl
  · unfold MidiEngine.sync
    split
    · rw [hs]
      split <;> exact hself
    · exact hself
  · unfold MidiEngine.sync
    cases hasOutputThread <;>
    cases (midiCursorSync W pAudioCursor pMidiCursor false).isSome <;>
    cases ho : t.heldByOther <;> simp [hs, ho]
  · intro h1 h2 h3
    unfold MidiEngine.sync
    rw [h1, h2, hs, h3]
    rfl
  · intro ho
    unfold MidiEngine.sync
    split
    · rw [hs, if_pos ho]
      exact ⟨rfl, Or.inr rfl⟩
    · exact ⟨rfl, Or.inl rfl⟩
  · intro a m ha hm hno
    rw [ha, hm]
    unfold midiCursorSync
    simp only [Bool.false_eq_true, if_false]
    rw [Nat.mod_eq_of_lt hno]
    by_cases hgt : m.frameTime > a.frameTime + W
    · rw [if_pos hgt]
      simp [hgt]
    · rw [if_neg hgt]
      simp [hgt]

/-- Check of C26: with the mutex free and the MIDI cursor level with the audio cursor, one
wake-up is signalled; with the mutex held by a cycle, none. -/
theorem engine_sync_wait_free_witness :
    demoThreadFree.heldBySelf = false ∧
    (MidiEngine.sync true 1000 (some ⟨4000, 4000⟩) (some ⟨5000, 4000⟩) demoThreadFree).wakes
      = 1 ∧
    (MidiEngine.sync true 1000 (some ⟨4000, 4000⟩) (some ⟨5000, 4000⟩) demoThreadBusy).wakes
      = 0 :=
  ⟨rfl,
    (engine_sync_wait_free true 1000 (some ⟨4000, 4000⟩) (some ⟨5000, 4000⟩) demoThreadFree
      rfl).2.2.2.1.trans (by decide),
    by decide⟩

/-! ## Claims on the conservation of event counts -/

/-- An `enqueue` raises the number of events counted by the monitor by one. -/
theorem enqueue_total (clk : MonitorClock) (m : MidiMonitor) (type : EventType)
    (val tick : Nat) (hR : m.InRange) (ht : m.total + 1 < UINT_SIZE) :
    (m.enqueue clk type val tick).total = m.total + 1 := by
  unfold MidiMonitor.enqueue
  cases hi : enqueueIndex clk m tick with
  | none =>
    simp only
    unfold MidiMonitor.total at ht ⊢
    simp only [QueueItem.put]
    rw [Nat.mod_eq_of_lt (by omega)]
    omega
  | some i =>
    have hlen : i < m.queue.length := by
      rw [hR.2]
      exact enqueueIndex_lt clk m tick i hi
    have hs := sumCounts_set m.queue i ((m.queue.getD i default).put type val) hlen
    have hle := getD_count_le m.queue i hlen
    unfold MidiMonitor.total at ht
    have hput : ((m.queue.getD i default).put type val).count
        = (m.queue.getD i default).count + 1 := by
      show ((m.queue.getD i default).count + 1) % UINT_SIZE = _
      exact Nat.mod_eq_of_lt (by omega)
    rw [hput] at hs
    show m.item.count + sumCounts (m.queue.set i ((m.queue.getD i default).put type val))
      = m.item.count + sumCounts m.queue + 1
    omega

/-- A sweep step moves the count of the slot it reads into the direct count. -/
theorem sweepStep_count (clk : MonitorClock) (s : Sweep) (h : s.mon.InRange)
    (ht : s.mon.total < UINT_SIZE) :
    (sweepStep clk s).mon.item.count
      = s.mon.item.count + (s.mon.queue.getD s.mon.iQueueIndex default).count ∧
    sumCounts (sweepStep clk s).mon.queue
        + (s.mon.queue.getD s.mon.iQueueIndex default).count
      = sumCounts s.mon.queue := by
  have hlen : s.mon.iQueueIndex < s.mon.queue.length := by rw [h.2]; exact h.1
  have hs : sumCounts (s.mon.queue.set s.mon.iQueueIndex ⟨0, 0⟩)
      + (s.mon.queue.getD s.mon.iQueueIndex default).count = sumCounts s.mon.queue :=
    sumCounts_set s.mon.queue s.mon.iQueueIndex ⟨0, 0⟩ hlen
  have hle := getD_count_le s.mon.queue s.mon.iQueueIndex hlen
  unfold MidiMonitor.total at ht
  simp only [sweepStep]
  rw [Nat.mod_eq_of_lt (by omega)]
  exact ⟨rfl, by omega⟩

/-- The sweep loop of `value()` keeps the number of events counted, and only moves counts
from the ring into the direct count. -/
theorem sweep_total (clk : MonitorClock) (iFrameEnd : Nat) (fuel : Nat) (s r : Sweep)
    (h : s.mon.InRange) (ht : s.mon.total < UINT_SIZE)
    (hr : sweep clk iFrameEnd fuel s = some r) :
    r.mon.total = s.mon.total ∧ s.mon.item.count ≤ r.mon.item.count ∧
    sumCounts r.mon.queue ≤ sumCounts s.mon.queue := by
  induction fuel generalizing s with
  | zero =>
    unfold sweep at hr
    split at hr
    · cases hr
    · cases hr
      exact ⟨rfl, Nat.le_refl _, Nat.le_refl _⟩
  | succ fuel ih =>
    unfold sweep at hr
    split at hr
    · have hst := sweepStep_total clk s h ht
      have hsc := sweepStep_count clk s h ht
      have hrec := ih (sweepStep clk s) (sweepStep_inRange clk s h) (by rw [hst]; exact ht) hr
      refine ⟨by rw [hrec.1, hst], ?_, ?_⟩
      · have h1 := hrec.2.1
        have h2 := hsc.1
        omega
      · have h1 := hrec.2.2
        have h2 := hsc.2
        omega
    · cases hr
      exact ⟨rfl, Nat.le_refl _, Nat.le_refl _⟩

/-- C27: on a monitor with its ring in range (every reachable monitor) and fewer than
`2^32 - 1` events counted: every `enqueue` raises the total `direct.count + Σ slot.count` by
exactly one; `value()`, whenever it returns, leaves that total unchanged, never lowers
`direct.count` and never raises the counts held in the ring; `count()` returns `direct.count`
(as an `int`: exactly so below `2^31`), sets it to `0` and touches no slot, so that the total
drops by exactly the number returned. `value()` does return when it is given enough fuel. -/
theorem event_counts_conserved (m : MidiMonitor) (hR : m.InRange)
    (ht : m.total + 1 < UINT_SIZE) :
    (∀ clk type val tick, (m.enqueue clk type val tick).total = m.total + 1) ∧
    (∀ clk session fuel r, m.value clk session fuel = some r →
      r.mon.total = m.total ∧ m.item.count ≤ r.mon.item.count ∧
      sumCounts r.mon.queue ≤ sumCounts m.queue) ∧
    (∀ clk session fuel,
      (∀ iFrameEnd, session = some iFrameEnd → 0 < clk.iFrameSlot →
        m.iFrameStart < iFrameEnd →
        m.iFrameStart + sweepCount clk m iFrameEnd * clk.iFrameSlot < ULONG_SIZE ∧
          sweepCount clk m iFrameEnd ≤ fuel) →
      ∃ r, m.value clk session fuel = some r) ∧
    (m.count.1.item.count = 0 ∧ m.count.1.queue = m.queue ∧
      m.count.1.item.value = m.item.value ∧ m.count.1.iQueueIndex = m.iQueueIndex ∧
      (m.count.1.total : Int) + (m.item.count : Int) = (m.total : Int) ∧
      (m.item.count < 2 ^ 31 → m.count.2 = (m.item.count : Int)) ∧
      m.count.2 % 2 ^ 32 = (m.item.count : Int)) := by
  refine ⟨fun clk type val tick => enqueue_total clk m type val tick hR ht, ?_,
    fun clk session fuel h => value_returns clk session fuel m h, ?_⟩
  · intro clk session fuel r hr
    have hclear : ∀ r, r = (⟨m.clearValue, m.item.value, []⟩ : Sweep) →
        r.mon.total = m.total ∧ m.item.count ≤ r.mon.item.count ∧
          sumCounts r.mon.queue ≤ sumCounts m.queue := by
      intro r hr
      rw [hr]
      exact ⟨rfl, Nat.le_refl _, Nat.le_refl _⟩
    unfold MidiMonitor.value at hr
    cases session with
    | none =>
      simp only [Option.some.injEq] at hr
      exact hclear r hr.symm
    | some iFrameEnd =>
      simp only at hr
      split at hr
      · exact sweep_total clk iFrameEnd fuel ⟨m.clearValue, m.item.value, []⟩ r hR
          (by show m.total < UINT_SIZE; omega) hr
      · simp only [Option.some.injEq] at hr
        exact hclear r hr.symm
  · have hc : m.item.count < UINT_SIZE := by
      unfold MidiMonitor.total at ht
      omega
    unfold UINT_SIZE at hc
    refine ⟨rfl, rfl, rfl, rfl, ?_, ?_, ?_⟩
    · unfold MidiMonitor.total MidiMonitor.count
      simp only
      omega
    · intro h31
      unfold MidiMonitor.count toInt32
      simp only
      omega
    · unfold MidiMonitor.count toInt32
      simp only
      omega

/-- Check of C27 on a fresh monitor at its first direct event: one event counted, and
`count()` returns it. -/
theorem event_counts_conserved_witness :
    freshMonitor.InRange ∧ freshMonitor.total + 1 < UINT_SIZE ∧
    (freshMonitor.enqueue ⟨3000, 24⟩ EventType.NOTEON 90 0).total = 1 ∧
    (freshMonitor.enqueue ⟨3000, 24⟩ EventType.NOTEON 90 0).count.2 = 1 :=
  ⟨⟨by decide, rfl⟩, by decide,
    (event_counts_conserved freshMonitor ⟨by decide, rfl⟩ (by decide)).1 ⟨3000, 24⟩
      EventType.NOTEON 90 0,
    by decide⟩

/-! ## Claims on the loop of the output cycle -/

/-- While the wrap loop runs, its condition holds and each pass lowers `iFrameEnd` by the
loop length. -/
theorem iterate_wrap_running (clk : MonitorClock) (sess : Session) (c : Cycle)
    (hlt : sess.loopStart < sess.loopEnd) (hE : c.iFrameEnd < ULONG_SIZE)
    (hge : sess.loopEnd ≤ c.iFrameEnd) (j : Nat)
    (hj : j < (c.iFrameEnd - sess.loopEnd) / (sess.loopEnd - sess.loopStart) + 1) :
    sess.loopEnd ≤ ((wrapStep clk sess)^[j] c).iFrameEnd ∧
    ((wrapStep clk sess)^[j + 1] c).iFrameEnd + (sess.loopEnd - sess.loopStart)
      = ((wrapStep clk sess)^[j] c).iFrameEnd := by
  have h1 := iterate_wrap_iFrameEnd clk sess c hlt hE hge j (by omega)
  have h2 := iterate_wrap_iFrameEnd clk sess c hlt hE hge (j + 1) (by omega)
  have hq : j * (sess.loopEnd - sess.loopStart) ≤ c.iFrameEnd - sess.loopEnd := by
    calc j * (sess.loopEnd - sess.loopStart)
        ≤ (c.iFrameEnd - sess.loopEnd) / (sess.loopEnd - sess.loopStart)
            * (sess.loopEnd - sess.loopStart) := Nat.mul_le_mul_right _ (by omega)
      _ ≤ c.iFrameEnd - sess.loopEnd := Nat.div_mul_le_self _ _
  rw [Nat.succ_mul] at h2
  generalize ((wrapStep clk sess)^[j + 1] c).iFrameEnd = a at h2 ⊢
  generalize ((wrapStep clk sess)^[j] c).iFrameEnd = b at h1 ⊢
  generalize j * (sess.loopEnd - sess.loopStart) = p at h1 h2 hq
  clear hj hE
  omega

/-- C28: with looping on, `loop_start < loop_end`, the cursor frame `s < loop_end` and
`s + W` below `2^64`, the wrap loop of `process()` terminates. When `s + W ≥ loop_end` it
runs exactly `(s + W − loop_end) / (loop_end − loop_start) + 1` times: its condition holds
before each of these passes, each pass lowers `end` by `loop_end − loop_start` and calls
`restartLoop` once, and on exit `end < loop_end`. When `s + W < loop_end` it runs `0` times.
Given that many units of fuel the model of the loop returns, and `process()` continues with
the regular range. -/
theorem wrap_loop_terminates (clk : MonitorClock) (sess : Session) (W : Nat)
    (st : OutputState) (cur : SessionCursor) (hl : sess.isLooping = true)
    (hlt : sess.loopStart < sess.loopEnd) (hs : cur.frame < sess.loopEnd)
    (hno : cur.frame + W < ULONG_SIZE) :
    (sess.loopEnd ≤ cur.frame + W →
      (∀ fuel, (cur.frame + W - sess.loopEnd) / (sess.loopEnd - sess.loopStart) + 1 ≤ fuel →
        wrapLoop clk sess fuel (entryCycle st cur W)
          = some ((wrapStep clk sess)^[
              (cur.frame + W - sess.loopEnd) / (sess.loopEnd - sess.loopStart) + 1]
              (entryCycle st cur W))) ∧
      (∀ j, j < (cur.frame + W - sess.loopEnd) / (sess.loopEnd - sess.loopStart) + 1 →
        sess.loopEnd ≤ ((wrapStep clk sess)^[j] (entryCycle st cur W)).iFrameEnd ∧
        ((wrapStep clk sess)^[j + 1] (entryCycle st cur W)).iFrameEnd
            + (sess.loopEnd - sess.loopStart)
          = ((wrapStep clk sess)^[j] (entryCycle st cur W)).iFrameEnd) ∧
      ((wrapStep clk sess)^[
          (cur.frame + W - sess.loopEnd) / (sess.loopEnd - sess.loopStart) + 1]
          (entryCycle st cur W)).iFrameEnd < sess.loopEnd ∧
      restartCount ((wrapStep clk sess)^[
          (cur.frame + W - sess.loopEnd) / (sess.loopEnd - sess.loopStart) + 1]
          (entryCycle st cur W)).st.trace
        = restartCount st.trace
          + ((cur.frame + W - sess.loopEnd) / (sess.loopEnd - sess.loopStart) + 1)) ∧
    (cur.frame + W < sess.loopEnd →
      ∀ fuel, wrapLoop clk sess fuel (entryCycle st cur W) = some (entryCycle st cur W)) ∧
    (∀ fuel, processWindow clk sess W fuel st cur
      = (wrapLoop clk sess fuel (entryCycle st cur W)).map (finishWindow clk sess W)) := by
  have hend : (entryCycle st cur W).iFrameEnd = cur.frame + W := by
    show (cur.frame + W) % ULONG_SIZE = cur.frame + W
    exact Nat.mod_eq_of_lt hno
  refine ⟨?_, ?_, ?_⟩
  · intro hge
    have hE : (entryCycle st cur W).iFrameEnd < ULONG_SIZE := by rw [hend]; exact hno
    have hge' : sess.loopEnd ≤ (entryCycle st cur W).iFrameEnd := by rw [hend]; exact hge
    have hwin := fun fuel hfuel =>
      wrapLoop_window clk sess (entryCycle st cur W) fuel hlt hE hge' hfuel
    have hrun := iterate_wrap_running clk sess (entryCycle st cur W) hlt hE hge'
    rw [hend] at hwin hrun
    refine ⟨fun fuel hfuel => (hwin fuel hfuel).1, hrun, ?_, ?_⟩
    · rw [(hwin _ (Nat.le_refl _)).2]
      have hmod := Nat.mod_lt (cur.frame + W - sess.loopEnd)
        (show 0 < sess.loopEnd - sess.loopStart by omega)
      omega
    · obtain ⟨acts, h1, _, h3⟩ := iterate_wrap_trace clk sess (entryCycle st cur W)
        ((cur.frame + W - sess.loopEnd) / (sess.loopEnd - sess.loopStart) + 1)
      rw [h1, restartCount_append, h3]
      rfl
  · intro hlt' fuel
    unfold wrapLoop
    rw [if_neg (by rw [hend]; omega)]
  · intro fuel
    unfold processWindow
    simp only
    rw [if_pos ⟨hl, hs⟩]
    show _ = (wrapLoop clk sess fuel
      ⟨{ st with midiCursor := some cur }, cur.frame, (cur.frame + W) % ULONG_SIZE⟩).map
        (finishWindow clk sess W)
    cases wrapLoop clk sess fuel
      ⟨{ st with midiCursor := some cur }, cur.frame, (cur.frame + W) % ULONG_SIZE⟩ <;> rfl

/-- Check of C28 on the loop `[1000, 21000)` with the cursor at frame `5000` and a window of
`48000` frames: two passes, leaving `end = 13000`. -/
theorem wrap_loop_terminates_witness :
    demoSession.isLooping = true ∧ demoSession.loopStart < demoSession.loopEnd ∧
    (5000 : Nat) < demoSession.loopEnd ∧ 5000 + 48000 < ULONG_SIZE ∧
    ((wrapStep ⟨3000, 24⟩ demoSession)^[2]
      (entryCycle demoOutputState ⟨5000, 5000⟩ 48000)).iFrameEnd < 21000 :=
  ⟨rfl, by decide, by decide, by decide,
    ((wrap_loop_terminates ⟨3000, 24⟩ demoSession 48000 demoOutputState ⟨5000, 5000⟩ rfl
      (by decide) (by decide) (by decide)).1 (by decide)).2.2.1⟩

/-- The wrap loop only seeks the MIDI cursor: its frame-time is the one of the cursor the
cycle started with. -/
theorem iterate_wrap_cursor (clk : MonitorClock) (sess : Session) (c : Cycle) (ft : Nat)
    (h : ∃ x, c.st.midiCursor = some x ∧ x.frameTime = ft) (n : Nat) :
    ∃ x, ((wrapStep clk sess)^[n] c).st.midiCursor = some x ∧ x.frameTime = ft := by
  induction n with
  | zero => exact h
  | succ n ih =>
    obtain ⟨x, hx, hft⟩ := ih
    rw [Function.iterate_succ_apply']
    refine ⟨x.seek sess.loopStart, ?_, hft⟩
    show (((wrapStep clk sess)^[n] c).st.midiCursor).map (fun cur => cur.seek sess.loopStart)
      = some (x.seek sess.loopStart)
    rw [hx]
    rfl

/-- C29: in `process()`, with the session's looping flag and loop bounds fixed during the
cycle, on every path that reaches the final loop-boundary fold its condition
(`looping ∧ start < loop_end ∧ end ≥ loop_end`) is false: the MIDI cursor is sought to the
`end` left by the wrap loop, then advanced by `W`, and the fold assignment is never
executed. With `loop_start < loop_end`, no overflow of `s + W` and enough fuel for the wrap
loop, `process()` does reach that point and returns. -/
theorem final_fold_unreachable (clk : MonitorClock) (sess : Session) (inp : CycleInput)
    (W fuel : Nat) (st : OutputState) (cur : SessionCursor)
    (hsync : midiCursorSync W inp.audioCursor st.midiCursor false = some cur) :
    (∀ st', process clk sess inp W fuel st = some st' →
      ∃ n,
        ¬ (sess.isLooping = true ∧
            ((wrapStep clk sess)^[n] (entryCycle st cur W)).iFrameStart < sess.loopEnd ∧
            ((wrapStep clk sess)^[n] (entryCycle st cur W)).iFrameEnd ≥ sess.loopEnd) ∧
        st'.midiCursor
          = some ⟨((wrapStep clk sess)^[n] (entryCycle st cur W)).iFrameEnd,
              (cur.frameTime + W) % ULONG_SIZE⟩ ∧
        st'.trace = ((wrapStep clk sess)^[n] (entryCycle st cur W)).st.trace
          ++ [Action.sessionProcess ((wrapStep clk sess)^[n] (entryCycle st cur W)).iFrameStart
                ((wrapStep clk sess)^[n] (entryCycle st cur W)).iFrameEnd,
              Action.cursorSeek ((wrapStep clk sess)^[n] (entryCycle st cur W)).iFrameEnd,
              Action.cursorProcess W, Action.flush]) ∧
    (sess.loopStart < sess.loopEnd → cur.frame + W < ULONG_SIZE →
      (cur.frame + W - sess.loopEnd) / (sess.loopEnd - sess.loopStart) + 1 ≤ fuel →
      ∃ st', process clk sess inp W fuel st = some st') := by
  constructor
  · intro st' h
    cases hw : processWindow clk sess W fuel st cur with
    | none =>
      unfold process at h
      rw [hsync] at h
      simp only [hw] at h
      cases h
    | some st1 =>
      rw [process_of_window clk sess inp W fuel st st1 cur hsync hw] at h
      simp only [Option.some.injEq] at h
      obtain ⟨n, hst1, _, hcond⟩ := processWindow_result clk sess W fuel st st1 cur hw
      obtain ⟨x, htr, hcur, hx⟩ := finishWindow_trace clk sess W
        ((wrapStep clk sess)^[n] (entryCycle st cur W))
      obtain ⟨y, hy, hft⟩ := iterate_wrap_cursor clk sess (entryCycle st cur W) cur.frameTime
        ⟨cur, rfl, rfl⟩ n
      have hxe := hx hcond
      refine ⟨n, ?_, ?_, ?_⟩
      · rintro ⟨hl, hlt, hge⟩
        rcases hcond with hc | hc | hc
        · omega
        · rw [hl] at hc
          exact absurd hc (by decide)
        · omega
      · rw [← h]
        show st1.midiCursor = _
        rw [hst1, hcur, hy, hxe]
        show some (⟨_, (y.frameTime + W) % ULONG_SIZE⟩ : SessionCursor) = _
        rw [hft]
        rfl
      · rw [← h]
        show st1.trace ++ [Action.flush] = _
        rw [hst1, htr, hxe, List.append_assoc]
        rfl
  · intro hlt hno hfuel
    have hex : ∃ st1, processWindow clk sess W fuel st cur = some st1 := by
      by_cases hc : sess.isLooping = true ∧ cur.frame < sess.loopEnd
      · by_cases hge : sess.loopEnd ≤ cur.frame + W
        · exact ⟨_, (processWindow_wraps clk sess W fuel st cur hc.1 hlt hc.2 hno hge
            hfuel).1⟩
        · exact ⟨_, processWindow_single clk sess W fuel st cur hno (Or.inr (by omega))⟩
      · refine ⟨finishWindow clk sess W (entryCycle st cur W), ?_⟩
        unfold processWindow
        simp only
        rw [if_neg hc]
        rfl
    obtain ⟨st1, hst1⟩ := hex
    exact ⟨_, process_of_window clk sess inp W fuel st st1 cur hsync hst1⟩

/-- Check of C29 on the loop `[1000, 21000)` with the cursor at frame `5000` and a window of
`48000` frames: the cycle returns, with the frame-time of the cursor advanced to `53000`. -/
theorem final_fold_unreachable_witness :
    midiCursorSync 48000 demoInput.audioCursor demoOutputState.midiCursor false
      = some ⟨5000, 5000⟩ ∧
    ∃ st', process ⟨3000, 24⟩ demoSession demoInput 48000 2 demoOutputState = some st' ∧
      ∃ x, st'.midiCursor = some ⟨x, 53000⟩ := by
  have hsync : midiCursorSync 48000 demoInput.audioCursor demoOutputState.midiCursor false
      = some ⟨5000, 5000⟩ := by decide
  have h := final_fold_unreachable ⟨3000, 24⟩ demoSession demoInput 48000 2
    demoOutputState ⟨5000, 5000⟩ hsync
  obtain ⟨st', hst'⟩ := h.2 (by decide) (by decide) (by decide)
  obtain ⟨n, _, hcur, _⟩ := h.1 st' hst'
  exact ⟨hsync, st', hst', _, hcur⟩

/-! ## Claims on the MMC masked write -/

/-- The shift count of the mask of a masked write is at most `6`. -/
theorem maskedWrite_shift_le (i : Nat) : (if i < 2 then i + 5 else (i - 2) % 7) ≤ 6 := by
  split <;> omega

/-- The mask of a masked write is a single bit below `0x80`. -/
theorem maskedWriteMask_bit (i : Nat) :
    ∃ k, k < 7 ∧ maskedWriteMask i = 2 ^ k ∧ maskedWriteMask i < 0x80 ∧
      k = (if i < 2 then i + 5 else (i - 2) % 7) := by
  have hk := maskedWrite_shift_le i
  refine ⟨if i < 2 then i + 5 else (i - 2) % 7, by omega, ?_, ?_, rfl⟩
  · unfold maskedWriteMask
    exact Nat.one_shiftLeft _
  · unfold maskedWriteMask
    rw [Nat.one_shiftLeft]
    calc 2 ^ (if i < 2 then i + 5 else (i - 2) % 7) ≤ 2 ^ 6 :=
          Nat.pow_le_pow_right (by decide) hk
      _ < 0x80 := by decide

/-- Two track indices with the same byte and the same mask are the same index. -/
theorem maskedWrite_injective (i j : Nat)
    (hb : maskedWriteByte i = maskedWriteByte j) (hm : maskedWriteMask i = maskedWriteMask j) :
    i = j := by
  unfold maskedWriteMask at hm
  rw [Nat.one_shiftLeft, Nat.one_shiftLeft] at hm
  have hk := Nat.pow_right_injective (le_refl 2) hm
  unfold maskedWriteByte at hb
  by_cases hi : i < 2 <;> by_cases hj : j < 2
  · rw [if_pos hi, if_pos hj] at hk
    omega
  · rw [if_pos hi, if_neg hj] at hb
    omega
  · rw [if_neg hi, if_pos hj] at hb
    omega
  · rw [if_neg hi, if_neg hj] at hb hk
    omega

/-- C30: for an MMC masked write with a sub-command below `256` and a track index
`i < 2 + 7 * 255`, the payload handed to `sendMmcCommand` is `{subcmd, byte, mask, value}`
with `byte = 0` if `i < 2` else `1 + (i − 2) / 7`, `mask = 1 << (i + 5` if `i < 2` else
`(i − 2) mod 7)` and `value = mask` if on else `0`; every mask is a single bit below `0x80`,
and two different track indices never yield the same `(byte, mask)` pair. -/
theorem mmc_masked_write_payload (scmd : Nat) (hs : scmd < UCHAR_SIZE) :
    (∀ i, i < 2 + 7 * 255 → ∀ bOn : Bool,
      mmcMaskedWriteData scmd i bOn
        = [scmd, maskedWriteByte i, maskedWriteMask i, if bOn then maskedWriteMask i else 0] ∧
      (∀ env bus e MASKED_WRITE, sendMmcMaskedWrite env bus e MASKED_WRITE scmd i bOn
        = sendMmcCommand env bus e MASKED_WRITE
            (some [scmd, maskedWriteByte i, maskedWriteMask i,
              if bOn then maskedWriteMask i else 0]) 4) ∧
      maskedWriteByte i < UCHAR_SIZE ∧
      (∃ k, k < 7 ∧ maskedWriteMask i = 2 ^ k) ∧ maskedWriteMask i < 0x80) ∧
    (∀ i j, i < 2 + 7 * 255 → j < 2 + 7 * 255 →
      (∀ bOn bOn2 : Bool, (mmcMaskedWriteData scmd i bOn).take 3
        = (mmcMaskedWriteData scmd j bOn2).take 3 → i = j) ∧
      (maskedWriteByte i = maskedWriteByte j → maskedWriteMask i = maskedWriteMask j →
        i = j)) := by
  have hdata : ∀ i, i < 2 + 7 * 255 → ∀ bOn : Bool,
      mmcMaskedWriteData scmd i bOn
        = [scmd, maskedWriteByte i, maskedWriteMask i,
            if bOn then maskedWriteMask i else 0] := by
    intro i hi bOn
    obtain ⟨k, _, _, hlt, _⟩ := maskedWriteMask_bit i
    have hbyte : maskedWriteByte i < UCHAR_SIZE := by
      unfold maskedWriteByte UCHAR_SIZE
      split <;> omega
    have hmask : maskedWriteMask i % UCHAR_SIZE = maskedWriteMask i := by
      apply Nat.mod_eq_of_lt
      unfold UCHAR_SIZE
      omega
    show [scmd % UCHAR_SIZE, maskedWriteByte i % UCHAR_SIZE, maskedWriteMask i % UCHAR_SIZE,
      (if bOn then maskedWriteMask i else 0) % UCHAR_SIZE] = _
    rw [Nat.mod_eq_of_lt hs, Nat.mod_eq_of_lt hbyte, hmask]
    cases bOn
    · rfl
    · simp only [if_true]
      rw [hmask]
  constructor
  · intro i hi bOn
    obtain ⟨k, hk, hpow, hlt, _⟩ := maskedWriteMask_bit i
    refine ⟨hdata i hi bOn, ?_, ?_, ⟨k, hk, hpow⟩, hlt⟩
    · intro env bus e MASKED_WRITE
      unfold sendMmcMaskedWrite
      rw [hdata i hi bOn]
    · unfold maskedWriteByte UCHAR_SIZE
      split <;> omega
  · intro i j hi hj
    refine ⟨?_, maskedWrite_injective i j⟩
    intro bOn bOn2 h
    rw [hdata i hi bOn, hdata j hj bOn2] at h
    simp only [List.take_succ_cons, List.take_zero, List.cons.injEq, and_true, true_and] at h
    exact maskedWrite_injective i j h.1 h.2

/-- Check of C30 on sub-command `0x4F` (record ready), track `9`, switched on: byte `2`, mask `1`. -/
theorem mmc_masked_write_payload_witness :
    (0x4F : Nat) < UCHAR_SIZE ∧ mmcMaskedWriteData 0x4F 9 true = [0x4F, 2, 1, 1] ∧
    mmcMaskedWriteData 0x4F 1 false = [0x4F, 0, 64, 0] :=
  ⟨by decide,
    ((mmc_masked_write_payload 0x4F (by decide)).1 9 (by decide) true).1.trans (by decide),
    by decide⟩

end Qtractor
